import Mathlib

/-!
# Portfolio site scripts: rate limiters, visibility observer, notifications, contact form

A shallow embedding of the shared utilities of `js/common.js` (and the legacy
`script.js`) together with the contact form flow of `js/contact.js`, the FAQ
of the contact page, the bookmarks, the search and the newsletter check of
`js/blog.js`, the typing animation of `js/home.js`, and the carousel and the
slugs of `js/projects.js`.

Time is a natural number of milliseconds.  A pending `setTimeout` callback is a
`Timer`: the handle returned by `setTimeout`, the instant at which it expires
and the data captured by the callback.  Timers are fired at their due instant,
earliest first, ties in scheduling order.
-/

namespace Portfolio

/-! ## Timers -/

/-- One pending `setTimeout` callback. -/
structure Timer (τ : Type) where
  handle : Nat
  due : Nat
  task : τ
deriving DecidableEq, Repr

/-- The timers of `ts` that have expired at `now`, in firing order. -/
def expired {τ : Type} (now : Nat) (ts : List (Timer τ)) : List (Timer τ) :=
  (ts.filter (fun t => decide (t.due ≤ now))).insertionSort (fun a b => a.due ≤ b.due)

/-- The timers of `ts` still pending after `now`. -/
def pendingAfter {τ : Type} (now : Nat) (ts : List (Timer τ)) : List (Timer τ) :=
  ts.filter (fun t => !decide (t.due ≤ now))

/-- The platform call `clearTimeout(h)`: drops the timer with handle `h`; a handle that is not
pending (or `undefined`/`null`) changes nothing. -/
def clearTimeout {τ : Type} (h : Option Nat) (ts : List (Timer τ)) : List (Timer τ) :=
  ts.filter (fun t => !decide (some t.handle = h))

/-! ## `Utils.debounce` (js/common.js) -/

/-- State closed over by one wrapper returned by `debounce`: the variable
`timeout`, the pending `later` callbacks (each holding the `args` of the call
that scheduled it) and the record of the executions of `func`. -/
structure Debounce (α : Type) where
  timeout : Option Nat
  nextHandle : Nat
  timers : List (Timer α)
  calls : List (Nat × α)
deriving DecidableEq, Repr

namespace Debounce

/-- State right after `debounce(func, wait, immediate)` returned. -/
def init {α : Type} : Debounce α :=
  { timeout := none, nextHandle := 1, timers := [], calls := [] }

/-- The callback `later` of `Utils.debounce`: `timeout = null; if (!immediate) func(...args)`. -/
def later {α : Type} (immediate : Bool) (s : Debounce α) (t : Timer α) : Debounce α :=
  let s1 := { s with timeout := none }
  if !immediate then { s1 with calls := s1.calls ++ [(t.due, t.task)] } else s1

/-- Lets time pass until `now`: every expired `later` runs. -/
def advance {α : Type} (immediate : Bool) (now : Nat) (s : Debounce α) : Debounce α :=
  (expired now s.timers).foldl (later immediate) { s with timers := pendingAfter now s.timers }

/-- The wrapper `executedFunction(...args)` of `Utils.debounce`, called at `now`. -/
def executedFunction {α : Type} (wait : Nat) (immediate : Bool) (now : Nat) (args : α)
    (s : Debounce α) : Debounce α :=
  let callNow := immediate && s.timeout.isNone
  let cleared := clearTimeout s.timeout s.timers
  let s1 : Debounce α :=
    { s with
      timers := cleared ++ [{ handle := s.nextHandle, due := now + wait, task := args }]
      timeout := some s.nextHandle
      nextHandle := s.nextHandle + 1 }
  if callNow then { s1 with calls := s1.calls ++ [(now, args)] } else s1

/-- A sequence of calls `(time, args)` of the wrapper, time passing in between. -/
def run {α : Type} (wait : Nat) (immediate : Bool) :
    List (Nat × α) → Debounce α → Debounce α
  | [], s => s
  | (t, a) :: cs, s => run wait immediate cs (executedFunction wait immediate t a (advance immediate t s))

end Debounce

/-! ## `debounce` (script.js) -/

namespace Legacy

/-- The callback `later` of the legacy `debounce`: `clearTimeout(timeout); func(...args)`. -/
def later {α : Type} (s : Debounce α) (t : Timer α) : Debounce α :=
  { s with timers := clearTimeout s.timeout s.timers, calls := s.calls ++ [(t.due, t.task)] }

/-- Lets time pass until `now` for a legacy wrapper. -/
def advance {α : Type} (now : Nat) (s : Debounce α) : Debounce α :=
  (expired now s.timers).foldl later { s with timers := pendingAfter now s.timers }

/-- The wrapper `executedFunction(...args)` of the legacy `debounce`, called at `now`. -/
def executedFunction {α : Type} (wait : Nat) (now : Nat) (args : α) (s : Debounce α) :
    Debounce α :=
  { s with
    timers := clearTimeout s.timeout s.timers ++
      [{ handle := s.nextHandle, due := now + wait, task := args }]
    timeout := some s.nextHandle
    nextHandle := s.nextHandle + 1 }

/-- A sequence of calls of a legacy wrapper. -/
def run {α : Type} (wait : Nat) : List (Nat × α) → Debounce α → Debounce α
  | [], s => s
  | (t, a) :: cs, s => run wait cs (executedFunction wait t a (advance t s))

end Legacy

/-! ## `Utils.throttle` (js/common.js) and `throttle` (script.js): the same text -/

/-- State closed over by one wrapper returned by `throttle`: the flag
`inThrottle`, the pending reset callbacks and the record of the executions of
`func`. -/
structure Throttle (α : Type) where
  inThrottle : Bool
  nextHandle : Nat
  timers : List (Timer Unit)
  calls : List (Nat × α)
deriving DecidableEq, Repr

namespace Throttle

/-- State right after `throttle(func, limit)` returned (`inThrottle` undefined). -/
def init {α : Type} : Throttle α :=
  { inThrottle := false, nextHandle := 1, timers := [], calls := [] }

/-- The timer callback `() => inThrottle = false`. -/
def reset {α : Type} (s : Throttle α) (_t : Timer Unit) : Throttle α :=
  { s with inThrottle := false }

/-- Lets time pass until `now`: every expired reset callback runs. -/
def advance {α : Type} (now : Nat) (s : Throttle α) : Throttle α :=
  (expired now s.timers).foldl reset { s with timers := pendingAfter now s.timers }

/-- The wrapper returned by `throttle`, called at `now` with `args`. -/
def wrapped {α : Type} (limit : Nat) (now : Nat) (args : α) (s : Throttle α) : Throttle α :=
  if !s.inThrottle then
    { s with
      calls := s.calls ++ [(now, args)]
      inThrottle := true
      timers := s.timers ++ [{ handle := s.nextHandle, due := now + limit, task := () }]
      nextHandle := s.nextHandle + 1 }
  else s

/-- A sequence of calls `(time, args)` of the wrapper, time passing in between. -/
def run {α : Type} (limit : Nat) : List (Nat × α) → Throttle α → Throttle α
  | [], s => s
  | (t, a) :: cs, s => run limit cs (wrapped limit t a (advance t s))

/-- Follows the words of the specification: the first call executes and starts
a cooldown of `limit`; a call arriving during the cooldown is dropped; the next
call after the cooldown has elapsed executes and restarts the cooldown.
`cooldownEnd` is the instant at which the running cooldown ends, if any. -/
def specCalls {α : Type} (limit : Nat) : Option Nat → List (Nat × α) → List (Nat × α)
  | _, [] => []
  | none, (t, a) :: cs => (t, a) :: specCalls limit (some (t + limit)) cs
  | some e, (t, a) :: cs =>
    if t < e then specCalls limit (some e) cs
    else (t, a) :: specCalls limit (some (t + limit)) cs

end Throttle

/-- Integer ceiling of `d / n`. -/
def ceilDiv (d n : Nat) : Nat := (d + n - 1) / n

/-- A debounced wrapper holding exactly one pending `later`, scheduled by a call
at `t` with `a`, and that has not run `func` yet. -/
def Armed {α : Type} (wait : Nat) (s : Debounce α) (t : Nat) (a : α) : Prop :=
  s.calls = [] ∧ ∃ h, s.timers = [{ handle := h, due := t + wait, task := a }] ∧
    s.timeout = some h

/-! ## `AnimationObserver` (js/common.js) -/

/-- A DOM element, by identity. -/
abbrev Element := Nat

/-- The `options` object handed to `new IntersectionObserver(callback, options)`. -/
structure ObserverOptions where
  rootMargin : String
  thresholdPercent : Nat
deriving DecidableEq, Repr

/-- One `IntersectionObserverEntry` as read by the callbacks. -/
structure Entry where
  target : Element
  isIntersecting : Bool
deriving DecidableEq, Repr

/-- The platform's `IntersectionObserver`: its options and its observation
targets, kept in the order of the `observe()` calls. -/
structure IntersectionObserver where
  options : ObserverOptions
  targets : List Element
deriving DecidableEq, Repr

namespace IntersectionObserver

/-- Platform `observe(el)`: appends `el` to the targets unless already there. -/
def observe (o : IntersectionObserver) (el : Element) : IntersectionObserver :=
  if el ∈ o.targets then o else { o with targets := o.targets ++ [el] }

/-- Platform `unobserve(el)`: removes `el` from the targets. -/
def unobserve (o : IntersectionObserver) (el : Element) : IntersectionObserver :=
  { o with targets := o.targets.filter (fun x => !decide (x = el)) }

/-- The entries the platform hands to the callback in one intersection tick.
`changes` gives the new `isIntersecting` flag of every element whose
intersection changed; as the Intersection Observer standard prescribes, the
platform walks the targets in `observe()` order and queues one entry for each
changed target. -/
def entries (o : IntersectionObserver) (changes : List (Element × Bool)) : List Entry :=
  o.targets.filterMap (fun el => (changes.lookup el).map (fun b => Entry.mk el b))

end IntersectionObserver

/-- The method `Set.prototype.add`. -/
def setAdd (el : Element) (set : List Element) : List Element :=
  if el ∈ set then set else set ++ [el]

/-- Applies `f` to the element at index `i`, if any. -/
def updateAt {β : Type} (f : β → β) : Nat → List β → List β
  | _, [] => []
  | 0, x :: xs => f x :: xs
  | n + 1, x :: xs => x :: updateAt f n xs

/-- The first argument of `AnimationObserver.observe`. -/
inductive Selector where
  | css (query : String)
  | list (elements : List Element)
  | single (element : Element)
deriving DecidableEq, Repr

/-- An `AnimationObserver`: the set `observedElements`, the default observer
`this.observer`, the temporary observers made by `observe(selector, options)`
(in creation order) and the record of the invocations of `animateElement`. -/
structure AnimationObserver where
  observedElements : List Element
  observer : IntersectionObserver
  tempObservers : List IntersectionObserver
  animated : List Element
deriving DecidableEq, Repr

namespace AnimationObserver

/-- The selectors of `observeElements`. -/
def animationClasses : List String :=
  [".fade-in-up", ".fade-in-down", ".fade-in-left", ".fade-in-right", ".scale-in"]

/-- The options of `setupIntersectionObserver` (threshold 0.1). -/
def defaultOptions : ObserverOptions :=
  { rootMargin := "0px 0px -50px 0px", thresholdPercent := 10 }

/-- One invocation of `animateElement(element)`, recorded in `animated`. -/
def animateElement (el : Element) (s : AnimationObserver) : AnimationObserver :=
  { s with animated := s.animated ++ [el] }

/-- The method `observeElements`; `query` is `document.querySelectorAll`. -/
def observeElements (query : String → List Element) (s : AnimationObserver) :
    AnimationObserver :=
  animationClasses.foldl
    (fun s1 className =>
      (query className).foldl (fun s2 el => { s2 with observer := s2.observer.observe el }) s1)
    s

/-- The constructor: `observedElements = new Set()`, then `init()`. -/
def new (query : String → List Element) : AnimationObserver :=
  observeElements query
    { observedElements := []
      observer := { options := defaultOptions, targets := [] }
      tempObservers := []
      animated := [] }

/-- The callback of the default observer, run on the entries of one tick. -/
def defaultCallback (entries : List Entry) (s : AnimationObserver) : AnimationObserver :=
  entries.foldl
    (fun s1 entry =>
      if entry.isIntersecting && !decide (entry.target ∈ s1.observedElements) then
        { animateElement entry.target s1 with
          observedElements := setAdd entry.target s1.observedElements }
      else s1)
    s

/-- The callback of the `i`-th temporary observer, run on the entries of one tick. -/
def tempCallback (i : Nat) (entries : List Entry) (s : AnimationObserver) :
    AnimationObserver :=
  entries.foldl
    (fun s1 entry =>
      if entry.isIntersecting then
        { animateElement entry.target s1 with
          tempObservers := updateAt (fun o => o.unobserve entry.target) i s1.tempObservers }
      else s1)
    s

/-- One intersection tick of the default observer. -/
def tick (changes : List (Element × Bool)) (s : AnimationObserver) : AnimationObserver :=
  defaultCallback (s.observer.entries changes) s

/-- One intersection tick of the `i`-th temporary observer. -/
def tempTick (i : Nat) (changes : List (Element × Bool)) (s : AnimationObserver) :
    AnimationObserver :=
  match s.tempObservers[i]? with
  | none => s
  | some o => tempCallback i (o.entries changes) s

/-- The elements a selector stands for. -/
def resolve (query : String → List Element) : Selector → List Element
  | Selector.css q => query q
  | Selector.list els => els
  | Selector.single el => [el]

/-- The method `observe(selector, options = null)`. -/
def observe (query : String → List Element) (selector : Option Selector)
    (options : Option ObserverOptions) (s : AnimationObserver) : AnimationObserver :=
  match selector with
  | none => s
  | some sel =>
    if sel = Selector.css "" then s
    else
      let elements := resolve query sel
      match options with
      | some opts =>
        let tempObserver : IntersectionObserver :=
          elements.foldl (fun o el => o.observe el) { options := opts, targets := [] }
        { s with tempObservers := s.tempObservers ++ [tempObserver] }
      | none =>
        elements.foldl (fun s1 el => { s1 with observer := s1.observer.observe el }) s

/-- The method `triggerAnimation(element)`; `none` is a null element. -/
def triggerAnimation (element : Option Element) (s : AnimationObserver) : AnimationObserver :=
  match element with
  | none => s
  | some el =>
    if !decide (el ∈ s.observedElements) then
      { animateElement el s with observedElements := setAdd el s.observedElements }
    else s

/-- What can happen to an `AnimationObserver` after construction. -/
inductive Op where
  | observe (selector : Option Selector) (options : Option ObserverOptions)
  | tick (changes : List (Element × Bool))
  | tempTick (i : Nat) (changes : List (Element × Bool))
  | triggerAnimation (element : Option Element)
deriving DecidableEq, Repr

/-- Effect of one operation. -/
def step (query : String → List Element) (s : AnimationObserver) : Op → AnimationObserver
  | Op.observe selector options => observe query selector options s
  | Op.tick changes => tick changes s
  | Op.tempTick i changes => tempTick i changes s
  | Op.triggerAnimation element => triggerAnimation element s

/-- Effect of a sequence of operations. -/
def runOps (query : String → List Element) (ops : List Op) (s : AnimationObserver) :
    AnimationObserver :=
  ops.foldl (step query) s

end AnimationObserver

/-! ## `NotificationSystem` (js/common.js) -/

/-- One notification element, as created by `show`. -/
structure Notification where
  id : Nat
  message : String
  type : String
deriving DecidableEq, Repr

/-- What a pending timer of the notification system does when it fires:
`() => this.hide(notification)` set by `show`, or the removal callback set by
`hide`. -/
inductive NotificationTask where
  | autoHide (n : Notification)
  | detach (n : Notification)
deriving DecidableEq, Repr

/-- The notification system: the children of `#notification-container` in
order, the pending timers, and the record `(time, node)` of the executions of
`removeChild`. -/
structure NotificationSystem where
  container : List Notification
  nextNode : Nat
  nextHandle : Nat
  timers : List (Timer NotificationTask)
  detached : List (Nat × Notification)
deriving DecidableEq, Repr

namespace NotificationSystem

/-- Delay of the removal callback of `hide`, the length of the exit transition. -/
def exitTransitionMs : Nat := 300

/-- State after the constructor: an empty container. -/
def init : NotificationSystem :=
  { container := [], nextNode := 1, nextHandle := 1, timers := [], detached := [] }

/-- The platform call `setTimeout(task, delay)` at `now`. -/
def setTimeout (now delay : Nat) (task : NotificationTask) (s : NotificationSystem) :
    NotificationSystem :=
  { s with
    timers := s.timers ++ [{ handle := s.nextHandle, due := now + delay, task := task }]
    nextHandle := s.nextHandle + 1 }

/-- The method `show(message, type = 'info', duration = 5000)` called at `now`;
an argument left out (`undefined`) is `none`. Returns the new element. -/
def «show» (now : Nat) (message : String) (type : Option String) (duration : Option Nat)
    (s : NotificationSystem) : Notification × NotificationSystem :=
  let notification : Notification :=
    { id := s.nextNode, message := message, type := type.getD "info" }
  let s1 := { s with container := s.container ++ [notification], nextNode := s.nextNode + 1 }
  let d := duration.getD 5000
  if d > 0 then (notification, setTimeout now d (NotificationTask.autoHide notification) s1)
  else (notification, s1)

/-- The method `hide(notification)` called at `now` (also the click handler of
the close button): the removal is deferred by the exit transition. -/
def hide (now : Nat) (notification : Notification) (s : NotificationSystem) :
    NotificationSystem :=
  setTimeout now exitTransitionMs (NotificationTask.detach notification) s

/-- The removal callback of `hide`:
`if (notification.parentNode) notification.parentNode.removeChild(notification)`. -/
def removeIfAttached (now : Nat) (notification : Notification) (s : NotificationSystem) :
    NotificationSystem :=
  if notification ∈ s.container then
    { s with
      container := s.container.erase notification
      detached := s.detached ++ [(now, notification)] }
  else s

/-- Runs the callback of a timer that fires. -/
def fire (t : Timer NotificationTask) (s : NotificationSystem) : NotificationSystem :=
  match t.task with
  | NotificationTask.autoHide n => hide t.due n s
  | NotificationTask.detach n => removeIfAttached t.due n s

/-- Fires expired timers one at a time, earliest first, until none is left or
the fuel is used up. -/
def advanceFuel : Nat → Nat → NotificationSystem → NotificationSystem
  | 0, _, s => s
  | fuel + 1, now, s =>
    match (expired now s.timers).head? with
    | none => s
    | some t => advanceFuel fuel now (fire t { s with timers := s.timers.erase t })

/-- Lets time pass until `now`. A timer that fires schedules at most one more
timer, which schedules none, so twice the number of pending timers is fuel
enough. -/
def advance (now : Nat) (s : NotificationSystem) : NotificationSystem :=
  advanceFuel (2 * s.timers.length) now s

/-- The notification held by the callback of a timer. -/
def nodeOf : NotificationTask → Notification
  | NotificationTask.autoHide n => n
  | NotificationTask.detach n => n

/-- The pending timers whose callback holds `n`, in scheduling order. -/
def timersOf (n : Notification) (s : NotificationSystem) : List (Timer NotificationTask) :=
  s.timers.filter (fun t => decide (nodeOf t.task = n))

/-- The executions of `removeChild` on `n`. -/
def detachedOf (n : Notification) (s : NotificationSystem) : List (Nat × Notification) :=
  s.detached.filter (fun e => decide (e.2 = n))

/-- Every element the system holds or mentions was created by an earlier `show`. -/
def Fresh (s : NotificationSystem) : Prop :=
  (∀ m ∈ s.container, m.id < s.nextNode) ∧
  (∀ t ∈ s.timers, (nodeOf t.task).id < s.nextNode) ∧
  (∀ e ∈ s.detached, e.2.id < s.nextNode)

/-- A call of the public methods at an instant. -/
inductive Event where
  | «show» (now : Nat) (message : String) (type : Option String) (duration : Option Nat)
  | hide (now : Nat) (notification : Notification)
deriving DecidableEq, Repr

/-- The instant of a call. -/
def Event.time : Event → Nat
  | Event.show now _ _ _ => now
  | Event.hide now _ => now

/-- Whether the call is `hide(n)`. -/
def Event.dismisses (n : Notification) : Event → Bool
  | Event.show _ _ _ _ => false
  | Event.hide _ m => decide (m = n)

/-- Effect of a call. -/
def perform : Event → NotificationSystem → NotificationSystem
  | Event.show now message type duration, s => («show» now message type duration s).2
  | Event.hide now notification, s => hide now notification s

/-- A sequence of calls, time passing up to the instant of each. -/
def runEvents : List Event → NotificationSystem → NotificationSystem
  | [], s => s
  | e :: es, s => runEvents es (perform e (advance e.time s))

/-- Number of callbacks still to run before the timers of `ts` are exhausted:
an auto-hide timer schedules a removal, a removal schedules nothing. -/
def workLeft (ts : List (Timer NotificationTask)) : Nat :=
  (ts.map (fun t => match t.task with
    | NotificationTask.autoHide _ => 2
    | NotificationTask.detach _ => 1)).sum

/-- The part of the state that concerns `n` is the same in `s2` as in `s1`. -/
def SameView (n : Notification) (s1 s2 : NotificationSystem) : Prop :=
  s2.container.count n = s1.container.count n ∧ timersOf n s2 = timersOf n s1 ∧
    detachedOf n s2 = detachedOf n s1 ∧ s1.nextNode ≤ s2.nextNode

/-- Life of a notification `n` whose auto-hide timer is due at `a` and that is
never dismissed, as far as the time elapsed `T` allows: waiting for the timer,
then in its exit transition, then removed at `a + 300`. -/
def AutoLife (n : Notification) (a T : Nat) (s : NotificationSystem) : Prop :=
  n.id < s.nextNode ∧
  ((s.container.count n = 1 ∧ detachedOf n s = [] ∧
      ∃ h, timersOf n s = [{ handle := h, due := a, task := NotificationTask.autoHide n }]) ∨
   (a ≤ T ∧ s.container.count n = 1 ∧ detachedOf n s = [] ∧
      ∃ h, timersOf n s =
        [{ handle := h, due := a + exitTransitionMs, task := NotificationTask.detach n }]) ∨
   (a + exitTransitionMs ≤ T ∧ s.container.count n = 0 ∧
      detachedOf n s = [(a + exitTransitionMs, n)] ∧ timersOf n s = []))

/-- Life of a notification `n` dismissed by `hide`, its removal due at `m`,
before its auto-hide timer, due at `a`, has fired: removed at `m`; the auto-hide
timer later schedules a second removal callback, which finds `n` detached. -/
def DismissedLife (n : Notification) (a m T : Nat) (s : NotificationSystem) : Prop :=
  n.id < s.nextNode ∧
  ((s.container.count n = 1 ∧ detachedOf n s = [] ∧
      ∃ h1 h2, timersOf n s =
        [{ handle := h1, due := a, task := NotificationTask.autoHide n },
         { handle := h2, due := m, task := NotificationTask.detach n }]) ∨
   (m ≤ T ∧ s.container.count n = 0 ∧ detachedOf n s = [(m, n)] ∧
      ∃ h, timersOf n s = [{ handle := h, due := a, task := NotificationTask.autoHide n }]) ∨
   (a ≤ T ∧ s.container.count n = 0 ∧ detachedOf n s = [(m, n)] ∧
      ∃ h, timersOf n s =
        [{ handle := h, due := a + exitTransitionMs, task := NotificationTask.detach n }]) ∨
   (a + exitTransitionMs ≤ T ∧ s.container.count n = 0 ∧ detachedOf n s = [(m, n)] ∧
      timersOf n s = []))

end NotificationSystem

/-! ## Contact form (js/contact.js) -/

/-- The characters removed by `String.prototype.trim` and matched by `\s`:
white space and line terminators of ECMAScript. -/
def isJsWhitespace (c : Char) : Bool :=
  let n := c.toNat
  n == 0x09 || n == 0x0A || n == 0x0B || n == 0x0C || n == 0x0D || n == 0x20 || n == 0xA0 ||
    n == 0x1680 || (0x2000 ≤ n && n ≤ 0x200A) || n == 0x2028 || n == 0x2029 || n == 0x202F ||
    n == 0x205F || n == 0x3000 || n == 0xFEFF

/-- The method `String.prototype.trim`. -/
def jsTrim (v : List Char) : List Char :=
  ((v.dropWhile isJsWhitespace).reverse.dropWhile isJsWhitespace).reverse

/-- The property `String.prototype.length`: the number of UTF-16 code units. -/
def jsLength (v : List Char) : Nat :=
  (v.map (fun c => if c.toNat < 0x10000 then 1 else 2)).sum

/-- Whether `hay` begins with `needle`. -/
def startsWith : List Char → List Char → Bool
  | [], _ => true
  | _ :: _, [] => false
  | a :: as, b :: bs => a == b && startsWith as bs

/-- Whether `needle` occurs in `hay`. -/
def hasInfix (needle : List Char) : List Char → Bool
  | [] => needle.isEmpty
  | c :: cs => startsWith needle (c :: cs) || hasInfix needle cs

/-- The constant `CONTACT_FORM_ENDPOINT`. -/
def CONTACT_FORM_ENDPOINT : String := "https://formspree.io/f/mnnoyjqy"

/-- The guard of `submitForm`:
`!CONTACT_FORM_ENDPOINT || /your_form_id/i.test(CONTACT_FORM_ENDPOINT)`. -/
def endpointNotConfigured (endpoint : String) : Bool :=
  endpoint.data.isEmpty ||
    hasInfix "your_form_id".data (endpoint.data.map Char.toLower)

/-- The test `emailRegex.test(v)` for `/^[^\s@]+@[^\s@]+\.[^\s@]+$/`: a non-empty run of
characters other than white space and `@`, an `@`, then characters other than
white space and `@` among which a `.` that is neither the first nor the last. -/
def emailRegexTest (v : List Char) : Bool :=
  let plain := fun (c : Char) => !(isJsWhitespace c || c == '@')
  let domain := (v.dropWhile plain).drop 1
  !(v.takeWhile plain).isEmpty && (v.dropWhile plain).head? == some '@' &&
    domain.all plain && (domain.drop 1).dropLast.contains '.'

/-- The test `phoneRegex.test(v)` for `/^[\+]?[1-9][\d]{0,15}$/`. -/
def phoneRegexTest (v : List Char) : Bool :=
  let digits := match v with
    | '+' :: rest => rest
    | _ => v
  match digits with
  | [] => false
  | d :: ds => ('1' ≤ d && d ≤ '9') && ds.length ≤ 15 && ds.all (fun c => '0' ≤ c && c ≤ '9')

/-- The method `getFieldLabel`: the table `labels`, else the name itself. -/
def getFieldLabel (fieldName : String) : String :=
  match [("firstName", "First Name"), ("lastName", "Last Name"), ("email", "Email Address"),
      ("phone", "Phone Number"), ("company", "Company"), ("subject", "Subject"),
      ("budget", "Budget"), ("timeline", "Timeline"), ("message", "Message")].lookup fieldName with
  | some label => label
  | none => fieldName

/-- An `input`, `select` or `textarea` of the form. `errorElement` is the
`.form-error` element found by `field.parentNode.querySelector('.form-error')`,
if any; `hasErrorClass` tells whether the class list holds `error`. -/
structure Field where
  name : String
  value : String
  defaultValue : String
  required : Bool
  errorElement : Option Nat
  hasErrorClass : Bool
deriving DecidableEq, Repr

/-- The checkbox `#privacy`, taken to sit inside a `.form-group` (the result of
`closest('.form-group')` is dereferenced unguarded); `errorElement` is the
`.form-error` element of that group, if any. -/
structure PrivacyCheckbox where
  checked : Bool
  defaultChecked : Bool
  errorElement : Option Nat
deriving DecidableEq, Repr

/-- The button `.submit-btn`. -/
structure SubmitButton where
  innerHTML : String
  disabled : Bool
deriving DecidableEq, Repr

/-- A call of `fetch`. -/
structure Request where
  url : String
  method : String
  accept : String
  body : List (String × String)
deriving DecidableEq, Repr

/-- What `response.json()` yields: a rejection, or an object with or without an
`errors` array (an entry without `message` is `none`). -/
inductive ResponseBody where
  | unparsable
  | json (errors : Option (List (Option String)))
deriving DecidableEq, Repr

/-- How the promise returned by `fetch` settles. -/
inductive FetchOutcome where
  | response (status : Nat) (body : ResponseBody)
  | rejected (message : String)
deriving DecidableEq, Repr

/-- The globals used by the form: `window.notifications`, the console, and the
record `(message, type)` of the calls of `Utils.showNotification`. -/
structure Window where
  notifications : Option NotificationSystem
  console : List String
  shown : List (String × String)
deriving DecidableEq, Repr

/-- The function `Utils.showNotification(message, type = 'info', duration = 5000)` at `now`. -/
def Utils.showNotification (now : Nat) (message : String) (type : Option String)
    (duration : Option Nat) (w : Window) : Window :=
  let ty := type.getD "info"
  let d := duration.getD 5000
  let w1 := { w with shown := w.shown ++ [(message, ty)] }
  match w1.notifications with
  | some ns =>
    { w1 with notifications := some (NotificationSystem.show now message (some ty) (some d) ns).2 }
  | none => { w1 with console := w1.console ++ ["[" ++ ty.toUpper ++ "] " ++ message] }

/-- The contact page: the form `#contact-form` with its controls, the text of
its `.form-error` elements, the modal `#success-modal`, the counter
`.current-count` (text and colour), analytics, the requests issued, the
suspended runs of `handleFormSubmit` (saved `originalText` and `data.subject`),
local storage, the banner `.draft-notification` and the pending `clearDraft`
timers of `ContactFormAutoSave`. -/
structure ContactPage where
  fields : List Field
  errorText : Nat → String
  privacy : Option PrivacyCheckbox
  submitButton : SubmitButton
  hasModal : Bool
  modalActive : Bool
  currentCount : Option (String × String)
  hasGtag : Bool
  analytics : List (String × String × String)
  window : Window
  requests : List Request
  awaiting : List (String × String)
  localStorage : List (String × String)
  draftBanner : Bool
  timers : List (Timer Unit)
  nextHandle : Nat

namespace ContactPage

/-- The tests of `validateField`: `isValid` and `errorMessage`. -/
def checkField (f : Field) : Bool × String :=
  let value := jsTrim f.value.data
  if f.required && value.isEmpty then
    (false, getFieldLabel f.name ++ " is required.")
  else if f.name == "email" && !value.isEmpty then
    if !emailRegexTest value then (false, "Please enter a valid email address.") else (true, "")
  else if f.name == "phone" && !value.isEmpty then
    if !phoneRegexTest
        (value.filter (fun c => !(isJsWhitespace c || c == '-' || c == '(' || c == ')'))) then
      (false, "Please enter a valid phone number.")
    else (true, "")
  else if f.name == "message" && !value.isEmpty then
    if jsLength value < 10 then (false, "Message must be at least 10 characters long.")
    else (true, "")
  else (true, "")

/-- Assignment to `errorElement.textContent`, guarded by `if (errorElement)`. -/
def setErrorText (errorElement : Option Nat) (message : String) (errorText : Nat → String) :
    Nat → String :=
  match errorElement with
  | some e => Function.update errorText e message
  | none => errorText

/-- The method `validateField(field)`: the result, the field with its class
list updated, and the texts of the error elements. -/
def validateField (f : Field) (errorText : Nat → String) : Bool × Field × (Nat → String) :=
  let r := checkField f
  (r.1, { f with hasErrorClass := !r.1 }, setErrorText f.errorElement r.2 errorText)

/-- One turn of the `forEach` of `validateForm` over the controls of the form:
a control matching `[required]` is validated, the others are skipped. -/
def validateStep (acc : Bool × List Field × (Nat → String)) (f : Field) :
    Bool × List Field × (Nat → String) :=
  if f.required then
    let r := validateField f acc.2.2
    (acc.1 && r.1, acc.2.1 ++ [r.2.1], r.2.2)
  else (acc.1, acc.2.1 ++ [f], acc.2.2)

/-- What `validateForm` leaves of a control: a required one has its class list
set by `validateField`. -/
def markField (f : Field) : Field :=
  if f.required then { f with hasErrorClass := !(checkField f).1 } else f

/-- The method `validateForm`. -/
def validateForm (p : ContactPage) : Bool × ContactPage :=
  let r := p.fields.foldl validateStep (true, [], p.errorText)
  let p1 := { p with fields := r.2.1, errorText := r.2.2 }
  match p1.privacy with
  | some c =>
    if !c.checked then
      let message := "You must agree to the Privacy Policy and Terms of Service."
      (false, { p1 with errorText := setErrorText c.errorElement message p1.errorText })
    else (r.1, p1)
  | none => (r.1, p1)

/-- The `catch` and `finally` blocks of `handleFormSubmit`. -/
def submissionFailed (now : Nat) (originalText : String) (message : String) (p : ContactPage) :
    ContactPage :=
  let logged : Window :=
    { p.window with console := p.window.console ++ ["Form submission error: " ++ message] }
  let notice := "Failed to send message. Please try again later."
  { p with
    window := Utils.showNotification now notice (some "error") none logged
    submitButton := { innerHTML := originalText, disabled := false } }

/-- The analytics label `data.subject || 'General Inquiry'`, where
`data = Object.fromEntries(formData.entries())`. -/
def subjectLabel (formData : List (String × String)) : String :=
  match formData.reverse.lookup "subject" with
  | some v => if v.data.isEmpty then "General Inquiry" else v
  | none => "General Inquiry"

/-- The method `handleFormSubmit` up to `await this.submitForm(formData)`:
validation, button state, and `submitForm` up to `await fetch(...)`. -/
def handleFormSubmit (now : Nat) (p : ContactPage) : ContactPage :=
  let v := validateForm p
  if !v.1 then
    let message := "Please correct the errors in the form."
    { v.2 with window := Utils.showNotification now message (some "error") none v.2.window }
  else
    let p1 := v.2
    let originalText := p1.submitButton.innerHTML
    let sending : SubmitButton :=
      { innerHTML := "<i class=\"fas fa-spinner fa-spin\"></i> Sending...", disabled := true }
    let p2 := { p1 with submitButton := sending }
    let formData := p2.fields.map (fun f => (f.name, f.value))
    let subject := subjectLabel formData
    if endpointNotConfigured CONTACT_FORM_ENDPOINT then
      submissionFailed now originalText
        "Contact form backend not configured. Please set CONTACT_FORM_ENDPOINT in js/contact.js"
        p2
    else
      let request : Request :=
        { url := CONTACT_FORM_ENDPOINT, method := "POST", accept := "application/json",
          body := formData }
      { p2 with
        requests := p2.requests ++ [request]
        awaiting := p2.awaiting ++ [(originalText, subject)] }

/-- The rest of `submitForm` once `fetch` has settled: `ok` on a 2xx response,
else the message of the error thrown. -/
def submitFormResult : FetchOutcome → Except String Unit
  | FetchOutcome.rejected message => Except.error message
  | FetchOutcome.response status body =>
    if 200 ≤ status && status ≤ 299 then Except.ok ()
    else
      match body with
      | ResponseBody.json (some (e :: es)) =>
        Except.error (" ".intercalate ((e :: es).map (fun m => m.getD "")))
      | _ => Except.error "Failed to send message. Please try again later."

/-- The rest of the oldest suspended `handleFormSubmit` once its `fetch` has
settled, at `now`. -/
def resume (now : Nat) (outcome : FetchOutcome) (p : ContactPage) : ContactPage :=
  match p.awaiting with
  | [] => p
  | (originalText, subject) :: rest =>
    let p1 := { p with awaiting := rest }
    match submitFormResult outcome with
    | Except.error message => submissionFailed now originalText message p1
    | Except.ok _ =>
      { p1 with
        modalActive := p1.hasModal || p1.modalActive
        fields := p1.fields.map (fun f => { f with value := f.defaultValue })
        privacy := p1.privacy.map (fun c => { c with checked := c.defaultChecked })
        currentCount := p1.currentCount.map (fun _ => ("0", "var(--text-secondary)"))
        analytics :=
          if p1.hasGtag then p1.analytics ++ [("contact_form_submit", "Contact", subject)]
          else p1.analytics
        submitButton := { innerHTML := originalText, disabled := false } }

/-- The key `storageKey` of `ContactFormAutoSave`. -/
def storageKey : String := "contact-form-draft"

/-- The method `clearDraft` of `ContactFormAutoSave`. -/
def clearDraft (p : ContactPage) : ContactPage :=
  { p with
    localStorage := p.localStorage.filter (fun kv => !(kv.1 == storageKey))
    draftBanner := false }

/-- A `submit` event of the form at `now`: the listener of
`ContactFormController` runs, then the listener of `ContactFormAutoSave`, which
is `setTimeout(() => this.clearDraft(), 2000)`. -/
def submitEvent (now : Nat) (p : ContactPage) : ContactPage :=
  let p1 := handleFormSubmit now p
  { p1 with
    timers := p1.timers ++ [{ handle := p1.nextHandle, due := now + 2000, task := () }]
    nextHandle := p1.nextHandle + 1 }

/-- Lets time pass until `now`: the expired `clearDraft` timers fire, and so do
the timers of the notification system. -/
def advance (now : Nat) (p : ContactPage) : ContactPage :=
  let p1 := (expired now p.timers).foldl (fun q _ => clearDraft q)
    { p with timers := pendingAfter now p.timers }
  let w : Window :=
    { p1.window with
      notifications := p1.window.notifications.map (NotificationSystem.advance now) }
  { p1 with window := w }

/-- A submission seen through: the `submit` event at `t0`, the `fetch` of
`submitForm`, if one was issued, settling with `outcome` at `t1`, and the page
observed at `T`. -/
def submitAndSettle (t0 t1 T : Nat) (outcome : FetchOutcome) (p : ContactPage) : ContactPage :=
  advance T (resume t1 outcome (advance t1 (submitEvent t0 p)))

end ContactPage

/-- A contact page with a draft in local storage and three required fields,
all filled in validly. -/
def draftedPage : ContactPage :=
  { fields :=
      [{ name := "firstName", value := "Ada", defaultValue := "", required := true,
         errorElement := some 0, hasErrorClass := false },
       { name := "email", value := "ada@example.org", defaultValue := "", required := true,
         errorElement := some 1, hasErrorClass := false },
       { name := "budget", value := "5k-10k", defaultValue := "unspecified", required := false,
         errorElement := some 2, hasErrorClass := false },
       { name := "message", value := "Hello, I have a project.", defaultValue := "",
         required := true, errorElement := some 3, hasErrorClass := false }]
    errorText := fun _ => ""
    privacy := some { checked := true, defaultChecked := false, errorElement := some 4 }
    submitButton := { innerHTML := "Send Message", disabled := false }
    hasModal := false
    modalActive := false
    currentCount := some ("24", "var(--text-secondary)")
    hasGtag := false
    analytics := []
    window := { notifications := some NotificationSystem.init, console := [], shown := [] }
    requests := []
    awaiting := []
    localStorage := [("theme", "dark"), ("contact-form-draft", "\x7b\"firstName\":\"Ada\"\x7d")]
    draftBanner := false
    timers := []
    nextHandle := 1 }

/-- The page `draftedPage` with the first name left blank. -/
def blankNamePage : ContactPage :=
  { draftedPage with
    fields :=
      [{ name := "firstName", value := "   ", defaultValue := "", required := true,
         errorElement := some 0, hasErrorClass := false },
       { name := "email", value := "ada@example.org", defaultValue := "", required := true,
         errorElement := some 1, hasErrorClass := false }] }

/-- A page whose only animated element, `1`, carries the class `fade-in-up`. -/
def pageOneCard (q : String) : List Element :=
  if q = ".fade-in-up" then [1] else []

/-- A page with three `fade-in-up` elements `1`, `2`, `3`, in document order. -/
def pageThreeCards (q : String) : List Element :=
  if q = ".fade-in-up" then [1, 2, 3] else []

/-! ## Further notions for the rate limiters -/

/-- A debounced wrapper whose only pending `later` was scheduled by a call at
`t` with `a`, and that has run `func` as recorded in `done`. -/
def Holding {α : Type} (wait : Nat) (s : Debounce α) (t : Nat) (a : α)
    (done : List (Nat × α)) : Prop :=
  s.calls = done ∧ ∃ h, s.timers = [{ handle := h, due := t + wait, task := a }] ∧
    s.timeout = some h

/-- What can happen to a debounced wrapper: a call at an instant, or time
passing until an instant (the timers expired by then fire). -/
inductive DebounceOp (α : Type) where
  | call (now : Nat) (args : α)
  | elapse (now : Nat)
deriving DecidableEq, Repr

/-- Effect of one event on a wrapper of `Utils.debounce`. -/
def Debounce.stepOp {α : Type} (wait : Nat) (immediate : Bool) (s : Debounce α) :
    DebounceOp α → Debounce α
  | DebounceOp.call now args => Debounce.executedFunction wait immediate now args s
  | DebounceOp.elapse now => Debounce.advance immediate now s

/-- Effect of a sequence of events on a wrapper of `Utils.debounce`. -/
def Debounce.runOps {α : Type} (wait : Nat) (immediate : Bool) (ops : List (DebounceOp α))
    (s : Debounce α) : Debounce α :=
  ops.foldl (Debounce.stepOp wait immediate) s

/-- Effect of one event on a wrapper of the legacy `debounce`. -/
def Legacy.stepOp {α : Type} (wait : Nat) (s : Debounce α) : DebounceOp α → Debounce α
  | DebounceOp.call now args => Legacy.executedFunction wait now args s
  | DebounceOp.elapse now => Legacy.advance now s

/-- Effect of a sequence of events on a wrapper of the legacy `debounce`. -/
def Legacy.runOps {α : Type} (wait : Nat) (ops : List (DebounceOp α)) (s : Debounce α) :
    Debounce α :=
  ops.foldl (Legacy.stepOp wait) s

/-- No `later` is pending, or exactly one is and `timeout` holds its handle. -/
def SinglePending {α : Type} (s : Debounce α) : Prop :=
  s.timers = [] ∨ ∃ t, s.timers = [t] ∧ s.timeout = some t.handle

/-! ## Further notions for the notification system -/

namespace NotificationSystem

/-- The method `success(message, duration)`. -/
def success (now : Nat) (message : String) (duration : Option Nat) (s : NotificationSystem) :
    Notification × NotificationSystem :=
  «show» now message (some "success") duration s

/-- The method `error(message, duration)`. -/
def error (now : Nat) (message : String) (duration : Option Nat) (s : NotificationSystem) :
    Notification × NotificationSystem :=
  «show» now message (some "error") duration s

/-- The method `warning(message, duration)`. -/
def warning (now : Nat) (message : String) (duration : Option Nat) (s : NotificationSystem) :
    Notification × NotificationSystem :=
  «show» now message (some "warning") duration s

/-- The method `info(message, duration)`. -/
def info (now : Nat) (message : String) (duration : Option Nat) (s : NotificationSystem) :
    Notification × NotificationSystem :=
  «show» now message (some "info") duration s

/-- Life of a notification `n` shown without an auto-hide timer and not
dismissed: it is in the container, nothing is scheduled for it and
`removeChild` has not run on it. -/
def Persistent (n : Notification) (s : NotificationSystem) : Prop :=
  n.id < s.nextNode ∧ s.container.count n = 1 ∧ detachedOf n s = [] ∧ timersOf n s = []

/-- One call of `show`: the instant and the arguments. -/
structure ShowCall where
  now : Nat
  message : String
  type : Option String
  duration : Option Nat
deriving DecidableEq, Repr

/-- The call as an event of the system. -/
def ShowCall.event (c : ShowCall) : Event :=
  Event.show c.now c.message c.type c.duration

/-- The elements made by a sequence of `show` calls, in creation order, the
first one numbered `next`. -/
def created (next : Nat) : List ShowCall → List Notification
  | [] => []
  | c :: cs =>
    { id := next, message := c.message, type := c.type.getD "info" } :: created (next + 1) cs

/-- No pending timer is due at `bound` or before. -/
def Quiet (bound : Nat) (s : NotificationSystem) : Prop :=
  ∀ t ∈ s.timers, bound < t.due

end NotificationSystem

/-! ## Further notions for the animation observer -/

/-- The `i`-th temporary observer exists and does not watch `el`. -/
def AnimationObserver.Released (i : Nat) (el : Element) (s : AnimationObserver) : Prop :=
  ∃ o, s.tempObservers[i]? = some o ∧ el ∉ o.targets

/-- A page none of whose elements carries an animation class or matches a
selector. -/
def pagePlain (_q : String) : List Element := []

/-! ## Further notions for the contact form -/

/-- The argument of `phoneRegex.test` in `validateField`:
`value.replace(/[\s\-\(\)]/g, '')`. -/
def stripPhone (v : List Char) : List Char :=
  v.filter (fun c => !(isJsWhitespace c || c == '-' || c == '(' || c == ')'))

/-- Follows the words of the specification: an optional `+` followed by a
digit 1-9 and at most 15 further digits. -/
def PhoneShape (w : List Char) : Prop :=
  ∃ (sign : List Char) (d : Char) (ds : List Char),
    w = sign ++ d :: ds ∧ (sign = [] ∨ sign = ['+']) ∧ ('1' ≤ d ∧ d ≤ '9') ∧
      ds.length ≤ 15 ∧ ∀ c ∈ ds, '0' ≤ c ∧ c ≤ '9'

/-- The request made by `submitForm` for the page `p`. -/
def ContactPage.postRequest (p : ContactPage) : Request :=
  { url := CONTACT_FORM_ENDPOINT, method := "POST", accept := "application/json",
    body := p.fields.map (fun f => (f.name, f.value)) }

/-- The error message `submitForm` falls back to. -/
def genericFailure : String := "Failed to send message. Please try again later."

/-! ## Further notions for the bookmarks, the FAQ and the carousel -/

/-- The part of `localStorage` used by `ArticleSharingController` (js/blog.js): the item
`'blog-bookmarks'`. Its text is the JSON of an array of strings, which `JSON.parse` reads back as
written by `JSON.stringify`, so the item is kept as that array; `none` is the missing item, for
which `getItem` returns `null` and the code reads `'[]'`. -/
structure ArticleSharingController where
  bookmarks : Option (List String)
deriving DecidableEq, Repr

namespace ArticleSharingController

/-- The method `updateBookmarks(title, add)`. -/
def updateBookmarks (s : ArticleSharingController) (title : String) (add : Bool) :
    ArticleSharingController :=
  let bookmarks := s.bookmarks.getD []
  let bookmarks :=
    if add then
      if !bookmarks.contains title then bookmarks ++ [title] else bookmarks
    else bookmarks.filter (fun bookmark => bookmark != title)
  { bookmarks := some bookmarks }

end ArticleSharingController

/-- The state `FAQController` (js/contact.js) works on: its items, which elements of the page
carry the class `active`, the items for which a scroll into view is scheduled (300 ms later), and
the items reported to analytics as expanded. -/
structure FAQController where
  faqItems : List Element
  active : Element → Bool
  scrolls : List Element
  hasGtag : Bool
  analytics : List Element

namespace FAQController

/-- The loop `this.faqItems.forEach(faqItem => ...)` of `toggleFAQ`: one round for `faqItem`. -/
def closeOther (item : Element) (active : Element → Bool) (faqItem : Element) : Element → Bool :=
  if faqItem != item then Function.update active faqItem false else active

/-- The method `toggleFAQ(item)`. -/
def toggleFAQ (c : FAQController) (item : Element) : FAQController :=
  let isActive := c.active item
  let c1 := { c with active := c.faqItems.foldl (closeOther item) c.active }
  let c2 :=
    if isActive then { c1 with active := Function.update c1.active item false }
    else { c1 with active := Function.update c1.active item true, scrolls := c1.scrolls ++ [item] }
  if c2.hasGtag && !isActive then { c2 with analytics := c2.analytics ++ [item] } else c2

/-- A sequence of clicks on FAQ questions, each named by its item. -/
def run (c : FAQController) (items : List Element) : FAQController :=
  items.foldl toggleFAQ c

/-- At most one item of the controller is active. -/
def AtMostOneActive (c : FAQController) : Prop :=
  ∀ a ∈ c.faqItems, ∀ b ∈ c.faqItems, c.active a = true → c.active b = true → a = b

end FAQController

/-- The element of an array at a JavaScript index, `undefined` being `none`. -/
def jsItem {β : Type} (l : List β) (i : Int) : Option β :=
  if 0 ≤ i then l.get? i.toNat else none

/-- The state of `ProjectCarouselController` (js/projects.js): for each slide and each indicator,
in document order, whether it carries the class `active`, and `currentSlide`. -/
structure ProjectCarouselController where
  slides : List Bool
  indicators : List Bool
  currentSlide : Int
deriving DecidableEq, Repr

namespace ProjectCarouselController

/-- The method `goToSlide(index)`. Reading `classList` of a missing slide or indicator throws a
`TypeError`; the result is then `Except.error`, with the state the method leaves behind. The call
of `animateSlideTransition` only starts a visual effect and is left out. -/
def goToSlide (c : ProjectCarouselController) (index : Int) :
    Except ProjectCarouselController ProjectCarouselController :=
  if index = c.currentSlide then .ok c
  else if (jsItem c.slides c.currentSlide).isNone then .error c
  else
    let c1 := { c with slides := c.slides.set c.currentSlide.toNat false }
    if (jsItem c1.indicators c1.currentSlide).isNone then .error c1
    else
      let c2 := { c1 with indicators := c1.indicators.set c1.currentSlide.toNat false,
                          currentSlide := index }
      if (jsItem c2.slides c2.currentSlide).isNone then .error c2
      else
        let c3 := { c2 with slides := c2.slides.set c2.currentSlide.toNat true }
        if (jsItem c3.indicators c3.currentSlide).isNone then .error c3
        else .ok { c3 with indicators := c3.indicators.set c3.currentSlide.toNat true }

/-- The method `nextSlide()`. The operator `%` of JavaScript takes the sign of the dividend; with
no slide it gives `NaN`, for which `goToSlide` throws at once as it does here for the index
`currentSlide + 1`. -/
def nextSlide (c : ProjectCarouselController) :
    Except ProjectCarouselController ProjectCarouselController :=
  goToSlide c ((c.currentSlide + 1).tmod c.slides.length)

/-- The method `previousSlide()`. -/
def previousSlide (c : ProjectCarouselController) :
    Except ProjectCarouselController ProjectCarouselController :=
  goToSlide c (if c.currentSlide = 0 then (c.slides.length : Int) - 1 else c.currentSlide - 1)

/-- What the user does with the carousel (the autoplay timer calls `nextSlide` as well). -/
inductive SlideOp where
  | next
  | previous
  | goTo (index : Int)
deriving DecidableEq, Repr

/-- One operation. -/
def step (c : ProjectCarouselController) : SlideOp →
    Except ProjectCarouselController ProjectCarouselController
  | .next => nextSlide c
  | .previous => previousSlide c
  | .goTo index => goToSlide c index

/-- A sequence of operations, up to the first that throws. -/
def run (c : ProjectCarouselController) : List SlideOp →
    Except ProjectCarouselController ProjectCarouselController
  | [] => .ok c
  | op :: ops =>
    match step c op with
    | .ok c1 => run c1 ops
    | .error c1 => .error c1

/-- The flags of `n` items of which exactly the one at index `k` is active. -/
def onlyActive (n : Nat) (k : Int) : List Bool :=
  (List.range n).map (fun (i : Nat) => decide (Int.ofNat i = k))

/-- The carousel as the markup gives it: `n` slides and `n` indicators, the first of each
active. -/
def start (n : Nat) : ProjectCarouselController :=
  { slides := onlyActive n 0, indicators := onlyActive n 0, currentSlide := 0 }

/-- The carousel has `n` slides and `n` indicators, `currentSlide` is one of them, and exactly the
slide and the indicator at `currentSlide` are active. -/
def Consistent (n : Nat) (c : ProjectCarouselController) : Prop :=
  0 ≤ c.currentSlide ∧ c.currentSlide < n ∧
    c.slides = onlyActive n c.currentSlide ∧ c.indicators = onlyActive n c.currentSlide

end ProjectCarouselController

/-! ## Further notions for the typing animation (js/home.js) -/

/-- The method `String.prototype.substring(0, k)` on a string given by its UTF-16 code units. -/
def substringTo {α : Type} (s : List α) (k : Int) : List α :=
  s.take k.toNat

/-- The typing state of `HomePageController` with the text of the `.typing-animation` element.
A string is the list of its UTF-16 code units, of type `α`. -/
structure HomePageController (α : Type) where
  typingWords : List (List α)
  currentWordIndex : Nat
  currentCharIndex : Int
  isDeleting : Bool
  textContent : List α
deriving DecidableEq, Repr

namespace HomePageController

variable {α : Type}

/-- The field `typingSpeed`. -/
def typingSpeed : Nat := 150

/-- The field `deleteSpeed`. -/
def deleteSpeed : Nat := 100

/-- The field `pauseTime`. -/
def pauseTime : Nat := 2000

/-- The constructor followed by the assignment of `setupTypingAnimation`:
`words` is `wordsData.split(',')` and `text` what the element shows in the markup. -/
def new (words : List (List α)) (text : List α) : HomePageController α :=
  { typingWords := words, currentWordIndex := 0, currentCharIndex := 0, isDeleting := false,
    textContent := text }

/-- The method `typeWords(element)`: the state it leaves and the delay of the timer it sets for
its next call. It is `none` when `currentWord` is `undefined`, where the method throws. -/
def typeWords (h : HomePageController α) : Option (HomePageController α × Nat) :=
  match h.typingWords[h.currentWordIndex]? with
  | none => none
  | some currentWord =>
    if h.isDeleting then
      let h1 := { h with textContent := substringTo currentWord (h.currentCharIndex - 1),
                         currentCharIndex := h.currentCharIndex - 1 }
      if h1.currentCharIndex = 0 then
        some ({ h1 with isDeleting := false,
                        currentWordIndex := (h1.currentWordIndex + 1) % h1.typingWords.length },
              pauseTime / 2)
      else some (h1, deleteSpeed)
    else
      let h1 := { h with textContent := substringTo currentWord (h.currentCharIndex + 1),
                         currentCharIndex := h.currentCharIndex + 1 }
      if h1.currentCharIndex = (currentWord.length : Int) then
        some ({ h1 with isDeleting := true }, pauseTime)
      else some (h1, typingSpeed)

/-- The state after `k` calls of `typeWords`, each but the first made by the timer of the call
before. -/
def steps : Nat → HomePageController α → Option (HomePageController α)
  | 0, h => some h
  | k + 1, h =>
    match typeWords h with
    | none => none
    | some (h1, _) => steps k h1

/-- The state in which the word at index `i` is about to be typed. -/
def wordStart (words : List (List α)) (i : Nat) (text : List α) : HomePageController α :=
  { typingWords := words, currentWordIndex := i, currentCharIndex := 0, isDeleting := false,
    textContent := text }

/-- The character index fits the current word: within its length, short of it while typing and
positive while deleting. -/
def InWord (words : List (List α)) (h : HomePageController α) : Prop :=
  h.typingWords = words ∧ ∃ w, words[h.currentWordIndex]? = some w ∧
    0 ≤ h.currentCharIndex ∧ h.currentCharIndex ≤ w.length ∧
    (h.isDeleting = false → h.currentCharIndex < w.length) ∧
    (h.isDeleting = true → 0 < h.currentCharIndex)

/-- The element shows the first `currentCharIndex` units of the current word. -/
def ShowsPrefix (h : HomePageController α) : Prop :=
  ∃ w, h.typingWords[h.currentWordIndex]? = some w ∧
    h.textContent = w.take h.currentCharIndex.toNat ∧ h.textContent <+: w ∧
    0 ≤ h.currentCharIndex ∧ h.currentCharIndex ≤ w.length

end HomePageController

/-- The words of a page whose markup says `data-words="Hi,Dev"`. -/
def twoWords : List (List Char) := [['H', 'i'], ['D', 'e', 'v']]

/-- A contact page with three FAQ items `1`, `2`, `3`, of which the markup opens the first two. -/
def faqPage : FAQController :=
  { faqItems := [1, 2, 3], active := fun el => el == 1 || el == 2, scrolls := [],
    hasGtag := false, analytics := [] }

/-! ## Further notions for the project slug (js/projects.js) -/

/-- The character class `[a-z0-9]`. -/
def isSlugAlnum (c : Char) : Bool :=
  (decide ('a' ≤ c) && decide (c ≤ 'z')) || (decide ('0' ≤ c) && decide (c ≤ '9'))

/-- The call `.replace(/[^a-z0-9]+/g, '-')`: each maximal run of characters outside `[a-z0-9]`
becomes one `'-'`. The flag tells whether the character before belongs to such a run, which has
then been replaced already. -/
def replaceRuns : Bool → List Char → List Char
  | _, [] => []
  | inRun, c :: cs =>
    if isSlugAlnum c then c :: replaceRuns false cs
    else if inRun then replaceRuns true cs
    else '-' :: replaceRuns true cs

/-- The call `.replace(/^-|-$/g, '')`: a `'-'` at the start is removed, and so is a `'-'` at the
end of what remains. -/
def trimDashes (s : List Char) : List Char :=
  let s1 := if s.head? = some '-' then s.tail else s
  if s1.getLast? = some '-' then s1.dropLast else s1

/-- The static method `ProjectsPageUtils.generateProjectSlug(title)`. The method
`String.prototype.toLowerCase` of the platform is the parameter `toLowerCase`. -/
def generateProjectSlug (toLowerCase : List Char → List Char) (title : List Char) : List Char :=
  trimDashes (replaceRuns false (toLowerCase title))

/-- The lower-casing of the letters `A` to `Z`, which is what `toLowerCase` does on ASCII text. -/
def asciiLower (s : List Char) : List Char :=
  s.map Char.toLower

/-- No two neighbours are both `'-'`. -/
def DashesApart (s : List Char) : Prop :=
  s.Chain' (fun a b => ¬ (a = '-' ∧ b = '-'))

/-! ## Further notions for `animateElement` (js/common.js): its effect on the document -/

/-- The method `DOMTokenList.prototype.add` for one token: the list is an ordered set. -/
def tokenAdd (token : String) (tokens : List String) : List String :=
  if token ∈ tokens then tokens else tokens ++ [token]

/-- The method `Array.prototype.indexOf`. -/
def jsIndexOf (l : List Element) (x : Element) : Int :=
  if x ∈ l then (l.indexOf x : Int) else -1

/-- What `animateElement` reads and writes in the document: the class list of each element, its
parent element if any, the element children of each element in document order, the value of the
inline style `transition-delay` of each element (empty when not set), the descendants of each
element that carry `data-counter`, and the counters for which `Utils.animateCounter` has been
called. -/
structure Dom where
  classList : Element → List String
  parentElement : Element → Option Element
  children : Element → List Element
  transitionDelay : Element → String
  counters : Element → List Element
  countersStarted : List Element

namespace Dom

/-- The test `child.classList.contains(element.classList[0])`, where `first` is
`element.classList[0]`: an index out of range gives `undefined`, which `contains` reads as the
token `"undefined"`. -/
def containsFirst (d : Dom) (first : Option String) (child : Element) : Bool :=
  match first with
  | some token => decide (token ∈ d.classList child)
  | none => decide ("undefined" ∈ d.classList child)

/-- The array `siblings` of `animateElement(element)` for the parent `parent`. -/
def siblings (d : Dom) (element parent : Element) : List Element :=
  (d.children parent).filter (d.containsFirst (d.classList element)[0]?)

/-- The assignment of `value` to the class list of `element`. -/
def setClassList (d : Dom) (element : Element) (value : List String) : Dom :=
  { d with classList := fun el => if el = element then value else d.classList el }

/-- The assignment of `value` to `element.style.transitionDelay`. -/
def setTransitionDelay (d : Dom) (element : Element) (value : String) : Dom :=
  { d with transitionDelay := fun el => if el = element then value else d.transitionDelay el }

/-- The method `AnimationObserver.animateElement(element)`, as it acts on the document. -/
def animateElement (d : Dom) (element : Element) : Dom :=
  let d1 := d.setClassList element (tokenAdd "visible" (d.classList element))
  let d2 :=
    match d1.parentElement element with
    | some parent =>
      let siblings := d1.siblings element parent
      let index := jsIndexOf siblings element
      if siblings.length > 1 then
        d1.setTransitionDelay element (toString (index * 100) ++ "ms")
      else d1
    | none => d1
  { d2 with countersStarted := d2.countersStarted ++ d2.counters element }

end Dom

/-- A list of three cards `1`, `2`, `3` under the parent `0`, with a heading `4` before them;
the cards carry the class `fade-in-up`, and card `1` has been animated already. Element `5` has
no parent element. -/
def cardList : Dom :=
  { classList := fun el =>
      if el = 1 then ["fade-in-up", "card", "visible"]
      else if el = 2 ∨ el = 3 then ["fade-in-up", "card"]
      else if el = 4 then ["section-title"] else []
    parentElement := fun el => if 1 ≤ el ∧ el ≤ 4 then some 0 else none
    children := fun el => if el = 0 then [4, 1, 2, 3] else []
    transitionDelay := fun _ => ""
    counters := fun _ => []
    countersStarted := [] }

/-! ## Further notions for the blog search (js/blog.js) -/

/-- An article card of the blog page: the element and the text content of its parts
`.article-title`, `.article-excerpt`, `.article-category` and of each `.tag`, in document
order. -/
structure ArticleCard where
  element : Element
  title : String
  excerpt : String
  category : String
  tags : List String
deriving DecidableEq, Repr

/-- An entry of `searchResults`: the object with the properties `element` and `score`. -/
structure SearchResult where
  element : ArticleCard
  score : Nat
deriving DecidableEq, Repr

/-- The state of `BlogSearchController`: the cards in document order, the value of the search
input and the array `searchResults`. The visual effects of a search (the animations, the class
`search-hidden`, the counter) and the analytics event are left out. -/
structure BlogSearchController where
  articleCards : List ArticleCard
  searchInput : String
  searchResults : List SearchResult
deriving DecidableEq, Repr

namespace BlogSearchController

/-- The method `calculateRelevanceScore(searchTerm, title, excerpt, category, tags)`. -/
def calculateRelevanceScore (searchTerm title excerpt category tags : List Char) : Nat :=
  let score := 0
  let score := if hasInfix searchTerm title then score + 10 else score
  let score := if hasInfix searchTerm category then score + 5 else score
  let score := if hasInfix searchTerm tags then score + 7 else score
  let score := if hasInfix searchTerm excerpt then score + 3 else score
  let words := searchTerm.splitOn ' '
  words.foldl
    (fun score word =>
      let score := if hasInfix word title then score + 2 else score
      if category = word then score + 3 else score)
    score

/-- The string `searchContent` that `performSearch` builds for a card; `toLowerCase` is the
method `String.prototype.toLowerCase` of the platform. -/
def searchContent (toLowerCase : List Char → List Char) (card : ArticleCard) : List Char :=
  let title := toLowerCase card.title.data
  let excerpt := toLowerCase card.excerpt.data
  let category := toLowerCase card.category.data
  let tags := [' '].intercalate (card.tags.map (fun tag => toLowerCase tag.data))
  title ++ [' '] ++ excerpt ++ [' '] ++ category ++ [' '] ++ tags

/-- The score `performSearch` computes for a card. -/
def scoreOf (toLowerCase : List Char → List Char) (searchTerm : List Char) (card : ArticleCard) :
    Nat :=
  calculateRelevanceScore searchTerm (toLowerCase card.title.data)
    (toLowerCase card.excerpt.data) (toLowerCase card.category.data)
    ([' '].intercalate (card.tags.map (fun tag => toLowerCase tag.data)))

/-- The entry `performSearch` pushes for a card that matches. -/
def resultOf (toLowerCase : List Char → List Char) (searchTerm : List Char) (card : ArticleCard) :
    SearchResult :=
  { element := card, score := scoreOf toLowerCase searchTerm card }

/-- One round of the loop `this.articleCards.forEach(...)` of `performSearch`. -/
def searchStep (toLowerCase : List Char → List Char) (searchTerm : List Char)
    (searchResults : List SearchResult) (card : ArticleCard) : List SearchResult :=
  let matched := hasInfix searchTerm (searchContent toLowerCase card)
  if matched then searchResults ++ [resultOf toLowerCase searchTerm card] else searchResults

/-- The method `clearSearch()`. -/
def clearSearch (c : BlogSearchController) : BlogSearchController :=
  { c with searchInput := "", searchResults := [] }

/-- The method `performSearch(query)`. The call `sort((a, b) => b.score - a.score)` is a stable
sort by decreasing score. -/
def performSearch (toLowerCase : List Char → List Char) (c : BlogSearchController)
    (query : String) : BlogSearchController :=
  let searchTerm := jsTrim (toLowerCase query.data)
  if searchTerm.isEmpty then c.clearSearch
  else
    let c1 := { c with searchResults := [] }
    let found := c1.articleCards.foldl (searchStep toLowerCase searchTerm) c1.searchResults
    let c2 := { c1 with searchResults := found }
    { c2 with searchResults := c2.searchResults.insertionSort (fun a b => a.score ≥ b.score) }

end BlogSearchController

/-- A blog with three articles. -/
def blogPage : BlogSearchController :=
  { articleCards :=
      [{ element := 1, title := "Learning Rust", excerpt := "Notes on ownership",
         category := "Systems", tags := ["rust", "memory"] },
       { element := 2, title := "CSS Grid", excerpt := "Layouts without floats",
         category := "Web", tags := ["css"] },
       { element := 3, title := "Rust on the Web", excerpt := "Compiling rust to wasm",
         category := "Rust", tags := ["wasm", "rust"] }]
    searchInput := "rust"
    searchResults := [] }

/-! ## Further notions for the email check (js/contact.js, js/blog.js, script.js) -/

/-- What the pattern `/^[^\s@]+@[^\s@]+\.[^\s@]+$/` tells apart in a character: white space
(`\s`), `@`, `.`, or any other character. -/
inductive EmailSymbol where
  | space
  | at
  | dot
  | other
deriving DecidableEq, Repr

/-- The symbol of a character. -/
def classify (c : Char) : EmailSymbol :=
  if isJsWhitespace c then .space
  else if c = '@' then .at
  else if c = '.' then .dot
  else .other

/-- The character class `[^\s@]`. -/
def emailPlain : RegularExpression EmailSymbol :=
  .plus (.char .dot) (.char .other)

/-- The quantifier `+`. -/
def oneOrMore (r : RegularExpression EmailSymbol) : RegularExpression EmailSymbol :=
  .comp r (.star r)

/-- The pattern `/^[^\s@]+@[^\s@]+\.[^\s@]+$/`, which the three files share; the anchors make it
a pattern for the whole string. -/
def emailRegex : RegularExpression EmailSymbol :=
  .comp (oneOrMore emailPlain)
    (.comp (.char .at)
      (.comp (oneOrMore emailPlain)
        (.comp (.char .dot) (oneOrMore emailPlain))))

/-- The method `NewsletterController.validateEmail(email)` of js/blog.js: `emailRegex.test`. -/
def NewsletterController.validateEmail (email : List Char) : Bool :=
  emailRegex.rmatch (email.map classify)

/-- The value `isValid` that `FormController.validateField(field)` of script.js returns, for a
field of the given name and value; showing the error message is left out. -/
def FormController.validateField (fieldName : String) (fieldValue : String) : Bool :=
  let value := jsTrim fieldValue.data
  let isValid := true
  let isValid := if value.isEmpty then false else isValid
  let isValid :=
    if fieldName = "email" ∧ ¬ value.isEmpty then
      if !emailRegex.rmatch (value.map classify) then false else isValid
    else isValid
  let isValid :=
    if fieldName = "name" ∧ ¬ value.isEmpty then
      if jsLength value < 2 then false else isValid
    else isValid
  let isValid :=
    if fieldName = "message" ∧ ¬ value.isEmpty then
      if jsLength value < 10 then false else isValid
    else isValid
  isValid

/-- A run of one or more characters that are neither white space nor `@`. -/
def EmailRun (l : List Char) : Prop :=
  l ≠ [] ∧ ∀ c ∈ l, isJsWhitespace c = false ∧ c ≠ '@'

/-- The shape of an accepted address in the words of the specification: no white space, exactly
one `@`, at least one character before it, and after it a `.` that is neither the first nor the
last character of that part. -/
def EmailShape (v : List Char) : Prop :=
  (∀ c ∈ v, isJsWhitespace c = false) ∧ v.count '@' = 1 ∧
    ∃ before after, v = before ++ '@' :: after ∧ before ≠ [] ∧
      ∃ b c, after = b ++ '.' :: c ∧ b ≠ [] ∧ c ≠ []

/-! ## Further notions for `Utils.animateCounter` (js/common.js)

A finite JavaScript number is kept as a fraction of integers. Each arithmetic operation computes
the exact result and rounds it to the nearest number with a 53-bit significand, ties to even, as
IEEE 754 double precision does; the range of exponents is not bounded, infinities and NaN are
not represented. -/

/-- A finite number, `num / den`. -/
structure JsNumber where
  num : Int
  den : Nat
deriving DecidableEq, Repr

namespace JsNumber

/-- The value of the number. -/
def toRat (x : JsNumber) : ℚ :=
  (x.num : ℚ) / (x.den : ℚ)

/-- The fraction has a denominator. -/
def Finite (x : JsNumber) : Prop :=
  x.den ≠ 0

/-- The number 1. -/
def one : JsNumber :=
  { num := 1, den := 1 }

/-- The position of the leading bit of `n`, found by halving at most `fuel` times. -/
def log2Fuel : Nat → Nat → Nat
  | 0, _ => 0
  | fuel + 1, n => if 2 ≤ n then log2Fuel fuel (n / 2) + 1 else 0

/-- The position of the leading bit of `n`. -/
def log2 (n : Nat) : Nat :=
  log2Fuel n n

/-- The integer nearest to `n / d`, the even one of the two when `n / d` lies half way. -/
def roundMantissa (n d : Nat) : Nat :=
  let f := n / d
  let r := n % d
  if 2 * r < d then f else if d < 2 * r then f + 1 else if f % 2 = 0 then f else f + 1

/-- The exponent `b` with `2^b ≤ a / d < 2^(b+1)`, for positive `a` and `d`. -/
def binade (a d : Nat) : Int :=
  let k : Int := (log2 a : Int) - (log2 d : Int)
  if d * 2 ^ k.toNat ≤ a * 2 ^ (-k).toNat then k else k - 1

/-- The positive fraction `a / d` rounded to a 53-bit significand: with `2^b ≤ a / d < 2^(b+1)`
the result is a multiple of `2^(b-52)`. -/
def roundMagnitude (a d : Nat) : JsNumber :=
  let s : Int := binade a d - 52
  let mantissa := roundMantissa (a * 2 ^ (-s).toNat) (d * 2 ^ s.toNat)
  { num := ((mantissa * 2 ^ s.toNat : Nat) : Int), den := 2 ^ (-s).toNat }

/-- Rounding of an exact result to double precision. -/
def round64 (x : JsNumber) : JsNumber :=
  if x.num = 0 then { num := 0, den := 1 }
  else if 0 < x.num then roundMagnitude x.num.natAbs x.den
  else
    { num := -(roundMagnitude x.num.natAbs x.den).num,
      den := (roundMagnitude x.num.natAbs x.den).den }

/-- The operator `-`. -/
def sub (a b : JsNumber) : JsNumber :=
  round64 { num := a.num * b.den - b.num * a.den, den := a.den * b.den }

/-- The operator `*`. -/
def mul (a b : JsNumber) : JsNumber :=
  round64 { num := a.num * b.num, den := a.den * b.den }

/-- The operator `/`; `none` when the divisor is zero, where the quotient is not a finite
number. -/
def div (a b : JsNumber) : Option JsNumber :=
  if b.num = 0 then none
  else if 0 < b.num then some (round64 { num := a.num * b.den, den := a.den * b.num.natAbs })
  else some (round64 { num := -(a.num * b.den), den := a.den * b.num.natAbs })

/-- The operator `<`. -/
def lt (a b : JsNumber) : Bool :=
  decide (a.num * b.den < b.num * a.den)

/-- The function `Math.min` of two numbers. -/
def min (a b : JsNumber) : JsNumber :=
  if a.lt b then a else b

/-- The function `Math.floor`, as an integer. -/
def floor (a : JsNumber) : Int :=
  a.num / (a.den : Int)

/-- A `Math.pow` for a non-negative integer exponent that returns the correctly rounded power. -/
def powRounded (x : JsNumber) (n : Nat) : JsNumber :=
  round64 { num := x.num ^ n, den := x.den ^ n }

/-- A `Math.pow` for a non-negative integer exponent that multiplies `n` times, rounding each
product. -/
def powByProduct (x : JsNumber) : Nat → JsNumber
  | 0 => one
  | n + 1 => (powByProduct x n).mul x

/-- What the animation needs of the function `Math.pow`, whose precision ECMAScript leaves to the
implementation: for bases between 0 and 1 the fourth power is a number between 0 and 1, and it
does not decrease when the base grows. -/
def PowLike (pow : JsNumber → Nat → JsNumber) : Prop :=
  (∀ x : JsNumber, x.Finite → 0 ≤ x.toRat → x.toRat ≤ 1 →
    (pow x 4).Finite ∧ 0 ≤ (pow x 4).toRat ∧ (pow x 4).toRat ≤ 1) ∧
  (∀ x y : JsNumber, x.Finite → y.Finite → 0 ≤ x.toRat → x.toRat ≤ y.toRat → y.toRat ≤ 1 →
    (pow x 4).toRat ≤ (pow y 4).toRat)

/-- Rounding of a rational to the nearest integer, ties to even. -/
def rne (q : ℚ) : Int :=
  if q - ⌊q⌋ < 1 / 2 then ⌊q⌋
  else if 1 / 2 < q - ⌊q⌋ then ⌊q⌋ + 1
  else if ⌊q⌋ % 2 = 0 then ⌊q⌋ else ⌊q⌋ + 1

/-- Rounding to double precision as a function of the value. -/
def fl (q : ℚ) : ℚ :=
  (round64 { num := q.num, den := q.den }).toRat

end JsNumber

/-- The counter element during the animation: the number it shows and whether a call of `animate`
is requested for the next frame. Times are in milliseconds. -/
structure CounterAnimation where
  textContent : JsNumber
  frameRequested : Bool
deriving DecidableEq, Repr

namespace Utils

/-- The local `progress` of the callback `animate(currentTime)`, where `startTime` is the value
of `performance.now()` at the call of `animateCounter`; `none` when `duration` is zero, where
the quotient is not a finite number. -/
def progressOf (duration startTime currentTime : JsNumber) : Option JsNumber :=
  let elapsed := currentTime.sub startTime
  match elapsed.div duration with
  | none => none
  | some quotient => some (JsNumber.min quotient JsNumber.one)

/-- The local `current` of the callback `animate(currentTime)`; `pow` is the function `Math.pow`
of the platform. -/
def currentOf (pow : JsNumber → Nat → JsNumber) (target progress : JsNumber) : JsNumber :=
  let easeOutQuart := JsNumber.one.sub (pow (JsNumber.one.sub progress) 4)
  { num := (easeOutQuart.mul target).floor, den := 1 }

/-- The callback `animate(currentTime)` of `animateCounter(element, target, duration)`. -/
def animate (pow : JsNumber → Nat → JsNumber) (target duration startTime : JsNumber)
    (c : CounterAnimation) (currentTime : JsNumber) : Option CounterAnimation :=
  match progressOf duration startTime currentTime with
  | none => none
  | some progress =>
    let c1 := { c with textContent := currentOf pow target progress, frameRequested := false }
    if progress.lt JsNumber.one then some { c1 with frameRequested := true }
    else some { c1 with textContent := target }

/-- The call `Utils.animateCounter(element, target, duration)`: it requests the first frame. -/
def animateCounter (c : CounterAnimation) : CounterAnimation :=
  { c with frameRequested := true }

/-- A frame at the time `currentTime`: the browser calls `animate` if it has been requested. -/
def frame (pow : JsNumber → Nat → JsNumber) (target duration startTime : JsNumber)
    (c : CounterAnimation) (currentTime : JsNumber) : Option CounterAnimation :=
  if c.frameRequested then animate pow target duration startTime c currentTime else some c

/-- The frames at the given times, in order, from the state `c`. -/
def framesFrom (pow : JsNumber → Nat → JsNumber) (target duration startTime : JsNumber) :
    CounterAnimation → List JsNumber → Option CounterAnimation
  | c, [] => some c
  | c, t :: times =>
    match frame pow target duration startTime c t with
    | none => none
    | some c1 => framesFrom pow target duration startTime c1 times

/-- The frames at the given times, in order, after `animateCounter` has been called. -/
def runFrames (pow : JsNumber → Nat → JsNumber) (target duration startTime : JsNumber)
    (c : CounterAnimation) (times : List JsNumber) : Option CounterAnimation :=
  framesFrom pow target duration startTime (animateCounter c) times

/-- The value the specification gives for a frame, in exact arithmetic:
`floor((1 - (1 - p)^4) * target)` with `p = min(elapsed / duration, 1)`. -/
def easedValue (target : Int) (duration elapsed : ℚ) : Int :=
  ⌊(1 - (1 - min (elapsed / duration) 1) ^ 4) * (target : ℚ)⌋

end Utils

/-- A counter that shows 0 and has no frame requested. -/
def idleCounter : CounterAnimation :=
  { textContent := { num := 0, den := 1 }, frameRequested := false }


/-! # Theorems -/

section RateLimiters

variable {α : Type}

theorem expired_nil {τ : Type} (now : Nat) : expired now ([] : List (Timer τ)) = [] := rfl

theorem expired_single {τ : Type} (now : Nat) (t : Timer τ) :
    expired now [t] = if t.due ≤ now then [t] else [] := by
  by_cases h : t.due ≤ now <;> simp [expired, h]

theorem pendingAfter_single {τ : Type} (now : Nat) (t : Timer τ) :
    pendingAfter now [t] = if t.due ≤ now then [] else [t] := by
  by_cases h : t.due ≤ now <;> simp [pendingAfter, h]

theorem Debounce.armed_first (wait t : Nat) (a : α) :
    Armed wait (Debounce.executedFunction wait false t a
      (Debounce.advance false t Debounce.init)) t a := by
  refine ⟨?_, 1, ?_, ?_⟩ <;>
    simp [Debounce.executedFunction, Debounce.advance, Debounce.init, expired, pendingAfter,
      clearTimeout]

theorem Debounce.armed_next (wait t t2 : Nat) (a a2 : α) (s : Debounce α)
    (hs : Armed wait s t a) (hlt : t2 < t + wait) :
    Armed wait (Debounce.executedFunction wait false t2 a2 (Debounce.advance false t2 s))
      t2 a2 := by
  obtain ⟨hc, h, ht, hto⟩ := hs
  have hnd : ¬ (t + wait ≤ t2) := by omega
  refine ⟨?_, s.nextHandle, ?_, ?_⟩ <;>
    simp [Debounce.executedFunction, Debounce.advance, ht, hto, hc, expired_single,
      pendingAfter_single, hnd, clearTimeout]

theorem Debounce.armed_run (wait : Nat) (cs : List (Nat × α)) :
    ∀ (c : Nat × α) (s : Debounce α), Armed wait s c.1 c.2 →
      List.Chain (fun p q : Nat × α => p.1 ≤ q.1 ∧ q.1 < p.1 + wait) c cs →
      Armed wait (Debounce.run wait false cs s)
        ((c :: cs).getLast (List.cons_ne_nil c cs)).1
        ((c :: cs).getLast (List.cons_ne_nil c cs)).2 := by
  induction cs with
  | nil => intro c s hs _; simpa [Debounce.run] using hs
  | cons d ds ih =>
    intro c s hs hch
    obtain ⟨hcd, hrest⟩ := List.chain_cons.mp hch
    have hnext := Debounce.armed_next wait c.1 d.1 c.2 d.2 s hs hcd.2
    have := ih d _ hnext hrest
    simpa [Debounce.run, List.getLast_cons] using this

theorem Debounce.armed_advance (wait t T : Nat) (a : α) (s : Debounce α)
    (hs : Armed wait s t a) :
    (Debounce.advance false T s).calls = if t + wait ≤ T then [(t + wait, a)] else [] := by
  obtain ⟨hc, h, ht, _⟩ := hs
  by_cases hd : t + wait ≤ T <;>
    simp [Debounce.advance, ht, hc, expired_single, pendingAfter_single, hd, Debounce.later]

theorem Legacy.legacy_armed_first (wait t : Nat) (a : α) :
    Armed wait (Legacy.executedFunction wait t a (Legacy.advance t Debounce.init)) t a := by
  refine ⟨?_, 1, ?_, ?_⟩ <;>
    simp [Legacy.executedFunction, Legacy.advance, Debounce.init, expired, pendingAfter,
      clearTimeout]

theorem Legacy.legacy_armed_next (wait t t2 : Nat) (a a2 : α) (s : Debounce α)
    (hs : Armed wait s t a) (hlt : t2 < t + wait) :
    Armed wait (Legacy.executedFunction wait t2 a2 (Legacy.advance t2 s)) t2 a2 := by
  obtain ⟨hc, h, ht, hto⟩ := hs
  have hnd : ¬ (t + wait ≤ t2) := by omega
  refine ⟨?_, s.nextHandle, ?_, ?_⟩ <;>
    simp [Legacy.executedFunction, Legacy.advance, ht, hto, hc, expired_single,
      pendingAfter_single, hnd, clearTimeout]

theorem Legacy.legacy_armed_run (wait : Nat) (cs : List (Nat × α)) :
    ∀ (c : Nat × α) (s : Debounce α), Armed wait s c.1 c.2 →
      List.Chain (fun p q : Nat × α => p.1 ≤ q.1 ∧ q.1 < p.1 + wait) c cs →
      Armed wait (Legacy.run wait cs s)
        ((c :: cs).getLast (List.cons_ne_nil c cs)).1
        ((c :: cs).getLast (List.cons_ne_nil c cs)).2 := by
  induction cs with
  | nil => intro c s hs _; simpa [Legacy.run] using hs
  | cons d ds ih =>
    intro c s hs hch
    obtain ⟨hcd, hrest⟩ := List.chain_cons.mp hch
    have hnext := Legacy.legacy_armed_next wait c.1 d.1 c.2 d.2 s hs hcd.2
    have := ih d _ hnext hrest
    simpa [Legacy.run, List.getLast_cons] using this

theorem Legacy.legacy_armed_advance (wait t T : Nat) (a : α) (s : Debounce α)
    (hs : Armed wait s t a) :
    (Legacy.advance T s).calls = if t + wait ≤ T then [(t + wait, a)] else [] := by
  obtain ⟨hc, h, ht, _⟩ := hs
  by_cases hd : t + wait ≤ T <;>
    simp [Legacy.advance, ht, hc, expired_single, pendingAfter_single, hd, Legacy.later]

/-- C1. A burst of calls of a debounced wrapper (`immediate` not set), each call
less than `wait` after the previous one: observed at any instant `T`, `func` has
not run while `T` is before `wait` after the last call, and from then on it has
run exactly once, at `wait` after the last call and with the arguments of the
last call.  Holds for `Utils.debounce` and for the legacy `debounce`. -/
theorem debounce_burst_runs_last_call_once (wait : Nat) (c : Nat × α) (cs : List (Nat × α))
    (hburst : List.Chain (fun p q : Nat × α => p.1 ≤ q.1 ∧ q.1 < p.1 + wait) c cs) (T : Nat) :
    (Debounce.advance false T (Debounce.run wait false (c :: cs) Debounce.init)).calls
        = (if ((c :: cs).getLast (List.cons_ne_nil c cs)).1 + wait ≤ T
            then [(((c :: cs).getLast (List.cons_ne_nil c cs)).1 + wait,
                    ((c :: cs).getLast (List.cons_ne_nil c cs)).2)]
            else [])
    ∧ (Legacy.advance T (Legacy.run wait (c :: cs) Debounce.init)).calls
        = (if ((c :: cs).getLast (List.cons_ne_nil c cs)).1 + wait ≤ T
            then [(((c :: cs).getLast (List.cons_ne_nil c cs)).1 + wait,
                    ((c :: cs).getLast (List.cons_ne_nil c cs)).2)]
            else []) := by
  constructor
  · exact Debounce.armed_advance wait _ T _ _
      (Debounce.armed_run wait cs c _ (Debounce.armed_first wait c.1 c.2) hburst)
  · exact Legacy.legacy_armed_advance wait _ T _ _
      (Legacy.legacy_armed_run wait cs c _ (Legacy.legacy_armed_first wait c.1 c.2) hburst)

theorem debounce_burst_runs_last_call_once_witness :
    List.Chain (fun p q : Nat × Nat => p.1 ≤ q.1 ∧ q.1 < p.1 + 100) (0, 7) [(50, 8), (120, 9)]
    ∧ (Debounce.advance false 219
        (Debounce.run 100 false [(0, 7), (50, 8), (120, 9)] Debounce.init)).calls = []
    ∧ (Debounce.advance false 220
        (Debounce.run 100 false [(0, 7), (50, 8), (120, 9)] Debounce.init)).calls = [(220, 9)]
    ∧ (Legacy.advance 5000
        (Legacy.run 100 [(0, 7), (50, 8), (120, 9)] Debounce.init)).calls = [(220, 9)] := by
  have hch : List.Chain (fun p q : Nat × Nat => p.1 ≤ q.1 ∧ q.1 < p.1 + 100) (0, 7)
      [(50, 8), (120, 9)] := by simp
  refine ⟨hch, ?_, ?_, ?_⟩
  · simpa using (debounce_burst_runs_last_call_once 100 (0, 7) [(50, 8), (120, 9)] hch 219).1
  · simpa using (debounce_burst_runs_last_call_once 100 (0, 7) [(50, 8), (120, 9)] hch 220).1
  · simpa using (debounce_burst_runs_last_call_once 100 (0, 7) [(50, 8), (120, 9)] hch 5000).2

theorem Throttle.foldl_reset_calls (ts : List (Timer Unit)) :
    ∀ s : Throttle α, (ts.foldl Throttle.reset s).calls = s.calls := by
  induction ts with
  | nil => intro s; rfl
  | cons t ts ih => intro s; simp [List.foldl_cons, ih, Throttle.reset]

theorem Throttle.advance_calls (T : Nat) (s : Throttle α) :
    (Throttle.advance T s).calls = s.calls := by
  simp [Throttle.advance, Throttle.foldl_reset_calls]

theorem Throttle.run_cooling (limit : Nat) (cs : List (Nat × α)) :
    ∀ (s : Throttle α) (e h : Nat), s.inThrottle = true →
      s.timers = [{ handle := h, due := e, task := () }] →
      (Throttle.run limit cs s).calls = s.calls ++ Throttle.specCalls limit (some e) cs := by
  induction cs with
  | nil => intro s e h _ _; simp [Throttle.run, Throttle.specCalls]
  | cons c cs ih =>
    intro s e h hin ht
    obtain ⟨t, a⟩ := c
    by_cases hlt : t < e
    · have hnd : ¬ (e ≤ t) := by omega
      have hstep : Throttle.wrapped limit t a (Throttle.advance t s) = s := by
        cases s
        simp only at hin ht
        subst hin ht
        simp [Throttle.wrapped, Throttle.advance, expired_single, pendingAfter_single, hnd]
      simp [Throttle.run, Throttle.specCalls, hlt, hstep, ih s e h hin ht]
    · have hd : e ≤ t := by omega
      have h1 : (Throttle.wrapped limit t a (Throttle.advance t s)).inThrottle = true := by
        simp [Throttle.wrapped, Throttle.advance, ht, expired_single, pendingAfter_single, hd,
          Throttle.reset]
      have h2 : (Throttle.wrapped limit t a (Throttle.advance t s)).timers
          = [{ handle := s.nextHandle, due := t + limit, task := () }] := by
        simp [Throttle.wrapped, Throttle.advance, ht, expired_single, pendingAfter_single, hd,
          Throttle.reset]
      have h3 : (Throttle.wrapped limit t a (Throttle.advance t s)).calls
          = s.calls ++ [(t, a)] := by
        simp [Throttle.wrapped, Throttle.advance, ht, expired_single, pendingAfter_single, hd,
          Throttle.reset]
      simp [Throttle.run, Throttle.specCalls, hlt, ih _ _ _ h1 h2, h3]

theorem Throttle.run_init (limit : Nat) (cs : List (Nat × α)) :
    (Throttle.run limit cs Throttle.init).calls = Throttle.specCalls limit none cs := by
  cases cs with
  | nil => simp [Throttle.run, Throttle.specCalls, Throttle.init]
  | cons c cs =>
    obtain ⟨t, a⟩ := c
    have h1 : (Throttle.wrapped limit t a (Throttle.advance t Throttle.init)).inThrottle
        = true := by
      simp [Throttle.wrapped, Throttle.advance, Throttle.init, expired, pendingAfter]
    have h2 : (Throttle.wrapped limit t a (Throttle.advance t Throttle.init)).timers
        = [{ handle := 1, due := t + limit, task := () }] := by
      simp [Throttle.wrapped, Throttle.advance, Throttle.init, expired, pendingAfter]
    have h3 : (Throttle.wrapped limit t a (Throttle.advance t Throttle.init)).calls
        = [(t, a)] := by
      simp [Throttle.wrapped, Throttle.advance, Throttle.init, expired, pendingAfter]
    simp [Throttle.run, Throttle.specCalls, Throttle.run_cooling limit cs _ _ _ h1 h2, h3]

theorem Throttle.specCalls_length (limit : Nat) (cs : List (Nat × α)) :
    ∀ (c : Nat × α) (e : Nat), e ≤ c.1 + limit →
      List.Chain (fun p q : Nat × α => p.1 ≤ q.1) c cs →
      (Throttle.specCalls limit (some e) cs).length * limit + e
        ≤ ((c :: cs).getLast (List.cons_ne_nil c cs)).1 + limit := by
  induction cs with
  | nil => intro c e he _; simpa [Throttle.specCalls] using he
  | cons d ds ih =>
    intro c e he hch
    obtain ⟨hcd, hrest⟩ := List.chain_cons.mp hch
    obtain ⟨t, a⟩ := d
    simp only [List.getLast_cons (List.cons_ne_nil _ _)]
    by_cases hlt : t < e
    · have := ih (t, a) e (by simp at hcd ⊢; omega) hrest
      simpa [Throttle.specCalls, hlt] using this
    · have := ih (t, a) (t + limit) (by simp) hrest
      simp only [Throttle.specCalls, hlt, if_false, List.length_cons, Nat.add_mul, Nat.one_mul]
      omega

/-- C2. A throttled wrapper with a positive interval, called at non-decreasing
instants whose first and last are `D` apart, runs `func` at most
`ceil(D / limit) + 1` times, however long one waits afterwards. -/
theorem throttle_runs_at_most_ceil_plus_one (limit : Nat) (hlimit : 0 < limit)
    (c : Nat × α) (cs : List (Nat × α))
    (hsorted : List.Chain (fun p q : Nat × α => p.1 ≤ q.1) c cs) (T : Nat) :
    (Throttle.advance T (Throttle.run limit (c :: cs) Throttle.init)).calls.length
      ≤ ceilDiv (((c :: cs).getLast (List.cons_ne_nil c cs)).1 - c.1) limit + 1 := by
  obtain ⟨t, a⟩ := c
  rw [Throttle.advance_calls, Throttle.run_init]
  have hlen := Throttle.specCalls_length limit cs (t, a) (t + limit) (le_refl _) hsorted
  simp only [Throttle.specCalls, List.length_cons]
  have hk : (Throttle.specCalls limit (some (t + limit)) cs).length
      ≤ (((t, a) :: cs).getLast (List.cons_ne_nil (t, a) cs)).1 - t := by
    have h1 : (Throttle.specCalls limit (some (t + limit)) cs).length * 1
        ≤ (Throttle.specCalls limit (some (t + limit)) cs).length * limit :=
      Nat.mul_le_mul_left _ hlimit
    omega
  have hdiv : (Throttle.specCalls limit (some (t + limit)) cs).length
      ≤ ((((t, a) :: cs).getLast (List.cons_ne_nil (t, a) cs)).1 - t) / limit := by
    rw [Nat.le_div_iff_mul_le hlimit]
    omega
  have hceil : ((((t, a) :: cs).getLast (List.cons_ne_nil (t, a) cs)).1 - t) / limit
      ≤ ceilDiv ((((t, a) :: cs).getLast (List.cons_ne_nil (t, a) cs)).1 - t) limit := by
    unfold ceilDiv
    exact Nat.div_le_div_right (by omega)
  omega

theorem throttle_runs_at_most_ceil_plus_one_witness :
    (Throttle.advance 1000
      (Throttle.run 100 [(0, 7), (50, 8), (100, 9), (199, 1), (200, 2)]
        (Throttle.init : Throttle Nat))).calls.length ≤ ceilDiv (200 - 0) 100 + 1 := by
  simpa using throttle_runs_at_most_ceil_plus_one 100 (by decide) ((0, 7) : Nat × Nat)
    [(50, 8), (100, 9), (199, 1), (200, 2)] (by simp) 1000

/-- C3. The executions of `func` through a throttled wrapper are exactly those
the specification describes: the first call runs at once with its own arguments
and starts a cooldown of `limit`; a call inside the cooldown is dropped and is
not run later, however long one waits (`T`); the first call at or after the end
of the cooldown runs at once and starts a new cooldown. On the state: the first
call records its execution, raises `inThrottle` and schedules the reset at
`t + limit`; a call made while `inThrottle` is raised changes nothing at all. -/
theorem throttle_first_runs_cooldown_drops (limit : Nat) (cs : List (Nat × α)) (T : Nat)
    (t : Nat) (a : α) (s : Throttle α) :
    (Throttle.advance T (Throttle.run limit cs Throttle.init)).calls
      = Throttle.specCalls limit none cs
    ∧ Throttle.wrapped limit t a Throttle.init
      = { inThrottle := true, nextHandle := 2,
          timers := [{ handle := 1, due := t + limit, task := () }], calls := [(t, a)] }
    ∧ Throttle.wrapped limit t a { s with inThrottle := true } = { s with inThrottle := true } := by
  refine ⟨?_, ?_, ?_⟩
  · rw [Throttle.advance_calls, Throttle.run_init]
  · simp [Throttle.wrapped, Throttle.init]
  · simp [Throttle.wrapped]

end RateLimiters

section Animation

open AnimationObserver

theorem IntersectionObserver.observe_nodup (o : IntersectionObserver) (el : Element)
    (h : o.targets.Nodup) : (o.observe el).targets.Nodup := by
  unfold IntersectionObserver.observe
  split
  · exact h
  · rename_i hmem
    simp only
    rw [List.nodup_append]
    refine ⟨h, List.nodup_singleton el, ?_⟩
    intro x hx hx2
    simp at hx2
    subst hx2
    exact hmem hx

theorem AnimationObserver.foldl_observe_nodup (els : List Element) :
    ∀ s : AnimationObserver, s.observer.targets.Nodup →
      (els.foldl (fun s2 el => { s2 with observer := s2.observer.observe el })
        s).observer.targets.Nodup := by
  induction els with
  | nil => intro s h; exact h
  | cons e es ih =>
    intro s h
    simp only [List.foldl_cons]
    exact ih _ (IntersectionObserver.observe_nodup _ _ h)

theorem AnimationObserver.foldl_classes_nodup (query : String → List Element)
    (cls : List String) :
    ∀ s : AnimationObserver, s.observer.targets.Nodup →
      (cls.foldl (fun s1 className =>
        (query className).foldl
          (fun s2 el => { s2 with observer := s2.observer.observe el }) s1)
        s).observer.targets.Nodup := by
  induction cls with
  | nil => intro s h; exact h
  | cons c cs ih =>
    intro s h
    simp only [List.foldl_cons]
    exact ih _ (AnimationObserver.foldl_observe_nodup _ _ h)

theorem AnimationObserver.new_nodup (query : String → List Element) :
    (AnimationObserver.new query).observer.targets.Nodup := by
  unfold AnimationObserver.new AnimationObserver.observeElements
  exact AnimationObserver.foldl_classes_nodup query _ _ (by simp)

theorem AnimationObserver.defaultCallback_observer (es : List Entry) :
    ∀ s : AnimationObserver, (defaultCallback es s).observer = s.observer := by
  induction es with
  | nil => intro s; rfl
  | cons e es ih =>
    intro s
    simp only [defaultCallback, List.foldl_cons] at ih ⊢
    rw [ih]
    split <;> simp [animateElement]

theorem AnimationObserver.tempCallback_observer (i : Nat) (es : List Entry) :
    ∀ s : AnimationObserver, (tempCallback i es s).observer = s.observer := by
  induction es with
  | nil => intro s; rfl
  | cons e es ih =>
    intro s
    simp only [tempCallback, List.foldl_cons] at ih ⊢
    rw [ih]
    split <;> simp [animateElement]

theorem AnimationObserver.step_nodup (query : String → List Element) (s : AnimationObserver)
    (op : Op) (h : s.observer.targets.Nodup) : (step query s op).observer.targets.Nodup := by
  cases op with
  | observe selector options =>
    simp only [step, AnimationObserver.observe]
    cases selector with
    | none => exact h
    | some sel =>
      simp only
      split
      · exact h
      · cases options with
        | none => exact AnimationObserver.foldl_observe_nodup _ _ h
        | some opts => exact h
  | tick changes =>
    simp only [step, tick]
    rw [AnimationObserver.defaultCallback_observer]
    exact h
  | tempTick i changes =>
    simp only [step, tempTick]
    split
    · exact h
    · rw [AnimationObserver.tempCallback_observer]
      exact h
  | triggerAnimation element =>
    simp only [step, triggerAnimation]
    cases element with
    | none => exact h
    | some el =>
      simp only
      split
      · simpa [animateElement] using h
      · exact h

theorem AnimationObserver.runOps_nodup (query : String → List Element) (ops : List Op) :
    ∀ s : AnimationObserver, s.observer.targets.Nodup →
      (runOps query ops s).observer.targets.Nodup := by
  induction ops with
  | nil => intro s h; exact h
  | cons op ops ih =>
    intro s h
    simp only [runOps, List.foldl_cons] at ih ⊢
    exact ih _ (AnimationObserver.step_nodup query s op h)

theorem AnimationObserver.defaultCallback_animated (changes : List (Element × Bool))
    (l : List Element) :
    ∀ s : AnimationObserver, l.Nodup →
      (defaultCallback
          (l.filterMap (fun el => (changes.lookup el).map (fun b => Entry.mk el b))) s).animated
        = s.animated ++ l.filter (fun el =>
            decide (changes.lookup el = some true) && !decide (el ∈ s.observedElements)) := by
  induction l with
  | nil => intro s _; simp [defaultCallback]
  | cons x xs ih =>
    intro s hnd
    obtain ⟨hx, hxs⟩ := List.nodup_cons.mp hnd
    have hcongr : ∀ (s2 : AnimationObserver),
        (s2.observedElements = s.observedElements ∨
          s2.observedElements = setAdd x s.observedElements) →
        xs.filter (fun el =>
            decide (changes.lookup el = some true) && !decide (el ∈ s2.observedElements))
          = xs.filter (fun el =>
            decide (changes.lookup el = some true) && !decide (el ∈ s.observedElements)) := by
      intro s2 h2
      apply List.filter_congr
      intro el hel
      have hne : el ≠ x := fun h => hx (h ▸ hel)
      rcases h2 with h2 | h2
      · rw [h2]
      · rw [h2]
        unfold setAdd
        split
        · rfl
        · simp [hne]
    cases hlk : changes.lookup x with
    | none =>
      have := ih s hxs
      simpa [List.filterMap_cons, hlk] using this
    | some b =>
      simp only [List.filterMap_cons, hlk, Option.map_some']
      simp only [defaultCallback, List.foldl_cons] at ih ⊢
      by_cases hb : b = true ∧ x ∉ s.observedElements
      · obtain ⟨hb1, hb2⟩ := hb
        subst hb1
        rw [if_pos (by simp [hb2])]
        rw [ih _ hxs, hcongr _ (Or.inr rfl)]
        simp [animateElement, List.filter_cons, hb2, hlk]
      · rw [if_neg (by
          intro hc
          simp only [Bool.and_eq_true, Bool.not_eq_true', decide_eq_false_iff_not] at hc
          exact hb hc)]
        rw [ih _ hxs]
        simp only [List.filter_cons, hlk, Option.some.injEq, Bool.and_eq_true,
          decide_eq_true_eq, Bool.not_eq_true', decide_eq_false_iff_not]
        rw [if_neg hb]

theorem AnimationObserver.tempCallback_animated (i : Nat) (es : List Entry) :
    ∀ s : AnimationObserver,
      (tempCallback i es s).animated
        = s.animated ++ (es.filter (fun e => e.isIntersecting)).map (fun e => e.target) := by
  induction es with
  | nil => intro s; simp [tempCallback]
  | cons e es ih =>
    intro s
    simp only [tempCallback, List.foldl_cons] at ih ⊢
    rw [ih]
    cases hb : e.isIntersecting <;> simp [animateElement, List.filter_cons, hb]

theorem IntersectionObserver.entries_intersecting (changes : List (Element × Bool))
    (l : List Element) :
    ((l.filterMap (fun el => (changes.lookup el).map (fun b => Entry.mk el b))).filter
        (fun e => e.isIntersecting)).map (fun e => e.target)
      = l.filter (fun el => decide (changes.lookup el = some true)) := by
  induction l with
  | nil => rfl
  | cons x xs ih =>
    cases hlk : changes.lookup x with
    | none => simpa [List.filterMap_cons, hlk, List.filter_cons] using ih
    | some b =>
      cases b <;> simp [List.filterMap_cons, hlk, List.filter_cons, ih]

/-- C4, evaluated on the code. An element with the class `fade-in-up` is watched
by the default observer from construction; `observe(element, options)` then
watches it with a temporary observer as well. When both observers report it as
intersecting, `animateElement` is invoked on it twice: the callback of the
temporary observer neither reads nor updates `observedElements`. -/
theorem animateElement_twice_with_two_observers :
    (runOps pageOneCard
      [Op.observe (some (Selector.single 1))
          (some { rootMargin := "0px 0px -50px 0px", thresholdPercent := 30 }),
        Op.tick [(1, true)],
        Op.tempTick 0 [(1, true)]]
      (AnimationObserver.new pageOneCard)).animated.count 1 = 2 := by
  decide

/-- C5. `triggerAnimation(element)` twice in a row leaves the observer exactly as
one call does: the second call does not invoke `animateElement` and does not
change `observedElements`. -/
theorem triggerAnimation_idempotent (s : AnimationObserver) (element : Option Element) :
    triggerAnimation element (triggerAnimation element s) = triggerAnimation element s
    ∧ (triggerAnimation element (triggerAnimation element s)).animated
        = (triggerAnimation element s).animated
    ∧ (triggerAnimation element (triggerAnimation element s)).observedElements
        = (triggerAnimation element s).observedElements := by
  have h : triggerAnimation element (triggerAnimation element s)
      = triggerAnimation element s := by
    cases element with
    | none => rfl
    | some el =>
      by_cases hmem : el ∈ s.observedElements
      · simp [triggerAnimation, hmem]
      · simp [triggerAnimation, hmem, setAdd, animateElement]
  exact ⟨h, by rw [h], by rw [h]⟩

/-- C10. In every state an `AnimationObserver` can reach, one intersection tick
invokes `animateElement` on the elements that became intersecting in the order
in which they were registered with the observer that reports them (for the
default observer: those not yet in `observedElements`). With three registered
elements, `2` becoming visible in one tick and `1` and `3` in a later one, the
invocations are `2`, `1`, `3`, in whatever order the platform lists the changes. -/
theorem same_tick_animates_in_registration_order (query : String → List Element)
    (ops : List Op) (changes : List (Element × Bool)) (i : Nat) :
    (tick changes (runOps query ops (AnimationObserver.new query))).animated
        = (runOps query ops (AnimationObserver.new query)).animated ++
          (runOps query ops (AnimationObserver.new query)).observer.targets.filter (fun el =>
            decide (changes.lookup el = some true) &&
              !decide (el ∈ (runOps query ops (AnimationObserver.new query)).observedElements))
    ∧ (tempTick i changes (runOps query ops (AnimationObserver.new query))).animated
        = (runOps query ops (AnimationObserver.new query)).animated ++
          (match (runOps query ops (AnimationObserver.new query)).tempObservers[i]? with
            | none => []
            | some o => o.targets.filter (fun el => decide (changes.lookup el = some true)))
    ∧ (runOps pageThreeCards [Op.tick [(2, true)], Op.tick [(1, true), (3, true)]]
        (AnimationObserver.new pageThreeCards)).animated = [2, 1, 3]
    ∧ (runOps pageThreeCards [Op.tick [(2, true)], Op.tick [(3, true), (1, true)]]
        (AnimationObserver.new pageThreeCards)).animated = [2, 1, 3] := by
  refine ⟨?_, ?_, by decide, by decide⟩
  · exact AnimationObserver.defaultCallback_animated changes _ _
      (AnimationObserver.runOps_nodup query ops _ (AnimationObserver.new_nodup query))
  · unfold tempTick
    cases (runOps query ops (AnimationObserver.new query)).tempObservers[i]? with
    | none => simp
    | some o =>
      simp only
      rw [AnimationObserver.tempCallback_animated, IntersectionObserver.entries,
        IntersectionObserver.entries_intersecting]

end Animation

section Notifications

open NotificationSystem

theorem expired_head {τ : Type} (now : Nat) (ts : List (Timer τ)) (t : Timer τ)
    (h : (expired now ts).head? = some t) :
    t ∈ ts ∧ t.due ≤ now ∧ ∀ u ∈ ts, u.due ≤ now → t.due ≤ u.due := by
  haveI : IsTotal (Timer τ) (fun a b => a.due ≤ b.due) := ⟨fun a b => Nat.le_total _ _⟩
  haveI : IsTrans (Timer τ) (fun a b => a.due ≤ b.due) := ⟨fun a b c => Nat.le_trans⟩
  obtain ⟨rest, hrest⟩ := List.head?_eq_some_iff.mp h
  have hmem : ∀ u, u ∈ expired now ts ↔ (u ∈ ts ∧ u.due ≤ now) := by
    intro u
    simp [expired, List.mem_insertionSort, List.mem_filter]
  have hsorted : List.Sorted (fun a b : Timer τ => a.due ≤ b.due) (expired now ts) := by
    unfold expired
    exact List.sorted_insertionSort _ _
  have ht : t ∈ expired now ts := by rw [hrest]; simp
  refine ⟨((hmem t).mp ht).1, ((hmem t).mp ht).2, ?_⟩
  intro u hu hdue
  have hu2 : u ∈ expired now ts := (hmem u).mpr ⟨hu, hdue⟩
  rw [hrest] at hu2 hsorted
  rcases List.mem_cons.mp hu2 with h1 | h1
  · rw [h1]
  · exact List.rel_of_sorted_cons hsorted u h1

theorem expired_head_none {τ : Type} (now : Nat) (ts : List (Timer τ))
    (h : (expired now ts).head? = none) : ∀ u ∈ ts, now < u.due := by
  intro u hu
  by_contra hcon
  have hmem : u ∈ expired now ts := by
    simp only [expired, List.mem_insertionSort, List.mem_filter, decide_eq_true_eq]
    exact ⟨hu, by omega⟩
  rw [List.head?_eq_none_iff.mp h] at hmem
  simp at hmem

theorem NotificationSystem.advanceFuel_induct (P : NotificationSystem → Prop) (T : Nat)
    (hstep : ∀ (s : NotificationSystem) (t : Timer NotificationTask), P s → t ∈ s.timers →
      t.due ≤ T → (∀ u ∈ s.timers, u.due ≤ T → t.due ≤ u.due) →
      P (fire t { s with timers := s.timers.erase t })) :
    ∀ (fuel : Nat) (s : NotificationSystem), P s → P (advanceFuel fuel T s) := by
  intro fuel
  induction fuel with
  | zero => intro s hs; exact hs
  | succ k ih =>
    intro s hs
    unfold advanceFuel
    cases hh : (expired T s.timers).head? with
    | none => exact hs
    | some t =>
      obtain ⟨h1, h2, h3⟩ := expired_head T s.timers t hh
      exact ih _ (hstep s t hs h1 h2 h3)

theorem NotificationSystem.workLeft_fire (s : NotificationSystem) (t : Timer NotificationTask)
    (ht : t ∈ s.timers) :
    workLeft (fire t { s with timers := s.timers.erase t }).timers + 1 = workLeft s.timers := by
  have herase := List.sum_map_erase (fun t : Timer NotificationTask => match t.task with
    | NotificationTask.autoHide _ => 2
    | NotificationTask.detach _ => 1) ht
  unfold workLeft
  cases htask : t.task with
  | autoHide n =>
    simp only [htask] at herase
    simp only [fire, htask, hide, setTimeout, List.map_append, List.sum_append, List.map_cons,
      List.map_nil, List.sum_cons, List.sum_nil]
    omega
  | detach n =>
    simp only [htask] at herase
    have : (removeIfAttached t.due n { s with timers := s.timers.erase t }).timers
        = s.timers.erase t := by
      unfold removeIfAttached
      split <;> rfl
    simp only [fire, htask, this]
    omega

theorem NotificationSystem.advanceFuel_quiet (T : Nat) :
    ∀ (fuel : Nat) (s : NotificationSystem), workLeft s.timers ≤ fuel →
      ∀ u ∈ (advanceFuel fuel T s).timers, T < u.due := by
  intro fuel
  induction fuel with
  | zero =>
    intro s hs u hu
    have hnil : s.timers = [] := by
      cases hts : s.timers with
      | nil => rfl
      | cons x xs =>
        rw [hts] at hs
        unfold workLeft at hs
        simp only [List.map_cons, List.sum_cons] at hs
        cases hx : x.task <;> simp only [hx] at hs <;> omega
    simp [advanceFuel, hnil] at hu
  | succ k ih =>
    intro s hs
    unfold advanceFuel
    cases hh : (expired T s.timers).head? with
    | none => exact expired_head_none T s.timers hh
    | some t =>
      obtain ⟨h1, _, _⟩ := expired_head T s.timers t hh
      have := NotificationSystem.workLeft_fire s t h1
      exact ih _ (by omega)

theorem NotificationSystem.workLeft_le (ts : List (Timer NotificationTask)) :
    workLeft ts ≤ 2 * ts.length := by
  induction ts with
  | nil => simp [workLeft]
  | cons x xs ih =>
    unfold workLeft at ih ⊢
    simp only [List.map_cons, List.sum_cons, List.length_cons]
    cases hx : x.task <;> simp only [] <;> omega

/-- After `advance T`, every timer still pending is due after `T`: the fuel of
`advance` is never exhausted. -/
theorem NotificationSystem.advance_quiet (T : Nat) (s : NotificationSystem) :
    ∀ u ∈ (advance T s).timers, T < u.due :=
  NotificationSystem.advanceFuel_quiet T _ s (NotificationSystem.workLeft_le s.timers)

theorem NotificationSystem.nodeOf_autoHide (n : Notification) :
    nodeOf (NotificationTask.autoHide n) = n := rfl

theorem NotificationSystem.nodeOf_detach (n : Notification) :
    nodeOf (NotificationTask.detach n) = n := rfl

theorem NotificationSystem.timersOf_erase (n : Notification) (s : NotificationSystem)
    (t : Timer NotificationTask) :
    (s.timers.erase t).filter (fun u => decide (nodeOf u.task = n)) = (timersOf n s).erase t := by
  unfold timersOf
  rw [List.erase_filter]

theorem NotificationSystem.fire_other (n : Notification) (s : NotificationSystem)
    (t : Timer NotificationTask) (hne : nodeOf t.task ≠ n) :
    SameView n s (fire t { s with timers := s.timers.erase t }) := by
  have hnot : t ∉ timersOf n s := by
    intro hmem
    unfold timersOf at hmem
    simp only [List.mem_filter, decide_eq_true_eq] at hmem
    exact hne hmem.2
  have herase : (s.timers.erase t).filter (fun u => decide (nodeOf u.task = n))
      = timersOf n s := by
    rw [NotificationSystem.timersOf_erase, List.erase_eq_self_iff.mpr hnot]
  cases htask : t.task with
  | autoHide m =>
    have hm : m ≠ n := by simpa [htask, NotificationSystem.nodeOf_autoHide,
      NotificationSystem.nodeOf_detach] using hne
    refine ⟨?_, ?_, ?_, ?_⟩
    · simp only [fire, htask, hide, setTimeout]
    · simp only [fire, htask, hide, setTimeout, timersOf]
      rw [List.filter_append, herase]
      simp [NotificationSystem.nodeOf_detach, hm]
      rfl
    · simp only [fire, htask, hide, setTimeout, detachedOf]
    · simp only [fire, htask, hide, setTimeout, le_refl]
  | detach m =>
    have hm : m ≠ n := by simpa [htask, NotificationSystem.nodeOf_autoHide,
      NotificationSystem.nodeOf_detach] using hne
    unfold SameView
    simp only [fire, htask, removeIfAttached]
    split
    · refine ⟨?_, herase, ?_, le_refl _⟩
      · simp only
        exact List.count_erase_of_ne (Ne.symm hm) _
      · simp only [detachedOf]
        rw [List.filter_append]
        simp [hm]
    · exact ⟨rfl, herase, rfl, le_refl _⟩

theorem NotificationSystem.show_other (n : Notification) (s : NotificationSystem) (now : Nat)
    (message : String) (type : Option String) (duration : Option Nat)
    (hid : n.id < s.nextNode) :
    SameView n s («show» now message type duration s).2 := by
  have hne : ({ id := s.nextNode, message := message, type := type.getD "info" }
      : Notification) ≠ n := by
    intro h
    rw [← h] at hid
    simp at hid
  unfold NotificationSystem.show
  simp only
  split
  · refine ⟨?_, ?_, rfl, by simp [setTimeout]⟩
    · simp only [setTimeout]
      rw [List.count_append]
      simp [List.count_cons, hne]
    · simp only [timersOf, setTimeout]
      rw [List.filter_append]
      simp [NotificationSystem.nodeOf_autoHide, hne]
  · refine ⟨?_, rfl, rfl, by simp⟩
    simp only
    rw [List.count_append]
    simp [List.count_cons, hne]

theorem NotificationSystem.hide_other (n m : Notification) (s : NotificationSystem) (now : Nat)
    (hne : m ≠ n) : SameView n s (hide now m s) := by
  refine ⟨rfl, ?_, rfl, le_refl _⟩
  simp only [timersOf, hide, setTimeout]
  rw [List.filter_append]
  simp [NotificationSystem.nodeOf_detach, hne]

theorem NotificationSystem.perform_other (n : Notification) (s : NotificationSystem) (e : Event)
    (hid : n.id < s.nextNode) (he : e.dismisses n = false) : SameView n s (perform e s) := by
  cases e with
  | «show» now message type duration =>
    exact NotificationSystem.show_other n s now message type duration hid
  | hide now m =>
    have hm : m ≠ n := by simpa [Event.dismisses] using he
    exact NotificationSystem.hide_other n m s now hm

theorem NotificationSystem.autoLife_of_sameView (n : Notification) (a T : Nat)
    (s1 s2 : NotificationSystem) (h : AutoLife n a T s1) (hv : SameView n s1 s2) :
    AutoLife n a T s2 := by
  obtain ⟨hc, ht, hd, hn⟩ := hv
  obtain ⟨hid, hcases⟩ := h
  refine ⟨by omega, ?_⟩
  rw [hc, ht, hd]
  exact hcases

theorem NotificationSystem.dismissedLife_of_sameView (n : Notification) (a m T : Nat)
    (s1 s2 : NotificationSystem) (h : DismissedLife n a m T s1) (hv : SameView n s1 s2) :
    DismissedLife n a m T s2 := by
  obtain ⟨hc, ht, hd, hn⟩ := hv
  obtain ⟨hid, hcases⟩ := h
  refine ⟨by omega, ?_⟩
  rw [hc, ht, hd]
  exact hcases

theorem NotificationSystem.mem_timersOf (n : Notification) (s : NotificationSystem)
    (t : Timer NotificationTask) (ht : t ∈ s.timers) (hn : nodeOf t.task = n) :
    t ∈ timersOf n s := by
  unfold timersOf
  simp only [List.mem_filter, decide_eq_true_eq]
  exact ⟨ht, hn⟩

theorem NotificationSystem.fire_autoHide (n : Notification) (s : NotificationSystem)
    (t : Timer NotificationTask) (htask : t.task = NotificationTask.autoHide n) :
    (fire t { s with timers := s.timers.erase t }).container.count n = s.container.count n
    ∧ detachedOf n (fire t { s with timers := s.timers.erase t }) = detachedOf n s
    ∧ (fire t { s with timers := s.timers.erase t }).nextNode = s.nextNode
    ∧ timersOf n (fire t { s with timers := s.timers.erase t })
      = (timersOf n s).erase t
        ++ [{ handle := s.nextHandle, due := t.due + exitTransitionMs,
              task := NotificationTask.detach n }] := by
  refine ⟨?_, ?_, ?_, ?_⟩
  · simp only [fire, htask, hide, setTimeout]
  · simp only [fire, htask, hide, setTimeout, detachedOf]
  · simp only [fire, htask, hide, setTimeout]
  · simp only [fire, htask, hide, setTimeout, timersOf]
    rw [List.filter_append, NotificationSystem.timersOf_erase]
    simp [NotificationSystem.nodeOf_detach]
    rfl

theorem NotificationSystem.fire_detach (n : Notification) (s : NotificationSystem)
    (t : Timer NotificationTask) (htask : t.task = NotificationTask.detach n) :
    (fire t { s with timers := s.timers.erase t }).nextNode = s.nextNode
    ∧ timersOf n (fire t { s with timers := s.timers.erase t }) = (timersOf n s).erase t
    ∧ (fire t { s with timers := s.timers.erase t }).container.count n
      = s.container.count n - 1
    ∧ detachedOf n (fire t { s with timers := s.timers.erase t })
      = detachedOf n s ++ (if s.container.count n = 0 then [] else [(t.due, n)]) := by
  simp only [fire, htask, removeIfAttached]
  by_cases hmem : n ∈ s.container
  · have hpos : 0 < s.container.count n := List.count_pos_iff.mpr hmem
    have hne : ¬ (s.container.count n = 0) := by omega
    rw [if_pos hmem]
    refine ⟨rfl, ?_, ?_, ?_⟩
    · exact NotificationSystem.timersOf_erase n s _
    · simp [List.count_erase_self]
    · simp only [detachedOf]
      rw [List.filter_append]
      simp [hne]
  · have hzero : s.container.count n = 0 := List.count_eq_zero.mpr hmem
    rw [if_neg hmem]
    refine ⟨rfl, ?_, ?_, ?_⟩
    · exact NotificationSystem.timersOf_erase n s _
    · simp [hzero]
    · simp [hzero, detachedOf]

theorem NotificationSystem.autoLife_fire (n : Notification) (a T : Nat)
    (s : NotificationSystem) (t : Timer NotificationTask) (h : AutoLife n a T s)
    (ht : t ∈ s.timers) (hdue : t.due ≤ T) :
    AutoLife n a T (fire t { s with timers := s.timers.erase t }) := by
  by_cases hn : nodeOf t.task = n
  · have hmem := NotificationSystem.mem_timersOf n s t ht hn
    obtain ⟨hid, hA | hB | hC⟩ := h
    · obtain ⟨hc, hd, hh, htm⟩ := hA
      rw [htm, List.mem_singleton] at hmem
      have htask : t.task = NotificationTask.autoHide n := by rw [hmem]
      have hta : t.due = a := by rw [hmem]
      obtain ⟨f1, f2, f3, f4⟩ := NotificationSystem.fire_autoHide n s t htask
      refine ⟨by omega, Or.inr (Or.inl ⟨by omega, by omega, by rw [f2, hd], s.nextHandle, ?_⟩)⟩
      rw [f4, htm, hta, ← hmem]
      simp
    · obtain ⟨hle, hc, hd, hh, htm⟩ := hB
      rw [htm, List.mem_singleton] at hmem
      have htask : t.task = NotificationTask.detach n := by rw [hmem]
      have hta : t.due = a + exitTransitionMs := by rw [hmem]
      obtain ⟨f1, f2, f3, f4⟩ := NotificationSystem.fire_detach n s t htask
      refine ⟨by omega, Or.inr (Or.inr ⟨by omega, by omega, ?_, ?_⟩)⟩
      · rw [f4, hd, hc, hta]
        simp
      · rw [f2, htm, ← hmem]
        simp
    · obtain ⟨_, _, _, htm⟩ := hC
      rw [htm] at hmem
      simp at hmem
  · exact NotificationSystem.autoLife_of_sameView n a T s _ h
      (NotificationSystem.fire_other n s t hn)

theorem NotificationSystem.dismissedLife_fire (n : Notification) (a m T T1 : Nat) (hma : m < a)
    (hT : T1 ≤ T)
    (s : NotificationSystem) (t : Timer NotificationTask) (h : DismissedLife n a m T s)
    (ht : t ∈ s.timers) (hdue : t.due ≤ T1)
    (hmin : ∀ u ∈ s.timers, u.due ≤ T1 → t.due ≤ u.due) :
    DismissedLife n a m T (fire t { s with timers := s.timers.erase t }) := by
  by_cases hn : nodeOf t.task = n
  · have hmem := NotificationSystem.mem_timersOf n s t ht hn
    obtain ⟨hid, hD | hE | hF | hG⟩ := h
    · obtain ⟨hc, hd, h1, h2, htm⟩ := hD
      have hsecond : ({ handle := h2, due := m, task := NotificationTask.detach n }
          : Timer NotificationTask) ∈ s.timers := by
        have : ({ handle := h2, due := m, task := NotificationTask.detach n }
            : Timer NotificationTask) ∈ timersOf n s := by rw [htm]; simp
        unfold timersOf at this
        exact (List.mem_filter.mp this).1
      rw [htm] at hmem
      simp only [List.mem_cons, List.mem_singleton, List.not_mem_nil, or_false] at hmem
      rcases hmem with hmem | hmem
      · exfalso
        have hta : t.due = a := by rw [hmem]
        have := hmin _ hsecond (by simp only; omega)
        simp only at this
        omega
      · have htask : t.task = NotificationTask.detach n := by rw [hmem]
        have hta : t.due = m := by rw [hmem]
        obtain ⟨f1, f2, f3, f4⟩ := NotificationSystem.fire_detach n s t htask
        refine ⟨by omega, Or.inr (Or.inl ⟨by omega, by omega, ?_, h1, ?_⟩)⟩
        · rw [f4, hd, hc, hta]
          simp
        · rw [f2, htm, hmem]
          simp
    · obtain ⟨hle, hc, hd, hh, htm⟩ := hE
      rw [htm, List.mem_singleton] at hmem
      have htask : t.task = NotificationTask.autoHide n := by rw [hmem]
      have hta : t.due = a := by rw [hmem]
      obtain ⟨f1, f2, f3, f4⟩ := NotificationSystem.fire_autoHide n s t htask
      refine ⟨by omega, Or.inr (Or.inr (Or.inl
        ⟨by omega, by omega, by rw [f2, hd], s.nextHandle, ?_⟩))⟩
      rw [f4, htm, hta, ← hmem]
      simp
    · obtain ⟨hle, hc, hd, hh, htm⟩ := hF
      rw [htm, List.mem_singleton] at hmem
      have htask : t.task = NotificationTask.detach n := by rw [hmem]
      have hta : t.due = a + exitTransitionMs := by rw [hmem]
      obtain ⟨f1, f2, f3, f4⟩ := NotificationSystem.fire_detach n s t htask
      refine ⟨by omega, Or.inr (Or.inr (Or.inr ⟨by omega, by omega, ?_, ?_⟩))⟩
      · rw [f4, hd, hc]
        simp
      · rw [f2, htm, ← hmem]
        simp
    · obtain ⟨_, _, _, htm⟩ := hG
      rw [htm] at hmem
      simp at hmem
  · exact NotificationSystem.dismissedLife_of_sameView n a m T s _ h
      (NotificationSystem.fire_other n s t hn)

theorem NotificationSystem.autoLife_advance (n : Notification) (a T T1 : Nat) (hT : T1 ≤ T)
    (s : NotificationSystem) (h : AutoLife n a T s) : AutoLife n a T (advance T1 s) :=
  NotificationSystem.advanceFuel_induct (AutoLife n a T) T1
    (fun s t hs ht hdue _ => NotificationSystem.autoLife_fire n a T s t hs ht (by omega)) _ s h

theorem NotificationSystem.dismissedLife_advance (n : Notification) (a m T T1 : Nat)
    (hma : m < a) (hT : T1 ≤ T) (s : NotificationSystem) (h : DismissedLife n a m T s) :
    DismissedLife n a m T (advance T1 s) :=
  NotificationSystem.advanceFuel_induct (DismissedLife n a m T) T1
    (fun s t hs ht hdue hmin =>
      NotificationSystem.dismissedLife_fire n a m T T1 hma hT s t hs ht hdue hmin) _ s h

theorem NotificationSystem.autoLife_runEvents (n : Notification) (a T : Nat)
    (es : List Event) :
    ∀ s : NotificationSystem, AutoLife n a T s →
      (∀ e ∈ es, e.time ≤ T ∧ e.dismisses n = false) → AutoLife n a T (runEvents es s) := by
  induction es with
  | nil => intro s h _; exact h
  | cons e es ih =>
    intro s h hes
    have he := hes e (List.mem_cons_self e es)
    have h1 := NotificationSystem.autoLife_advance n a T e.time he.1 s h
    have h2 := NotificationSystem.autoLife_of_sameView n a T _ _ h1
      (NotificationSystem.perform_other n _ e h1.1 he.2)
    exact ih _ h2 (fun e2 he2 => hes e2 (List.mem_cons_of_mem e he2))

theorem NotificationSystem.dismissedLife_runEvents (n : Notification) (a m T : Nat)
    (hma : m < a) (es : List Event) :
    ∀ s : NotificationSystem, DismissedLife n a m T s →
      (∀ e ∈ es, e.time ≤ T ∧ e.dismisses n = false) →
      DismissedLife n a m T (runEvents es s) := by
  induction es with
  | nil => intro s h _; exact h
  | cons e es ih =>
    intro s h hes
    have he := hes e (List.mem_cons_self e es)
    have h1 := NotificationSystem.dismissedLife_advance n a m T e.time hma he.1 s h
    have h2 := NotificationSystem.dismissedLife_of_sameView n a m T _ _ h1
      (NotificationSystem.perform_other n _ e h1.1 he.2)
    exact ih _ h2 (fun e2 he2 => hes e2 (List.mem_cons_of_mem e he2))

theorem NotificationSystem.mem_of_timersOf (n : Notification) (s : NotificationSystem)
    (t : Timer NotificationTask) (l : List (Timer NotificationTask))
    (h : timersOf n s = t :: l) : t ∈ s.timers := by
  have : t ∈ timersOf n s := by rw [h]; simp
  unfold timersOf at this
  exact (List.mem_filter.mp this).1

theorem NotificationSystem.autoLife_final (n : Notification) (a T : Nat)
    (s : NotificationSystem) (h : AutoLife n a T s) (hq : ∀ u ∈ s.timers, T < u.due) :
    (n ∈ s.container ↔ T < a + exitTransitionMs)
    ∧ detachedOf n s = (if a + exitTransitionMs ≤ T then [(a + exitTransitionMs, n)] else []) := by
  obtain ⟨_, hA | hB | hC⟩ := h
  · obtain ⟨hc, hd, hh, htm⟩ := hA
    have := hq _ (NotificationSystem.mem_of_timersOf n s _ _ htm)
    simp only at this
    have hmem : n ∈ s.container := List.count_pos_iff.mp (by omega)
    have hlt : ¬ (a + exitTransitionMs ≤ T) := by omega
    exact ⟨⟨fun _ => by omega, fun _ => hmem⟩, by rw [hd, if_neg hlt]⟩
  · obtain ⟨hle, hc, hd, hh, htm⟩ := hB
    have := hq _ (NotificationSystem.mem_of_timersOf n s _ _ htm)
    simp only at this
    have hmem : n ∈ s.container := List.count_pos_iff.mp (by omega)
    have hlt : ¬ (a + exitTransitionMs ≤ T) := by omega
    exact ⟨⟨fun _ => by omega, fun _ => hmem⟩, by rw [hd, if_neg hlt]⟩
  · obtain ⟨hle, hc, hd, htm⟩ := hC
    have hmem : n ∉ s.container := List.count_eq_zero.mp hc
    exact ⟨⟨fun h => absurd h hmem, fun h => by omega⟩, by rw [hd, if_pos hle]⟩

theorem NotificationSystem.dismissedLife_final (n : Notification) (a m T : Nat) (hma : m < a)
    (s : NotificationSystem) (h : DismissedLife n a m T s)
    (hq : ∀ u ∈ s.timers, T < u.due) :
    (n ∈ s.container ↔ T < m)
    ∧ detachedOf n s = (if m ≤ T then [(m, n)] else []) := by
  obtain ⟨_, hD | hE | hF | hG⟩ := h
  · obtain ⟨hc, hd, h1, h2, htm⟩ := hD
    have hsecond : ({ handle := h2, due := m, task := NotificationTask.detach n }
        : Timer NotificationTask) ∈ s.timers := by
      have : ({ handle := h2, due := m, task := NotificationTask.detach n }
          : Timer NotificationTask) ∈ timersOf n s := by rw [htm]; simp
      unfold timersOf at this
      exact (List.mem_filter.mp this).1
    have := hq _ hsecond
    simp only at this
    have hmem : n ∈ s.container := List.count_pos_iff.mp (by omega)
    have hlt : ¬ (m ≤ T) := by omega
    exact ⟨⟨fun _ => by omega, fun _ => hmem⟩, by rw [hd, if_neg hlt]⟩
  · obtain ⟨hle, hc, hd, _⟩ := hE
    have hmem : n ∉ s.container := List.count_eq_zero.mp hc
    exact ⟨⟨fun h => absurd h hmem, fun h => by omega⟩, by rw [hd, if_pos hle]⟩
  · obtain ⟨hle, hc, hd, _⟩ := hF
    have hmem : n ∉ s.container := List.count_eq_zero.mp hc
    exact ⟨⟨fun h => absurd h hmem, fun h => by omega⟩, by rw [hd, if_pos (by omega)]⟩
  · obtain ⟨hle, hc, hd, _⟩ := hG
    have hmem : n ∉ s.container := List.count_eq_zero.mp hc
    exact ⟨⟨fun h => absurd h hmem, fun h => by omega⟩, by rw [hd, if_pos (by omega)]⟩

theorem NotificationSystem.autoLife_show (s0 s1 : NotificationSystem) (n : Notification)
    (t0 d T : Nat) (message : String) (type : Option String) (hd : 0 < d)
    (hfresh : Fresh s0) (hshow : «show» t0 message type (some d) s0 = (n, s1)) :
    AutoLife n (t0 + d) T s1 := by
  obtain ⟨hc, ht, hl⟩ := hfresh
  unfold NotificationSystem.show at hshow
  simp only [Option.getD_some, gt_iff_lt, hd, if_true, Prod.mk.injEq] at hshow
  obtain ⟨hn, hs⟩ := hshow
  have hnid : n.id = s0.nextNode := by rw [← hn]
  have hnotc : n ∉ s0.container := fun hmem => by
    have := hc n hmem
    omega
  have htimers : s0.timers.filter (fun u => decide (nodeOf u.task = n)) = [] := by
    rw [List.filter_eq_nil_iff]
    intro u hu
    have := ht u hu
    simp only [decide_eq_true_eq]
    intro heq
    rw [heq] at this
    omega
  have hlog : s0.detached.filter (fun e => decide (e.2 = n)) = [] := by
    rw [List.filter_eq_nil_iff]
    intro e he
    have := hl e he
    simp only [decide_eq_true_eq]
    intro heq
    rw [heq] at this
    omega
  subst hs
  refine ⟨by simp [setTimeout, hnid], Or.inl ⟨?_, ?_, s0.nextHandle, ?_⟩⟩
  · simp only [setTimeout]
    rw [List.count_append, List.count_eq_zero.mpr hnotc, hn]
    simp
  · simp only [detachedOf, setTimeout]
    exact hlog
  · simp only [timersOf, setTimeout]
    rw [List.filter_append, htimers, hn]
    simp [NotificationSystem.nodeOf_autoHide]

theorem NotificationSystem.dismissedLife_hide (n : Notification) (a x T : Nat)
    (s : NotificationSystem) (hxa : x < a) (h : AutoLife n a x s) :
    DismissedLife n a (x + exitTransitionMs) T (hide x n s) := by
  obtain ⟨hid, hA | hB | hC⟩ := h
  · obtain ⟨hc, hd, hh, htm⟩ := hA
    refine ⟨hid, Or.inl ⟨hc, hd, hh, s.nextHandle, ?_⟩⟩
    simp only [timersOf, hide, setTimeout]
    rw [List.filter_append]
    have : s.timers.filter (fun u => decide (nodeOf u.task = n))
        = [{ handle := hh, due := a, task := NotificationTask.autoHide n }] := htm
    rw [this]
    simp [NotificationSystem.nodeOf_detach]
  · omega
  · have := hC.1
    unfold exitTransitionMs at this
    omega

theorem NotificationSystem.fresh_init : Fresh NotificationSystem.init := by
  refine ⟨?_, ?_, ?_⟩ <;> simp [NotificationSystem.init]

theorem NotificationSystem.fresh_show (s : NotificationSystem) (now : Nat) (message : String)
    (type : Option String) (duration : Option Nat) (h : Fresh s) :
    Fresh («show» now message type duration s).2 := by
  obtain ⟨hc, ht, hl⟩ := h
  unfold NotificationSystem.show
  simp only
  split
  · refine ⟨?_, ?_, ?_⟩
    · intro m hm
      simp only [setTimeout, List.mem_append, List.mem_singleton] at hm ⊢
      rcases hm with hm | hm
      · have := hc m hm
        omega
      · rw [hm]
        simp
    · intro t htm
      simp only [setTimeout, List.mem_append, List.mem_singleton] at htm ⊢
      rcases htm with htm | htm
      · have := ht t htm
        omega
      · rw [htm]
        simp [NotificationSystem.nodeOf_autoHide]
    · intro e he
      simp only [setTimeout] at he ⊢
      have := hl e he
      omega
  · refine ⟨?_, ?_, ?_⟩
    · intro m hm
      simp only [List.mem_append, List.mem_singleton] at hm ⊢
      rcases hm with hm | hm
      · have := hc m hm
        omega
      · rw [hm]
        simp
    · intro t htm
      have := ht t htm
      simp only
      omega
    · intro e he
      have := hl e he
      simp only
      omega

theorem NotificationSystem.fresh_hide (s : NotificationSystem) (now : Nat) (m : Notification)
    (h : Fresh s) (hm : m.id < s.nextNode) : Fresh (hide now m s) := by
  obtain ⟨hc, ht, hl⟩ := h
  refine ⟨hc, ?_, hl⟩
  intro t htm
  simp only [hide, setTimeout, List.mem_append, List.mem_singleton] at htm ⊢
  rcases htm with htm | htm
  · exact ht t htm
  · rw [htm]
    simpa [NotificationSystem.nodeOf_detach] using hm

theorem NotificationSystem.fresh_fire (s : NotificationSystem) (t : Timer NotificationTask)
    (h : Fresh s) (hmem : t ∈ s.timers) :
    Fresh (fire t { s with timers := s.timers.erase t }) := by
  obtain ⟨hc, ht, hl⟩ := h
  have hself := ht t hmem
  have hrest : ∀ u ∈ s.timers.erase t, (nodeOf u.task).id < s.nextNode :=
    fun u hu => ht u (List.mem_of_mem_erase hu)
  cases htask : t.task with
  | autoHide n =>
    rw [htask, NotificationSystem.nodeOf_autoHide] at hself
    simp only [fire, htask]
    exact NotificationSystem.fresh_hide _ t.due n ⟨hc, hrest, hl⟩ hself
  | detach n =>
    rw [htask, NotificationSystem.nodeOf_detach] at hself
    simp only [fire, htask, removeIfAttached]
    split
    · refine ⟨fun m hm => hc m (List.mem_of_mem_erase hm), hrest, ?_⟩
      intro e he
      simp only [List.mem_append, List.mem_singleton] at he
      rcases he with he | he
      · exact hl e he
      · rw [he]
        exact hself
    · exact ⟨hc, hrest, hl⟩

/-- The elements a system holds or mentions stay those of earlier `show` calls
as time passes. -/
theorem NotificationSystem.fresh_advance (T : Nat) (s : NotificationSystem) (h : Fresh s) :
    Fresh (advance T s) :=
  NotificationSystem.advanceFuel_induct Fresh T
    (fun s t hs ht _ _ => NotificationSystem.fresh_fire s t hs ht) _ s h

/-- C6. A notification `n` created by `show` at `t0` with duration 5000, in any
system whose elements all come from earlier `show` calls, whatever other calls
(`show`, `hide` of other notifications) are made meanwhile. Never dismissed, it
is in the container at every `T` before `t0 + 5000 + 300` and `removeChild` runs
on it exactly once, at `t0 + 5000 + 300`. Dismissed through `hide` at `t0 + 100`,
it is in the container before `t0 + 100 + 300` and `removeChild` runs on it
exactly once, at `t0 + 100 + 300`, also after the auto-hide timer has fired at
`t0 + 5000`: the removal callback on a detached notification changes nothing. -/
theorem notification_detached_once_after_exit_transition
    (s0 s1 : NotificationSystem) (n : Notification) (t0 T : Nat) (message : String)
    (type : Option String) (before after : List Event)
    (hfresh : Fresh s0)
    (hshow : «show» t0 message type (some 5000) s0 = (n, s1))
    (hbefore : ∀ e ∈ before, e.time ≤ t0 + 100 ∧ e.dismisses n = false)
    (hafter : ∀ e ∈ after, e.time ≤ T ∧ e.dismisses n = false) :
    ((n ∈ (advance T (runEvents after s1)).container ↔ T < t0 + 5000 + 300)
      ∧ detachedOf n (advance T (runEvents after s1))
          = (if t0 + 5000 + 300 ≤ T then [(t0 + 5000 + 300, n)] else []))
    ∧ ((n ∈ (advance T (runEvents after
            (hide (t0 + 100) n (advance (t0 + 100) (runEvents before s1))))).container
          ↔ T < t0 + 100 + 300)
      ∧ detachedOf n (advance T (runEvents after
            (hide (t0 + 100) n (advance (t0 + 100) (runEvents before s1)))))
          = (if t0 + 100 + 300 ≤ T then [(t0 + 100 + 300, n)] else []))
    ∧ (∀ (s : NotificationSystem) (now : Nat), n ∉ s.container →
        removeIfAttached now n s = s) := by
  refine ⟨?_, ?_, ?_⟩
  · have h0 : AutoLife n (t0 + 5000) T s1 :=
      NotificationSystem.autoLife_show s0 s1 n t0 5000 T message type (by decide) hfresh hshow
    have h1 := NotificationSystem.autoLife_runEvents n (t0 + 5000) T after s1 h0 hafter
    have h2 := NotificationSystem.autoLife_advance n (t0 + 5000) T T (le_refl _) _ h1
    exact NotificationSystem.autoLife_final n (t0 + 5000) T _ h2
      (NotificationSystem.advance_quiet T _)
  · have h0 : AutoLife n (t0 + 5000) (t0 + 100) s1 :=
      NotificationSystem.autoLife_show s0 s1 n t0 5000 (t0 + 100) message type (by decide)
        hfresh hshow
    have h1 := NotificationSystem.autoLife_runEvents n (t0 + 5000) (t0 + 100) before s1 h0
      hbefore
    have h2 := NotificationSystem.autoLife_advance n (t0 + 5000) (t0 + 100) (t0 + 100)
      (le_refl _) _ h1
    have h3 : DismissedLife n (t0 + 5000) (t0 + 100 + 300) T
        (hide (t0 + 100) n (advance (t0 + 100) (runEvents before s1))) :=
      NotificationSystem.dismissedLife_hide n (t0 + 5000) (t0 + 100) T _ (by omega) h2
    have h4 := NotificationSystem.dismissedLife_runEvents n (t0 + 5000) (t0 + 100 + 300) T
      (by omega) after _ h3 hafter
    have h5 := NotificationSystem.dismissedLife_advance n (t0 + 5000) (t0 + 100 + 300) T T
      (by omega) (le_refl _) _ h4
    exact NotificationSystem.dismissedLife_final n (t0 + 5000) (t0 + 100 + 300) T (by omega) _
      h5 (NotificationSystem.advance_quiet T _)
  · intro s now hmem
    simp [removeIfAttached, hmem]

theorem notification_detached_once_after_exit_transition_witness :
    detachedOf { id := 1, message := "saved", type := "info" }
        (advance 6000 (runEvents [Event.show 50 "other" none none]
          («show» 0 "saved" none (some 5000) NotificationSystem.init).2))
      = [(5300, { id := 1, message := "saved", type := "info" })]
    ∧ detachedOf { id := 1, message := "saved", type := "info" }
        (advance 6000 (runEvents [Event.show 50 "other" none none]
          (hide 100 { id := 1, message := "saved", type := "info" }
            (advance 100 (runEvents []
              («show» 0 "saved" none (some 5000) NotificationSystem.init).2)))))
      = [(400, { id := 1, message := "saved", type := "info" })] := by
  have h := notification_detached_once_after_exit_transition NotificationSystem.init
    («show» 0 "saved" none (some 5000) NotificationSystem.init).2
    { id := 1, message := "saved", type := "info" } 0 6000 "saved" none []
    [Event.show 50 "other" none none]
    ⟨by simp [NotificationSystem.init], by simp [NotificationSystem.init],
      by simp [NotificationSystem.init]⟩
    rfl (by simp) (by simp [Event.time, Event.dismisses])
  exact ⟨h.1.2.trans (by decide), h.2.1.2.trans (by decide)⟩

end Notifications

section ContactForm

open ContactPage

theorem ContactPage.fold_fields (fs : List Field) :
    ∀ acc : Bool × List Field × (Nat → String),
      (fs.foldl validateStep acc).2.1 = acc.2.1 ++ fs.map markField := by
  induction fs with
  | nil => intro acc; simp
  | cons f fs ih =>
    intro acc
    simp only [List.foldl_cons, List.map_cons]
    rw [ih]
    by_cases hr : f.required = true <;> simp [validateStep, markField, validateField, hr]

theorem ContactPage.fold_valid (fs : List Field) :
    ∀ acc : Bool × List Field × (Nat → String),
      (fs.foldl validateStep acc).1
        = (acc.1 && fs.all (fun f => !f.required || (checkField f).1)) := by
  induction fs with
  | nil => intro acc; simp
  | cons f fs ih =>
    intro acc
    simp only [List.foldl_cons, List.all_cons]
    rw [ih]
    by_cases hr : f.required = true <;>
      simp [validateStep, validateField, hr, Bool.and_assoc]

theorem ContactPage.fold_errorText (e : Nat) (fs : List Field)
    (hown : ∀ g ∈ fs, g.required = true → g.errorElement ≠ some e) :
    ∀ acc : Bool × List Field × (Nat → String),
      (fs.foldl validateStep acc).2.2 e = acc.2.2 e := by
  induction fs with
  | nil => intro acc; rfl
  | cons f fs ih =>
    intro acc
    simp only [List.foldl_cons]
    rw [ih (fun g hg => hown g (List.mem_cons_of_mem f hg))]
    by_cases hr : f.required = true
    · have hne := hown f (List.mem_cons_self f fs) hr
      simp only [validateStep, hr, if_true, validateField, setErrorText]
      cases he : f.errorElement with
      | none => rfl
      | some x =>
        have hx : e ≠ x := by
          intro h
          rw [he, ← h] at hne
          exact hne rfl
        simp [Function.update, hx]
    · simp [validateStep, hr]

theorem ContactPage.validateForm_shape (p : ContactPage) :
    ∃ et, (validateForm p).2 = { p with fields := p.fields.map markField, errorText := et } := by
  have hf := ContactPage.fold_fields p.fields (true, [], p.errorText)
  simp only [List.nil_append] at hf
  unfold validateForm
  simp only [hf]
  cases p.privacy with
  | none => exact ⟨_, rfl⟩
  | some c =>
    simp only
    split
    · exact ⟨_, rfl⟩
    · exact ⟨_, rfl⟩

theorem ContactPage.foldl_clearDraft_shape (l : List (Timer Unit)) :
    ∀ q : ContactPage, ∃ ls b,
      l.foldl (fun q _ => clearDraft q) q = { q with localStorage := ls, draftBanner := b } := by
  induction l with
  | nil => intro q; exact ⟨q.localStorage, q.draftBanner, rfl⟩
  | cons t ts ih =>
    intro q
    obtain ⟨ls, b, h⟩ := ih (clearDraft q)
    exact ⟨ls, b, by rw [List.foldl_cons, h]; rfl⟩

theorem ContactPage.advance_shape (T : Nat) (p : ContactPage) :
    ∃ ls b, advance T p =
      { p with
        timers := pendingAfter T p.timers
        localStorage := ls
        draftBanner := b
        window := { p.window with
          notifications := p.window.notifications.map (NotificationSystem.advance T) } } := by
  obtain ⟨ls, b, h⟩ := ContactPage.foldl_clearDraft_shape (expired T p.timers)
    { p with timers := pendingAfter T p.timers }
  exact ⟨ls, b, by simp only [advance, h]⟩

/-- C7. The form is submitted at `now` with a required field `f` whose trimmed
value is empty, and whose error element `e` is its own (no required control
after it, nor the group of an unchecked privacy checkbox, uses `e`). No request
is issued and no run of `handleFormSubmit` is left waiting for one, then or
later; `Utils.showNotification` is called once, with the type `error`; the error
element holds `<label> is required.` and the field has the class `error`. -/
theorem empty_required_field_blocks_submission (p : ContactPage) (now T : Nat)
    (pre post : List Field) (f : Field) (e : Nat)
    (hfields : p.fields = pre ++ f :: post)
    (hreq : f.required = true)
    (hempty : jsTrim f.value.data = [])
    (herr : f.errorElement = some e)
    (hown : ∀ g ∈ post, g.required = true → g.errorElement ≠ some e)
    (hpriv : ∀ c, p.privacy = some c → c.checked = false → c.errorElement ≠ some e) :
    (submitEvent now p).requests = p.requests
    ∧ (submitEvent now p).awaiting = p.awaiting
    ∧ (advance T (submitEvent now p)).requests = p.requests
    ∧ (advance T (submitEvent now p)).awaiting = p.awaiting
    ∧ (submitEvent now p).window
        = Utils.showNotification now "Please correct the errors in the form." (some "error")
            none p.window
    ∧ (submitEvent now p).window.shown
        = p.window.shown ++ [("Please correct the errors in the form.", "error")]
    ∧ (submitEvent now p).errorText e = getFieldLabel f.name ++ " is required."
    ∧ (submitEvent now p).fields[pre.length]? = some { f with hasErrorClass := true } := by
  have hcheck : checkField f = (false, getFieldLabel f.name ++ " is required.") := by
    simp [checkField, hreq, hempty]
  have hr1 : (p.fields.foldl validateStep (true, [], p.errorText)).1 = false := by
    rw [ContactPage.fold_valid, hfields]
    simp [List.all_append, hreq, hcheck]
  have hr2 : (p.fields.foldl validateStep (true, [], p.errorText)).2.2 e
      = getFieldLabel f.name ++ " is required." := by
    rw [hfields, List.foldl_append, List.foldl_cons, ContactPage.fold_errorText e post hown]
    simp [validateStep, hreq, validateField, hcheck, herr, setErrorText]
  have hv1 : (validateForm p).1 = false := by
    unfold validateForm
    simp only
    cases hp : p.privacy with
    | none => simpa using hr1
    | some c =>
      simp only
      split
      · rfl
      · simpa using hr1
  have hv2 : (validateForm p).2.errorText e = getFieldLabel f.name ++ " is required." := by
    unfold validateForm
    simp only
    cases hp : p.privacy with
    | none => simpa using hr2
    | some c =>
      simp only
      split
      · rename_i hc
        have hne := hpriv c hp (by simpa using hc)
        simp only [setErrorText]
        cases hce : c.errorElement with
        | none => simpa using hr2
        | some x =>
          have hx : e ≠ x := by
            intro h
            rw [hce, ← h] at hne
            exact hne rfl
          simpa [Function.update, hx] using hr2
      · simpa using hr2
  obtain ⟨et, hshape⟩ := ContactPage.validateForm_shape p
  have hsub : submitEvent now p =
      { (validateForm p).2 with
        window := Utils.showNotification now "Please correct the errors in the form."
          (some "error") none (validateForm p).2.window
        timers := (validateForm p).2.timers ++
          [{ handle := (validateForm p).2.nextHandle, due := now + 2000, task := () }]
        nextHandle := (validateForm p).2.nextHandle + 1 } := by
    simp [submitEvent, handleFormSubmit, hv1]
  have hfld : (submitEvent now p).fields = p.fields.map markField := by
    rw [hsub, hshape]
  have hwin : (submitEvent now p).window
      = Utils.showNotification now "Please correct the errors in the form." (some "error")
          none p.window := by
    rw [hsub, hshape]
  have hreqs : (submitEvent now p).requests = p.requests := by rw [hsub, hshape]
  have hawait : (submitEvent now p).awaiting = p.awaiting := by rw [hsub, hshape]
  obtain ⟨ls, b, hadv⟩ := ContactPage.advance_shape T (submitEvent now p)
  refine ⟨hreqs, hawait, ?_, ?_, hwin, ?_, ?_, ?_⟩
  · rw [hadv]; exact hreqs
  · rw [hadv]; exact hawait
  · rw [hwin]
    unfold Utils.showNotification
    cases p.window.notifications <;> simp
  · rw [hsub]
    exact hv2
  · rw [hfld, hfields, List.map_append, List.map_cons,
      List.getElem?_append_right (by simp)]
    simp [markField, hreq, hcheck]

theorem empty_required_field_blocks_submission_witness :
    (submitEvent 0 blankNamePage).requests = []
    ∧ (submitEvent 0 blankNamePage).window.shown
        = [("Please correct the errors in the form.", "error")]
    ∧ (submitEvent 0 blankNamePage).errorText 0 = "First Name is required."
    ∧ (submitEvent 0 blankNamePage).fields[0]?
        = some { name := "firstName", value := "   ", defaultValue := "", required := true,
                 errorElement := some 0, hasErrorClass := true } := by
  have h := empty_required_field_blocks_submission blankNamePage 0 0 []
    [{ name := "email", value := "ada@example.org", defaultValue := "", required := true,
       errorElement := some 1, hasErrorClass := false }]
    { name := "firstName", value := "   ", defaultValue := "", required := true,
      errorElement := some 0, hasErrorClass := false } 0
    rfl rfl (by decide) rfl (by decide) (by decide)
  exact ⟨h.1, h.2.2.2.2.2.1, h.2.2.2.2.2.2.1.trans (by decide), h.2.2.2.2.2.2.2⟩

/-- C8, evaluated on the code. A valid form with a draft under
`contact-form-draft` is submitted at 0 and the endpoint answers 500 at 800: the
error notification is shown and the fields keep their values, but the timer set
by the `submit` listener of `ContactFormAutoSave` removes the draft at 2000. -/
theorem draft_removed_after_failed_submission :
    (validateForm draftedPage).1 = true
    ∧ draftedPage.localStorage.lookup storageKey = some "\x7b\"firstName\":\"Ada\"\x7d"
    ∧ (submitAndSettle 0 800 2000 (FetchOutcome.response 500 ResponseBody.unparsable)
        draftedPage).window.shown
        = [("Failed to send message. Please try again later.", "error")]
    ∧ (submitAndSettle 0 800 2000 (FetchOutcome.response 500 ResponseBody.unparsable)
        draftedPage).fields.map (fun f => f.value)
        = draftedPage.fields.map (fun f => f.value)
    ∧ (submitAndSettle 0 800 1999 (FetchOutcome.response 500 ResponseBody.unparsable)
        draftedPage).localStorage.lookup storageKey
        = some "\x7b\"firstName\":\"Ada\"\x7d"
    ∧ (submitAndSettle 0 800 2000 (FetchOutcome.response 500 ResponseBody.unparsable)
        draftedPage).localStorage.lookup storageKey
        = none := by
  decide

/-- C9 as stated fails. A valid form on a page without `#success-modal`, one of
whose controls has a default value, is submitted at 0 and the endpoint answers
200 at 800: `Utils.showNotification` is never called, the notification
container stays empty, no modal is active, and the control is back at its
default value, not empty. -/
theorem no_success_notification_after_successful_submission :
    (validateForm draftedPage).1 = true
    ∧ (submitAndSettle 0 800 2000 (FetchOutcome.response 200 (ResponseBody.json none))
        draftedPage).window.shown = []
    ∧ (submitAndSettle 0 800 2000 (FetchOutcome.response 200 (ResponseBody.json none))
        draftedPage).window.notifications.map
          (fun ns => ns.container) = some []
    ∧ (submitAndSettle 0 800 2000 (FetchOutcome.response 200 (ResponseBody.json none))
        draftedPage).modalActive = false
    ∧ (submitAndSettle 0 800 2000 (FetchOutcome.response 200 (ResponseBody.json none))
        draftedPage).fields.map (fun f => f.value)
        = ["", "", "unspecified", ""] := by
  decide

theorem ContactPage.lookup_filter_none (k : String) (l : List (String × String)) :
    (l.filter (fun kv => !(kv.1 == k))).lookup k = none := by
  induction l with
  | nil => rfl
  | cons x xs ih =>
    obtain ⟨a, b⟩ := x
    by_cases hx : a = k
    · simp [List.filter_cons, hx, ih]
    · have hk : (k == a) = false := by
        simp only [beq_eq_false_iff_ne, ne_eq]
        exact fun h => hx h.symm
      have ha : (a == k) = false := by
        simp only [beq_eq_false_iff_ne, ne_eq]
        exact hx
      simp only [List.filter_cons, ha, Bool.not_false, if_true, List.lookup_cons, hk]
      exact ih

theorem ContactPage.foldl_clearDraft_lookup (l : List (Timer Unit)) :
    ∀ q : ContactPage, (l ≠ [] ∨ q.localStorage.lookup storageKey = none) →
      (l.foldl (fun q _ => clearDraft q) q).localStorage.lookup storageKey = none := by
  induction l with
  | nil =>
    intro q h
    rcases h with h | h
    · exact absurd rfl h
    · exact h
  | cons t ts ih =>
    intro q _
    simp only [List.foldl_cons]
    exact ih _ (Or.inr (ContactPage.lookup_filter_none storageKey q.localStorage))

theorem ContactPage.advance_lookup (T : Nat) (p : ContactPage)
    (h : (∃ t ∈ p.timers, t.due ≤ T) ∨ p.localStorage.lookup storageKey = none) :
    (advance T p).localStorage.lookup storageKey = none := by
  have hfold := ContactPage.foldl_clearDraft_lookup (expired T p.timers)
    { p with timers := pendingAfter T p.timers }
  unfold advance
  simp only
  apply hfold
  rcases h with ⟨t, ht, hdue⟩ | h
  · left
    intro hnil
    have hmem : t ∈ expired T p.timers := by
      simp only [expired, List.mem_insertionSort, List.mem_filter, decide_eq_true_eq]
      exact ⟨ht, hdue⟩
    rw [hnil] at hmem
    simp at hmem
  · right
    exact h

theorem ContactPage.resume_ok (now status : Nat) (body : ResponseBody) (p : ContactPage)
    (originalText subject : String) (rest : List (String × String))
    (hawait : p.awaiting = (originalText, subject) :: rest)
    (hlo : 200 ≤ status) (hhi : status ≤ 299) :
    resume now (FetchOutcome.response status body) p =
      { p with
        awaiting := rest
        modalActive := p.hasModal || p.modalActive
        fields := p.fields.map (fun f => { f with value := f.defaultValue })
        privacy := p.privacy.map (fun c => { c with checked := c.defaultChecked })
        currentCount := p.currentCount.map (fun _ => ("0", "var(--text-secondary)"))
        analytics :=
          if p.hasGtag then p.analytics ++ [("contact_form_submit", "Contact", subject)]
          else p.analytics
        submitButton := { innerHTML := originalText, disabled := false } } := by
  unfold resume
  rw [hawait]
  simp [submitFormResult, hlo, hhi]

theorem ContactPage.submitEvent_valid (t0 : Nat) (p : ContactPage)
    (hvalid : (validateForm p).1 = true) :
    ∃ et subject, submitEvent t0 p =
      { p with
        fields := p.fields.map markField
        errorText := et
        submitButton :=
          { innerHTML := "<i class=\"fas fa-spinner fa-spin\"></i> Sending...", disabled := true }
        requests := p.requests ++ [{ url := CONTACT_FORM_ENDPOINT, method := "POST",
                                     accept := "application/json",
                                     body := p.fields.map (fun f => (f.name, f.value)) }]
        awaiting := p.awaiting ++ [(p.submitButton.innerHTML, subject)]
        timers := p.timers ++ [{ handle := p.nextHandle, due := t0 + 2000, task := () }]
        nextHandle := p.nextHandle + 1 } := by
  obtain ⟨et, hshape⟩ := ContactPage.validateForm_shape p
  have hend : endpointNotConfigured CONTACT_FORM_ENDPOINT = false := by decide
  have hbody : (p.fields.map markField).map (fun f => (f.name, f.value))
      = p.fields.map (fun f => (f.name, f.value)) := by
    rw [List.map_map]
    apply List.map_congr_left
    intro f _
    by_cases hr : f.required = true <;> simp [markField, hr]
  refine ⟨et, subjectLabel (p.fields.map (fun f => (f.name, f.value))), ?_⟩
  simp only [submitEvent, handleFormSubmit, hvalid, hend, hshape, hbody]
  rfl

/-- C9, amended. A form that passes `validateForm` is submitted at `t0` with no
other submission in flight, and the endpoint answers with a 2xx status at `t1`.
Observed at any `T` from `t0 + 2000` on: the modal `#success-modal`, when the
page has one, is active, and `Utils.showNotification` has not been called; every
control holds its default value and the privacy checkbox its default state; the
draft under `contact-form-draft` is gone from local storage; exactly one
request, a POST to the endpoint, has been issued and none is awaited. -/
theorem successful_submission_resets_form_and_clears_draft (p : ContactPage)
    (t0 t1 T status : Nat) (body : ResponseBody)
    (hvalid : (validateForm p).1 = true)
    (hidle : p.awaiting = [])
    (hlo : 200 ≤ status) (hhi : status ≤ 299)
    (hT : t0 + 2000 ≤ T) :
    (submitAndSettle t0 t1 T (FetchOutcome.response status body) p).modalActive
        = (p.hasModal || p.modalActive)
    ∧ (submitAndSettle t0 t1 T (FetchOutcome.response status body) p).window.shown
        = p.window.shown
    ∧ (submitAndSettle t0 t1 T (FetchOutcome.response status body) p).fields.map
          (fun f => f.value) = p.fields.map (fun f => f.defaultValue)
    ∧ (submitAndSettle t0 t1 T (FetchOutcome.response status body) p).privacy.map
          (fun c => c.checked) = p.privacy.map (fun c => c.defaultChecked)
    ∧ (submitAndSettle t0 t1 T (FetchOutcome.response status body) p).localStorage.lookup
          storageKey = none
    ∧ (submitAndSettle t0 t1 T (FetchOutcome.response status body) p).requests
        = p.requests ++ [{ url := CONTACT_FORM_ENDPOINT, method := "POST",
                           accept := "application/json",
                           body := p.fields.map (fun f => (f.name, f.value)) }]
    ∧ (submitAndSettle t0 t1 T (FetchOutcome.response status body) p).awaiting = [] := by
  obtain ⟨et, subject, h0⟩ := ContactPage.submitEvent_valid t0 p hvalid
  obtain ⟨ls1, b1, h1⟩ := ContactPage.advance_shape t1 (submitEvent t0 p)
  have hawait : (advance t1 (submitEvent t0 p)).awaiting
      = (p.submitButton.innerHTML, subject) :: [] := by
    rw [h1, h0, hidle]
    rfl
  have h2 := ContactPage.resume_ok t1 status body (advance t1 (submitEvent t0 p))
    p.submitButton.innerHTML subject [] hawait hlo hhi
  obtain ⟨ls3, b3, h3⟩ := ContactPage.advance_shape T
    (resume t1 (FetchOutcome.response status body) (advance t1 (submitEvent t0 p)))
  have hstore : (advance T (resume t1 (FetchOutcome.response status body)
      (advance t1 (submitEvent t0 p)))).localStorage.lookup storageKey = none := by
    apply ContactPage.advance_lookup
    by_cases hlt : t0 + 2000 ≤ t1
    · right
      rw [h2]
      show (advance t1 (submitEvent t0 p)).localStorage.lookup storageKey = none
      apply ContactPage.advance_lookup
      left
      refine ⟨{ handle := p.nextHandle, due := t0 + 2000, task := () }, ?_, hlt⟩
      rw [h0]
      simp
    · left
      refine ⟨{ handle := p.nextHandle, due := t0 + 2000, task := () }, ?_, hT⟩
      rw [h2]
      show _ ∈ (advance t1 (submitEvent t0 p)).timers
      rw [h1]
      show _ ∈ pendingAfter t1 (submitEvent t0 p).timers
      rw [h0]
      simp [pendingAfter, hlt]
  unfold submitAndSettle
  refine ⟨?_, ?_, ?_, ?_, hstore, ?_, ?_⟩
  · rw [h3, h2, h1, h0]
  · rw [h3, h2, h1, h0]
  · rw [h3, h2, h1, h0]
    simp only [List.map_map]
    apply List.map_congr_left
    intro f _
    by_cases hr : f.required = true <;> simp [markField, hr]
  · rw [h3, h2, h1, h0]
    cases p.privacy <;> simp
  · rw [h3, h2, h1, h0]
  · rw [h3, h2]

theorem successful_submission_resets_form_and_clears_draft_witness :
    (submitAndSettle 0 800 2000 (FetchOutcome.response 200 (ResponseBody.json none))
        draftedPage).fields.map (fun f => f.value) = ["", "", "unspecified", ""]
    ∧ (submitAndSettle 0 800 2000 (FetchOutcome.response 200 (ResponseBody.json none))
        draftedPage).localStorage.lookup storageKey = none
    ∧ (submitAndSettle 0 800 2000 (FetchOutcome.response 200 (ResponseBody.json none))
        draftedPage).requests.length = 1 := by
  have h := successful_submission_resets_form_and_clears_draft draftedPage 0 800 2000 200
    (ResponseBody.json none) (by decide) rfl (by decide) (by decide) (by decide)
  exact ⟨h.2.2.1.trans (by decide), h.2.2.2.2.1, by rw [h.2.2.2.2.2.1]; decide⟩

end ContactForm

section Debouncing

variable {α : Type}

theorem Debounce.holding_first (wait t : Nat) (a : α) :
    Holding wait (Debounce.executedFunction wait true t a
      (Debounce.advance true t Debounce.init)) t a [(t, a)] := by
  refine ⟨?_, 1, ?_, ?_⟩ <;>
    simp [Debounce.executedFunction, Debounce.advance, Debounce.init, expired, pendingAfter,
      clearTimeout]

theorem Debounce.holding_next (wait t t2 : Nat) (a a2 : α) (done : List (Nat × α))
    (s : Debounce α) (hs : Holding wait s t a done) (hlt : t2 < t + wait) :
    Holding wait (Debounce.executedFunction wait true t2 a2 (Debounce.advance true t2 s))
      t2 a2 done := by
  obtain ⟨hc, h, ht, hto⟩ := hs
  have hnd : ¬ (t + wait ≤ t2) := by omega
  refine ⟨?_, s.nextHandle, ?_, ?_⟩ <;>
    simp [Debounce.executedFunction, Debounce.advance, ht, hto, hc, expired_single,
      pendingAfter_single, hnd, clearTimeout]

theorem Debounce.holding_lapsed (wait t t2 : Nat) (a a2 : α) (done : List (Nat × α))
    (s : Debounce α) (hs : Holding wait s t a done) (hle : t + wait ≤ t2) :
    Holding wait (Debounce.executedFunction wait true t2 a2 (Debounce.advance true t2 s))
      t2 a2 (done ++ [(t2, a2)]) := by
  obtain ⟨hc, h, ht, hto⟩ := hs
  refine ⟨?_, s.nextHandle, ?_, ?_⟩ <;>
    simp [Debounce.executedFunction, Debounce.advance, ht, hto, hc, expired_single,
      pendingAfter_single, hle, clearTimeout, Debounce.later]

theorem Debounce.holding_run (wait : Nat) (done : List (Nat × α)) (cs : List (Nat × α)) :
    ∀ (c : Nat × α) (s : Debounce α), Holding wait s c.1 c.2 done →
      List.Chain (fun p q : Nat × α => p.1 ≤ q.1 ∧ q.1 < p.1 + wait) c cs →
      Holding wait (Debounce.run wait true cs s)
        ((c :: cs).getLast (List.cons_ne_nil c cs)).1
        ((c :: cs).getLast (List.cons_ne_nil c cs)).2 done := by
  induction cs with
  | nil => intro c s hs _; simpa [Debounce.run] using hs
  | cons d ds ih =>
    intro c s hs hch
    obtain ⟨hcd, hrest⟩ := List.chain_cons.mp hch
    have hnext := Debounce.holding_next wait c.1 d.1 c.2 d.2 done s hs hcd.2
    have := ih d _ hnext hrest
    simpa [Debounce.run, List.getLast_cons] using this

theorem Debounce.holding_advance (wait t T : Nat) (a : α) (done : List (Nat × α))
    (s : Debounce α) (hs : Holding wait s t a done) :
    (Debounce.advance true T s).calls = done := by
  obtain ⟨hc, h, ht, _⟩ := hs
  by_cases hd : t + wait ≤ T <;>
    simp [Debounce.advance, ht, hc, expired_single, pendingAfter_single, hd, Debounce.later]

theorem Debounce.run_append (wait : Nat) (immediate : Bool) (xs ys : List (Nat × α)) :
    ∀ s : Debounce α, Debounce.run wait immediate (xs ++ ys) s
      = Debounce.run wait immediate ys (Debounce.run wait immediate xs s) := by
  induction xs with
  | nil => intro s; rfl
  | cons x xs ih =>
    intro s
    obtain ⟨t, a⟩ := x
    simp only [List.cons_append, Debounce.run]
    exact ih _

/-- C11. A wrapper made with `immediate` set. In a burst of calls, each less than
`wait` after the previous one, `func` runs exactly once, at the instant of the
first call and with its arguments; nothing more has run at any later instant
`T`, also once the window has lapsed. A call made `wait` or more after the last
call of the burst runs `func` again at once, and the burst it opens runs
nothing more. -/
theorem debounce_immediate_runs_first_call_once (wait : Nat) (c : Nat × α)
    (cs : List (Nat × α))
    (hburst : List.Chain (fun p q : Nat × α => p.1 ≤ q.1 ∧ q.1 < p.1 + wait) c cs)
    (d : Nat × α) (ds : List (Nat × α))
    (hgap : ((c :: cs).getLast (List.cons_ne_nil c cs)).1 + wait ≤ d.1)
    (hburst2 : List.Chain (fun p q : Nat × α => p.1 ≤ q.1 ∧ q.1 < p.1 + wait) d ds)
    (T : Nat) :
    (Debounce.advance true T (Debounce.run wait true (c :: cs) Debounce.init)).calls = [c]
    ∧ (Debounce.advance true T
        (Debounce.run wait true ((c :: cs) ++ d :: ds) Debounce.init)).calls = [c, d] := by
  have h1 : Holding wait (Debounce.run wait true (c :: cs) Debounce.init)
      ((c :: cs).getLast (List.cons_ne_nil c cs)).1
      ((c :: cs).getLast (List.cons_ne_nil c cs)).2 [c] :=
    Debounce.holding_run wait [c] cs c _ (Debounce.holding_first wait c.1 c.2) hburst
  refine ⟨Debounce.holding_advance wait _ T _ _ _ h1, ?_⟩
  rw [Debounce.run_append]
  have h2 := Debounce.holding_lapsed wait _ d.1 _ d.2 [c] _ h1 hgap
  have h3 := Debounce.holding_run wait ([c] ++ [d]) ds d _ h2 hburst2
  have h4 := Debounce.holding_advance wait _ T _ _ _ h3
  simpa [Debounce.run] using h4

theorem debounce_immediate_runs_first_call_once_witness :
    (Debounce.advance true 1000
      (Debounce.run 100 true [(0, 7), (50, 8), (120, 9)] Debounce.init)).calls = [(0, 7)]
    ∧ (Debounce.advance true 1000
      (Debounce.run 100 true ([(0, 7), (50, 8), (120, 9)] ++ [(220, 1), (230, 2)])
        Debounce.init)).calls = [(0, 7), (220, 1)] :=
  debounce_immediate_runs_first_call_once 100 ((0, 7) : Nat × Nat) [(50, 8), (120, 9)]
    (by simp) (220, 1) [(230, 2)] (by simp) (by simp) 1000

theorem Debounce.single_call (wait : Nat) (immediate : Bool) (now : Nat) (args : α)
    (s : Debounce α) (hs : SinglePending s) :
    (Debounce.executedFunction wait immediate now args s).timers
        = [{ handle := s.nextHandle, due := now + wait, task := args }]
    ∧ (Debounce.executedFunction wait immediate now args s).timeout = some s.nextHandle := by
  have hclear : clearTimeout s.timeout s.timers = [] := by
    rcases hs with h | ⟨t, ht, hto⟩
    · simp [h, clearTimeout]
    · simp [ht, hto, clearTimeout]
  constructor
  · unfold Debounce.executedFunction
    simp only [hclear, List.nil_append]
    split <;> rfl
  · unfold Debounce.executedFunction
    simp only
    split <;> rfl

theorem Debounce.single_elapse (immediate : Bool) (now : Nat) (s : Debounce α)
    (hs : SinglePending s) : SinglePending (Debounce.advance immediate now s) := by
  rcases hs with h | ⟨t, ht, hto⟩
  · left
    simp [Debounce.advance, h, expired, pendingAfter]
  · by_cases hd : t.due ≤ now
    · left
      cases immediate <;>
        simp [Debounce.advance, ht, expired_single, pendingAfter_single, hd, Debounce.later]
    · right
      refine ⟨t, ?_, ?_⟩ <;>
        simp [Debounce.advance, ht, hto, expired_single, pendingAfter_single, hd]

theorem Legacy.legacy_single_call (wait : Nat) (now : Nat) (args : α)
    (s : Debounce α) (hs : SinglePending s) :
    (Legacy.executedFunction wait now args s).timers
        = [{ handle := s.nextHandle, due := now + wait, task := args }]
    ∧ (Legacy.executedFunction wait now args s).timeout = some s.nextHandle := by
  have hclear : clearTimeout s.timeout s.timers = [] := by
    rcases hs with h | ⟨t, ht, hto⟩
    · simp [h, clearTimeout]
    · simp [ht, hto, clearTimeout]
  constructor
  · simp [Legacy.executedFunction, hclear]
  · rfl

theorem Legacy.legacy_single_elapse (now : Nat) (s : Debounce α)
    (hs : SinglePending s) : SinglePending (Legacy.advance now s) := by
  rcases hs with h | ⟨t, ht, hto⟩
  · left
    simp [Legacy.advance, h, expired, pendingAfter]
  · by_cases hd : t.due ≤ now
    · left
      simp [Legacy.advance, ht, expired_single, pendingAfter_single, hd, Legacy.later,
        clearTimeout]
    · right
      refine ⟨t, ?_, ?_⟩ <;>
        simp [Legacy.advance, ht, hto, expired_single, pendingAfter_single, hd]

theorem Debounce.single_runOps (wait : Nat) (immediate : Bool) (ops : List (DebounceOp α)) :
    ∀ s : Debounce α, SinglePending s →
      SinglePending (Debounce.runOps wait immediate ops s) := by
  induction ops with
  | nil => intro s hs; exact hs
  | cons op ops ih =>
    intro s hs
    simp only [Debounce.runOps, List.foldl_cons] at ih ⊢
    apply ih
    cases op with
    | call now args =>
      obtain ⟨h1, h2⟩ := Debounce.single_call wait immediate now args s hs
      exact Or.inr ⟨_, h1, h2⟩
    | elapse now => exact Debounce.single_elapse immediate now s hs

theorem Legacy.legacy_single_runOps (wait : Nat) (ops : List (DebounceOp α)) :
    ∀ s : Debounce α, SinglePending s → SinglePending (Legacy.runOps wait ops s) := by
  induction ops with
  | nil => intro s hs; exact hs
  | cons op ops ih =>
    intro s hs
    simp only [Legacy.runOps, List.foldl_cons] at ih ⊢
    apply ih
    cases op with
    | call now args =>
      obtain ⟨h1, h2⟩ := Legacy.legacy_single_call wait now args s hs
      exact Or.inr ⟨_, h1, h2⟩
    | elapse now => exact Legacy.legacy_single_elapse now s hs

theorem SinglePending.length_le (s : Debounce α) (hs : SinglePending s) :
    s.timers.length ≤ 1 := by
  rcases hs with h | ⟨t, ht, _⟩
  · simp [h]
  · simp [ht]

/-- C12. After any sequence of calls and of timer expiries, a debounced wrapper
(`Utils.debounce` with either value of `immediate`, and the legacy `debounce`)
has at most one `later` pending; a new call leaves exactly one pending, its
own: the one that was pending, if any, has been cancelled. -/
theorem debounce_at_most_one_pending (wait : Nat) (immediate : Bool)
    (ops : List (DebounceOp α)) (now : Nat) (args : α) :
    (Debounce.runOps wait immediate ops Debounce.init).timers.length ≤ 1
    ∧ (Debounce.executedFunction wait immediate now args
        (Debounce.runOps wait immediate ops Debounce.init)).timers
        = [{ handle := (Debounce.runOps wait immediate ops Debounce.init).nextHandle,
             due := now + wait, task := args }]
    ∧ (Legacy.runOps wait ops Debounce.init).timers.length ≤ 1
    ∧ (Legacy.executedFunction wait now args (Legacy.runOps wait ops Debounce.init)).timers
        = [{ handle := (Legacy.runOps wait ops Debounce.init).nextHandle,
             due := now + wait, task := args }] := by
  have h0 : SinglePending (Debounce.init : Debounce α) := Or.inl rfl
  have h1 := Debounce.single_runOps wait immediate ops Debounce.init h0
  have h2 := Legacy.legacy_single_runOps wait ops Debounce.init h0
  exact ⟨SinglePending.length_le _ h1,
    (Debounce.single_call wait immediate now args _ h1).1,
    SinglePending.length_le _ h2,
    (Legacy.legacy_single_call wait now args _ h2).1⟩

end Debouncing

section NotificationLife

open NotificationSystem

theorem NotificationSystem.persistent_of_sameView (n : Notification)
    (s1 s2 : NotificationSystem) (h : Persistent n s1) (hv : SameView n s1 s2) :
    Persistent n s2 := by
  obtain ⟨hc, ht, hd, hn⟩ := hv
  obtain ⟨hid, h1, h2, h3⟩ := h
  exact ⟨by omega, by rw [hc]; exact h1, by rw [hd]; exact h2, by rw [ht]; exact h3⟩

theorem NotificationSystem.persistent_fire (n : Notification) (s : NotificationSystem)
    (t : Timer NotificationTask) (h : Persistent n s) (ht : t ∈ s.timers) :
    Persistent n (fire t { s with timers := s.timers.erase t }) := by
  have hne : nodeOf t.task ≠ n := by
    intro hn
    have hmem := NotificationSystem.mem_timersOf n s t ht hn
    rw [h.2.2.2] at hmem
    simp at hmem
  exact NotificationSystem.persistent_of_sameView n s _ h
    (NotificationSystem.fire_other n s t hne)

theorem NotificationSystem.persistent_advance (n : Notification) (T : Nat)
    (s : NotificationSystem) (h : Persistent n s) : Persistent n (advance T s) :=
  NotificationSystem.advanceFuel_induct (Persistent n) T
    (fun s t hs ht _ _ => NotificationSystem.persistent_fire n s t hs ht) _ s h

theorem NotificationSystem.persistent_runEvents (n : Notification) (es : List Event) :
    ∀ s : NotificationSystem, Persistent n s → (∀ e ∈ es, e.dismisses n = false) →
      Persistent n (runEvents es s) := by
  induction es with
  | nil => intro s h _; exact h
  | cons e es ih =>
    intro s h hes
    have he := hes e (List.mem_cons_self e es)
    have h1 := NotificationSystem.persistent_advance n e.time s h
    have h2 := NotificationSystem.persistent_of_sameView n _ _ h1
      (NotificationSystem.perform_other n _ e h1.1 he)
    exact ih _ h2 (fun e2 he2 => hes e2 (List.mem_cons_of_mem e he2))

theorem NotificationSystem.persistent_show (s0 : NotificationSystem) (t0 : Nat)
    (message : String) (type : Option String) (hfresh : Fresh s0) :
    Persistent { id := s0.nextNode, message := message, type := type.getD "info" }
      («show» t0 message type (some 0) s0).2 := by
  obtain ⟨hc, ht, hl⟩ := hfresh
  have hnotc : ({ id := s0.nextNode, message := message, type := type.getD "info" }
      : Notification) ∉ s0.container := fun hmem => by
    have := hc _ hmem
    simp at this
  have htimers : s0.timers.filter (fun u => decide (nodeOf u.task =
      { id := s0.nextNode, message := message, type := type.getD "info" })) = [] := by
    rw [List.filter_eq_nil_iff]
    intro u hu
    have := ht u hu
    simp only [decide_eq_true_eq]
    intro heq
    rw [heq] at this
    simp at this
  have hlog : s0.detached.filter (fun e => decide (e.2 =
      { id := s0.nextNode, message := message, type := type.getD "info" })) = [] := by
    rw [List.filter_eq_nil_iff]
    intro e he
    have := hl e he
    simp only [decide_eq_true_eq]
    intro heq
    rw [heq] at this
    simp at this
  unfold NotificationSystem.show
  simp only [Option.getD_some, gt_iff_lt, Nat.lt_irrefl, if_false]
  refine ⟨by simp, ?_, hlog, htimers⟩
  simp only
  rw [List.count_append, List.count_eq_zero.mpr hnotc]
  simp

theorem NotificationSystem.autoLife_of_hide (n : Notification) (x T : Nat) (hx : x ≤ T)
    (s : NotificationSystem) (h : Persistent n s) : AutoLife n x T (hide x n s) := by
  obtain ⟨hid, hc, hd, ht⟩ := h
  refine ⟨hid, Or.inr (Or.inl ⟨hx, hc, hd, s.nextHandle, ?_⟩)⟩
  simp only [timersOf, hide, setTimeout]
  rw [List.filter_append]
  have : s.timers.filter (fun u => decide (nodeOf u.task = n)) = [] := ht
  rw [this]
  simp [NotificationSystem.nodeOf_detach]

/-- C13 as stated fails. A notification shown with no duration given, directly
or through `success`, `error`, `warning` or `info` called with the message only,
gets the default duration of 5000: with no `hide` called, it is out of the
container at 5300. -/
theorem notification_without_duration_is_removed :
    (advance 5299 («show» 0 "saved" none none NotificationSystem.init).2).container.length = 1
    ∧ (advance 5300 («show» 0 "saved" none none NotificationSystem.init).2).container = []
    ∧ (advance 5300 (success 0 "saved" none NotificationSystem.init).2).container = []
    ∧ (advance 5300 (NotificationSystem.error 0 "saved" none NotificationSystem.init).2).container
        = []
    ∧ (advance 5300 (warning 0 "saved" none NotificationSystem.init).2).container = []
    ∧ (advance 5300 (info 0 "saved" none NotificationSystem.init).2).container = [] := by
  decide

/-- C13, amended. A notification `n` made by `show` at `t0`, in any system whose
elements all come from earlier `show` calls, whatever other calls are made
meanwhile. With duration zero it is never removed automatically: it is in the
container at every `T` and `removeChild` has not run on it; once `hide` is
called on it, at `x`, it leaves the container at `x + 300`. With a duration
`d > 0` it is removed at `t0 + d + 300`, the auto-hide running at `t0 + d`; with
no duration given the default 5000 applies, also through the helpers `success`,
`error`, `warning` and `info`, which pass their `duration` on to `show`. -/
theorem notification_persists_only_with_zero_duration
    (s0 : NotificationSystem) (n : Notification) (t0 T x d : Nat) (message : String)
    (type : Option String) (before after : List Event)
    (hfresh : Fresh s0)
    (hn : n = { id := s0.nextNode, message := message, type := type.getD "info" })
    (hd : 0 < d) (hx : x ≤ T)
    (hbefore : ∀ e ∈ before, e.time ≤ x ∧ e.dismisses n = false)
    (hafter : ∀ e ∈ after, e.time ≤ T ∧ e.dismisses n = false) :
    (∀ duration : Option Nat, («show» t0 message type duration s0).1 = n)
    ∧ (n ∈ (advance T (runEvents after («show» t0 message type (some 0) s0).2)).container
        ∧ detachedOf n (advance T (runEvents after («show» t0 message type (some 0) s0).2))
            = [])
    ∧ (n ∈ (advance T (runEvents after (hide x n (advance x (runEvents before
          («show» t0 message type (some 0) s0).2))))).container ↔ T < x + 300)
    ∧ ((n ∈ (advance T (runEvents after («show» t0 message type (some d) s0).2)).container
          ↔ T < t0 + d + 300)
        ∧ detachedOf n (advance T (runEvents after («show» t0 message type (some d) s0).2))
            = (if t0 + d + 300 ≤ T then [(t0 + d + 300, n)] else []))
    ∧ (n ∈ (advance T (runEvents after («show» t0 message type none s0).2)).container
          ↔ T < t0 + 5000 + 300)
    ∧ (∀ (duration : Option Nat) (s : NotificationSystem),
        success t0 message duration s = «show» t0 message (some "success") duration s
        ∧ NotificationSystem.error t0 message duration s
            = «show» t0 message (some "error") duration s
        ∧ warning t0 message duration s = «show» t0 message (some "warning") duration s
        ∧ info t0 message duration s = «show» t0 message (some "info") duration s) := by
  have hfirst : ∀ duration : Option Nat, («show» t0 message type duration s0).1 = n := by
    intro duration
    rw [hn]
    unfold NotificationSystem.show
    simp only
    split <;> rfl
  have hshowd : ∀ k : Nat, 0 < k → ∀ U : Nat,
      AutoLife n (t0 + k) U («show» t0 message type (some k) s0).2 := by
    intro k hk U
    exact NotificationSystem.autoLife_show s0 _ n t0 k U message type hk hfresh
      (Prod.ext (hfirst (some k)) rfl)
  have hfinal : ∀ k : Nat, 0 < k →
      (n ∈ (advance T (runEvents after («show» t0 message type (some k) s0).2)).container
          ↔ T < t0 + k + exitTransitionMs)
      ∧ detachedOf n (advance T (runEvents after («show» t0 message type (some k) s0).2))
          = (if t0 + k + exitTransitionMs ≤ T then [(t0 + k + exitTransitionMs, n)]
              else []) := by
    intro k hk
    have h1 := NotificationSystem.autoLife_runEvents n (t0 + k) T after _ (hshowd k hk T)
      hafter
    have h2 := NotificationSystem.autoLife_advance n (t0 + k) T T (le_refl _) _ h1
    exact NotificationSystem.autoLife_final n (t0 + k) T _ h2
      (NotificationSystem.advance_quiet T _)
  have hzero : Persistent n («show» t0 message type (some 0) s0).2 := by
    rw [hn]
    exact NotificationSystem.persistent_show s0 t0 message type hfresh
  refine ⟨hfirst, ?_, ?_, hfinal d hd, ?_, ?_⟩
  · have h1 := NotificationSystem.persistent_runEvents n after _ hzero
      (fun e he => (hafter e he).2)
    have h2 := NotificationSystem.persistent_advance n T _ h1
    exact ⟨List.count_pos_iff.mp (by rw [h2.2.1]; decide), h2.2.2.1⟩
  · have h1 := NotificationSystem.persistent_runEvents n before _ hzero
      (fun e he => (hbefore e he).2)
    have h2 := NotificationSystem.persistent_advance n x _ h1
    have h3 := NotificationSystem.autoLife_of_hide n x T hx _ h2
    have h4 := NotificationSystem.autoLife_runEvents n x T after _ h3 hafter
    have h5 := NotificationSystem.autoLife_advance n x T T (le_refl _) _ h4
    exact (NotificationSystem.autoLife_final n x T _ h5
      (NotificationSystem.advance_quiet T _)).1
  · exact (hfinal 5000 (by decide)).1
  · intro duration s
    exact ⟨rfl, rfl, rfl, rfl⟩

theorem notification_persists_only_with_zero_duration_witness :
    ({ id := 1, message := "saved", type := "info" } : Notification)
        ∈ (advance 100000 (runEvents [Event.show 50 "other" none none]
            («show» 0 "saved" none (some 0) NotificationSystem.init).2)).container
    ∧ (({ id := 1, message := "saved", type := "info" } : Notification)
        ∈ (advance 100000 (runEvents [Event.show 50 "other" none none]
            («show» 0 "saved" none none NotificationSystem.init).2)).container
          ↔ 100000 < 0 + 5000 + 300) := by
  have h := notification_persists_only_with_zero_duration NotificationSystem.init
    { id := 1, message := "saved", type := "info" } 0 100000 700 200 "saved" none []
    [Event.show 50 "other" none none] NotificationSystem.fresh_init rfl (by decide)
    (by decide) (by simp) (by simp [Event.time, Event.dismisses])
  exact ⟨h.2.1.1, h.2.2.2.2.1⟩

theorem expired_of_quiet {τ : Type} (now : Nat) (ts : List (Timer τ))
    (h : ∀ t ∈ ts, now < t.due) : expired now ts = [] := by
  have hf : ts.filter (fun t => decide (t.due ≤ now)) = [] := by
    rw [List.filter_eq_nil_iff]
    intro t ht
    have := h t ht
    simp only [decide_eq_true_eq]
    omega
  simp [expired, hf]

theorem NotificationSystem.advance_of_quiet (bound now : Nat) (s : NotificationSystem)
    (hq : Quiet bound s) (hnow : now ≤ bound) : advance now s = s := by
  have hexp : expired now s.timers = [] :=
    expired_of_quiet now s.timers (fun t ht => by have := hq t ht; omega)
  unfold advance
  cases 2 * s.timers.length with
  | zero => rfl
  | succ k => simp [advanceFuel, hexp]

theorem NotificationSystem.show_of_quiet (bound : Nat) (c : ShowCall) (s : NotificationSystem)
    (hq : Quiet bound s)
    (hc : c.duration.getD 5000 = 0 ∨ bound < c.now + c.duration.getD 5000) :
    Quiet bound (perform c.event s)
    ∧ (perform c.event s).container
        = s.container ++ [{ id := s.nextNode, message := c.message, type := c.type.getD "info" }]
    ∧ (perform c.event s).nextNode = s.nextNode + 1 := by
  simp only [ShowCall.event, perform]
  unfold NotificationSystem.show
  simp only
  split
  · rename_i hpos
    refine ⟨?_, rfl, rfl⟩
    intro t ht
    simp only [setTimeout, List.mem_append, List.mem_singleton] at ht
    rcases ht with ht | ht
    · exact hq t ht
    · rw [ht]
      simp only
      rcases hc with hc | hc
      · omega
      · exact hc
  · exact ⟨hq, rfl, rfl⟩

theorem NotificationSystem.runEvents_shows (bound : Nat) (calls : List ShowCall) :
    ∀ s : NotificationSystem, Quiet bound s →
      (∀ c ∈ calls, c.now ≤ bound ∧
        (c.duration.getD 5000 = 0 ∨ bound < c.now + c.duration.getD 5000)) →
      Quiet bound (runEvents (calls.map ShowCall.event) s)
      ∧ (runEvents (calls.map ShowCall.event) s).container
          = s.container ++ created s.nextNode calls := by
  induction calls with
  | nil => intro s hq _; simp [runEvents, created, hq]
  | cons c cs ih =>
    intro s hq hcs
    have hc := hcs c (List.mem_cons_self c cs)
    have hadv : advance c.event.time s = s :=
      NotificationSystem.advance_of_quiet bound _ s hq (by simpa [ShowCall.event, Event.time] using hc.1)
    obtain ⟨h1, h2, h3⟩ := NotificationSystem.show_of_quiet bound c s hq hc.2
    obtain ⟨i1, i2⟩ := ih (perform c.event s) h1
      (fun c2 hc2 => hcs c2 (List.mem_cons_of_mem c hc2))
    simp only [List.map_cons, runEvents, hadv]
    refine ⟨i1, ?_⟩
    rw [i2, h2, h3]
    simp [created]

theorem NotificationSystem.created_length (calls : List ShowCall) :
    ∀ next : Nat, (created next calls).length = calls.length := by
  induction calls with
  | nil => intro next; rfl
  | cons c cs ih => intro next; simp [created, ih]

theorem NotificationSystem.created_content (calls : List ShowCall) :
    ∀ next : Nat, (created next calls).map (fun n => (n.message, n.type))
      = calls.map (fun c => (c.message, c.type.getD "info")) := by
  induction calls with
  | nil => intro next; rfl
  | cons c cs ih => intro next; simp [created, ih]

theorem NotificationSystem.created_ids (calls : List ShowCall) :
    ∀ next : Nat, (created next calls).map (fun n => n.id)
      = List.range' next calls.length := by
  induction calls with
  | nil => intro next; rfl
  | cons c cs ih => intro next; simp [created, ih, List.range'_succ]

/-- C17. A fresh notification system receives `k` calls of `show`, all made by
the instant `bound`, before any auto-hide timer is due (and with no call of
`hide`). The container then holds exactly the `k` new elements, one per call in
the order of the calls, each with the message and type of its call, whether or
not messages repeat; it is the same when observed at `bound`. -/
theorem shows_stack_in_creation_order (calls : List ShowCall) (bound : Nat)
    (hcalls : ∀ c ∈ calls, c.now ≤ bound ∧
      (c.duration.getD 5000 = 0 ∨ bound < c.now + c.duration.getD 5000)) :
    (runEvents (calls.map ShowCall.event) NotificationSystem.init).container
        = created 1 calls
    ∧ (advance bound (runEvents (calls.map ShowCall.event) NotificationSystem.init)).container
        = created 1 calls
    ∧ (runEvents (calls.map ShowCall.event) NotificationSystem.init).container.length
        = calls.length
    ∧ (runEvents (calls.map ShowCall.event) NotificationSystem.init).container.map
          (fun n => (n.message, n.type))
        = calls.map (fun c => (c.message, c.type.getD "info"))
    ∧ (runEvents (calls.map ShowCall.event) NotificationSystem.init).container.map
          (fun n => n.id)
        = List.range' 1 calls.length := by
  have hq0 : Quiet bound NotificationSystem.init := by
    intro t ht
    simp [NotificationSystem.init] at ht
  obtain ⟨hq, hc⟩ := NotificationSystem.runEvents_shows bound calls _ hq0 hcalls
  have hc1 : (runEvents (calls.map ShowCall.event) NotificationSystem.init).container
      = created 1 calls := by
    rw [hc]
    simp [NotificationSystem.init]
  refine ⟨hc1, ?_, ?_, ?_, ?_⟩
  · rw [NotificationSystem.advance_of_quiet bound bound _ hq (le_refl _)]
    exact hc1
  · rw [hc1, NotificationSystem.created_length]
  · rw [hc1, NotificationSystem.created_content]
  · rw [hc1, NotificationSystem.created_ids]

theorem shows_stack_in_creation_order_witness :
    (runEvents
      [Event.show 0 "saved" none none, Event.show 10 "saved" (some "success") (some 0),
        Event.show 4000 "saved" none (some 1500)]
      NotificationSystem.init).container
      = [{ id := 1, message := "saved", type := "info" },
         { id := 2, message := "saved", type := "success" },
         { id := 3, message := "saved", type := "info" }] :=
  (shows_stack_in_creation_order
    [{ now := 0, message := "saved", type := none, duration := none },
     { now := 10, message := "saved", type := some "success", duration := some 0 },
     { now := 4000, message := "saved", type := none, duration := some 1500 }] 4000
    (by decide)).1

end NotificationLife

section AnimationStates

open AnimationObserver

theorem setAdd_mem (x el : Element) (set : List Element) :
    el ∈ setAdd x set ↔ el = x ∨ el ∈ set := by
  unfold setAdd
  split
  · rename_i h
    constructor
    · exact Or.inr
    · rintro (h1 | h1)
      · rw [h1]; exact h
      · exact h1
  · simp [or_comm]

theorem updateAt_same {β : Type} (f : β → β) :
    ∀ (i : Nat) (l : List β), (updateAt f i l)[i]? = (l[i]?).map f := by
  intro i l
  induction l generalizing i with
  | nil => cases i <;> simp [updateAt]
  | cons x xs ih =>
    cases i with
    | zero => simp [updateAt]
    | succ k => simpa [updateAt] using ih k

theorem updateAt_other {β : Type} (f : β → β) :
    ∀ (i j : Nat) (l : List β), i ≠ j → (updateAt f i l)[j]? = l[j]? := by
  intro i j l
  induction l generalizing i j with
  | nil => intro _; cases i <;> simp [updateAt]
  | cons x xs ih =>
    intro hne
    cases i with
    | zero =>
      cases j with
      | zero => exact absurd rfl hne
      | succ m => simp [updateAt]
    | succ k =>
      cases j with
      | zero => simp [updateAt]
      | succ m =>
        have : k ≠ m := fun h => hne (by rw [h])
        simpa [updateAt] using ih k m this

theorem AnimationObserver.defaultCallback_marks (es : List Entry) :
    ∀ (s : AnimationObserver) (el : Element),
      (el ∈ (defaultCallback es s).observedElements ↔
        el ∈ s.observedElements ∨ ∃ e ∈ es, e.isIntersecting = true ∧ e.target = el) := by
  induction es with
  | nil => intro s el; simp [defaultCallback]
  | cons e es ih =>
    intro s el
    simp only [defaultCallback, List.foldl_cons] at ih ⊢
    rw [ih]
    by_cases hc : e.isIntersecting = true ∧ e.target ∉ s.observedElements
    · rw [if_pos (by simp [hc.1, hc.2])]
      simp only [setAdd_mem, List.mem_cons, exists_eq_or_imp]
      constructor
      · rintro ((h | h) | h)
        · exact Or.inr (Or.inl ⟨hc.1, h.symm⟩)
        · exact Or.inl h
        · exact Or.inr (Or.inr h)
      · rintro (h | ⟨_, h⟩ | h)
        · exact Or.inl (Or.inr h)
        · exact Or.inl (Or.inl h.symm)
        · exact Or.inr h
    · rw [if_neg (by
        intro h
        simp only [Bool.and_eq_true, Bool.not_eq_true', decide_eq_false_iff_not] at h
        exact hc h)]
      simp only [List.mem_cons, exists_eq_or_imp]
      constructor
      · rintro (h | h)
        · exact Or.inl h
        · exact Or.inr (Or.inr h)
      · rintro (h | ⟨h1, h2⟩ | h)
        · exact Or.inl h
        · left
          by_contra hnot
          exact hc ⟨h1, by rw [h2]; exact hnot⟩
        · exact Or.inr h

theorem AnimationObserver.defaultCallback_keeps_count (el : Element) (es : List Entry) :
    ∀ s : AnimationObserver, el ∈ s.observedElements →
      (defaultCallback es s).animated.count el = s.animated.count el := by
  induction es with
  | nil => intro s _; rfl
  | cons e es ih =>
    intro s hel
    simp only [defaultCallback, List.foldl_cons] at ih ⊢
    by_cases hc : e.isIntersecting = true ∧ e.target ∉ s.observedElements
    · rw [if_pos (by simp [hc.1, hc.2])]
      have hne : e.target ≠ el := fun h => hc.2 (h ▸ hel)
      rw [ih _ (by simp only [setAdd_mem]; exact Or.inr hel)]
      simp [animateElement, List.count_append, List.count_cons, hne]
    · rw [if_neg (by
        intro h
        simp only [Bool.and_eq_true, Bool.not_eq_true', decide_eq_false_iff_not] at h
        exact hc h)]
      exact ih s hel

theorem AnimationObserver.tempCallback_marks (i : Nat) (es : List Entry) :
    ∀ s : AnimationObserver, (tempCallback i es s).observedElements = s.observedElements := by
  induction es with
  | nil => intro s; rfl
  | cons e es ih =>
    intro s
    simp only [tempCallback, List.foldl_cons] at ih ⊢
    rw [ih]
    split <;> simp [animateElement]

theorem IntersectionObserver.entries_mem (o : IntersectionObserver)
    (changes : List (Element × Bool)) (e : Entry) :
    e ∈ o.entries changes ↔ e.target ∈ o.targets ∧ changes.lookup e.target = some e.isIntersecting := by
  unfold IntersectionObserver.entries
  simp only [List.mem_filterMap, Option.map_eq_some']
  constructor
  · rintro ⟨el, hel, b, hb, rfl⟩
    exact ⟨hel, hb⟩
  · rintro ⟨h1, h2⟩
    exact ⟨e.target, h1, e.isIntersecting, h2, rfl⟩

theorem IntersectionObserver.observe_keeps (o : IntersectionObserver) (x el : Element)
    (h : el ∈ o.targets) : el ∈ (o.observe x).targets := by
  unfold IntersectionObserver.observe
  split
  · exact h
  · simp [h]

theorem AnimationObserver.foldl_observe_frame (els : List Element) :
    ∀ s : AnimationObserver,
      (els.foldl (fun s2 el => { s2 with observer := s2.observer.observe el })
          s).observedElements = s.observedElements
      ∧ (els.foldl (fun s2 el => { s2 with observer := s2.observer.observe el })
          s).tempObservers = s.tempObservers
      ∧ (els.foldl (fun s2 el => { s2 with observer := s2.observer.observe el })
          s).animated = s.animated
      ∧ ∀ el ∈ s.observer.targets,
          el ∈ (els.foldl (fun s2 el => { s2 with observer := s2.observer.observe el })
            s).observer.targets := by
  induction els with
  | nil => intro s; exact ⟨rfl, rfl, rfl, fun el h => h⟩
  | cons x xs ih =>
    intro s
    simp only [List.foldl_cons]
    obtain ⟨h1, h2, h3, h4⟩ := ih { s with observer := s.observer.observe x }
    exact ⟨h1, h2, h3,
      fun el hel => h4 el (IntersectionObserver.observe_keeps s.observer x el hel)⟩

theorem AnimationObserver.observe_frame (query : String → List Element)
    (selector : Option Selector) (options : Option ObserverOptions) (s : AnimationObserver) :
    (AnimationObserver.observe query selector options s).observedElements = s.observedElements
    ∧ (AnimationObserver.observe query selector options s).animated = s.animated
    ∧ (∀ el ∈ s.observer.targets,
        el ∈ (AnimationObserver.observe query selector options s).observer.targets)
    ∧ ∃ extra, (AnimationObserver.observe query selector options s).tempObservers
        = s.tempObservers ++ extra := by
  unfold AnimationObserver.observe
  cases selector with
  | none => exact ⟨rfl, rfl, fun el h => h, [], by simp⟩
  | some sel =>
    simp only
    split
    · exact ⟨rfl, rfl, fun el h => h, [], by simp⟩
    · cases options with
      | none =>
        obtain ⟨h1, h2, h3, h4⟩ :=
          AnimationObserver.foldl_observe_frame (resolve query sel) s
        exact ⟨h1, h3, h4, [], by simp [h2]⟩
      | some opts => exact ⟨rfl, rfl, fun el h => h, _, rfl⟩

theorem AnimationObserver.step_keeps_mark (query : String → List Element)
    (s : AnimationObserver) (op : Op) (el : Element) (h : el ∈ s.observedElements) :
    el ∈ (step query s op).observedElements := by
  cases op with
  | observe selector options =>
    simp only [step]
    rw [(AnimationObserver.observe_frame query selector options s).1]
    exact h
  | tick changes =>
    simp only [step, tick]
    rw [AnimationObserver.defaultCallback_marks]
    exact Or.inl h
  | tempTick i changes =>
    simp only [step, tempTick]
    split
    · exact h
    · rw [AnimationObserver.tempCallback_marks]
      exact h
  | triggerAnimation element =>
    simp only [step, triggerAnimation]
    cases element with
    | none => exact h
    | some x =>
      simp only
      split
      · simp only [setAdd_mem]
        exact Or.inr h
      · exact h

theorem AnimationObserver.step_keeps_target (query : String → List Element)
    (s : AnimationObserver) (op : Op) (el : Element) (h : el ∈ s.observer.targets) :
    el ∈ (step query s op).observer.targets := by
  cases op with
  | observe selector options =>
    simp only [step]
    exact (AnimationObserver.observe_frame query selector options s).2.2.1 el h
  | tick changes =>
    simp only [step, tick]
    rw [AnimationObserver.defaultCallback_observer]
    exact h
  | tempTick i changes =>
    simp only [step, tempTick]
    split
    · exact h
    · rw [AnimationObserver.tempCallback_observer]
      exact h
  | triggerAnimation element =>
    simp only [step, triggerAnimation]
    cases element with
    | none => exact h
    | some x =>
      simp only
      split
      · simpa [animateElement] using h
      · exact h

theorem AnimationObserver.runOps_keeps (query : String → List Element) (ops : List Op)
    (el : Element) :
    ∀ s : AnimationObserver,
      (el ∈ s.observedElements → el ∈ (runOps query ops s).observedElements)
      ∧ (el ∈ s.observer.targets → el ∈ (runOps query ops s).observer.targets) := by
  induction ops with
  | nil => intro s; exact ⟨fun h => h, fun h => h⟩
  | cons op ops ih =>
    intro s
    simp only [runOps, List.foldl_cons] at ih ⊢
    exact ⟨fun h => (ih _).1 (AnimationObserver.step_keeps_mark query s op el h),
      fun h => (ih _).2 (AnimationObserver.step_keeps_target query s op el h)⟩

theorem AnimationObserver.step_origin (query : String → List Element)
    (s : AnimationObserver) (op : Op) (el : Element)
    (h : el ∈ (step query s op).observedElements) :
    el ∈ s.observedElements ∨ el ∈ (step query s op).observer.targets
      ∨ op = Op.triggerAnimation (some el) := by
  cases op with
  | observe selector options =>
    simp only [step] at h
    rw [(AnimationObserver.observe_frame query selector options s).1] at h
    exact Or.inl h
  | tick changes =>
    simp only [step, tick] at h ⊢
    rw [AnimationObserver.defaultCallback_marks] at h
    rcases h with h | ⟨e, he, _, htarget⟩
    · exact Or.inl h
    · right; left
      rw [AnimationObserver.defaultCallback_observer, ← htarget]
      exact ((IntersectionObserver.entries_mem s.observer changes e).mp he).1
  | tempTick i changes =>
    simp only [step, tempTick] at h
    split at h
    · exact Or.inl h
    · rw [AnimationObserver.tempCallback_marks] at h
      exact Or.inl h
  | triggerAnimation element =>
    simp only [step, triggerAnimation] at h
    cases element with
    | none => exact Or.inl h
    | some x =>
      simp only at h
      split at h
      · simp only [setAdd_mem] at h
        rcases h with h | h
        · right; right
          rw [h]
        · exact Or.inl h
      · exact Or.inl h

theorem AnimationObserver.runOps_origin (query : String → List Element) (ops : List Op)
    (el : Element) :
    ∀ s : AnimationObserver, el ∈ (runOps query ops s).observedElements →
      el ∈ s.observedElements ∨ el ∈ (runOps query ops s).observer.targets
        ∨ Op.triggerAnimation (some el) ∈ ops := by
  induction ops with
  | nil => intro s h; exact Or.inl h
  | cons op ops ih =>
    intro s h
    simp only [runOps, List.foldl_cons] at ih h ⊢
    rcases ih _ h with h1 | h1 | h1
    · rcases AnimationObserver.step_origin query s op el h1 with h2 | h2 | h2
      · exact Or.inl h2
      · exact Or.inr (Or.inl ((AnimationObserver.runOps_keeps query ops el _).2 h2))
      · exact Or.inr (Or.inr (by rw [h2]; exact List.mem_cons_self _ _))
    · exact Or.inr (Or.inl h1)
    · exact Or.inr (Or.inr (List.mem_cons_of_mem _ h1))

/-- C15 as stated fails. On a page where nothing is ever registered for
observation, `triggerAnimation(element)` puts the element into
`observedElements`. -/
theorem triggered_without_being_observed :
    (runOps pagePlain [Op.triggerAnimation (some 7)]
      (AnimationObserver.new pagePlain)).observedElements = [7]
    ∧ (runOps pagePlain [Op.triggerAnimation (some 7)]
      (AnimationObserver.new pagePlain)).observer.targets = []
    ∧ (runOps pagePlain [Op.triggerAnimation (some 7)]
      (AnimationObserver.new pagePlain)).tempObservers = [] := by
  decide

/-- C15, amended. In every state an `AnimationObserver` can reach, an element of
`observedElements` is a target of the default observer, registered at
construction or by `observe(selector)`, or was passed to `triggerAnimation`. -/
theorem triggered_was_observed_or_forced (query : String → List Element) (ops : List Op)
    (el : Element)
    (h : el ∈ (runOps query ops (AnimationObserver.new query)).observedElements) :
    el ∈ (runOps query ops (AnimationObserver.new query)).observer.targets
      ∨ Op.triggerAnimation (some el) ∈ ops := by
  rcases AnimationObserver.runOps_origin query ops el _ h with h1 | h1 | h1
  · exfalso
    have hnew : (AnimationObserver.new query).observedElements = [] := by
      unfold AnimationObserver.new AnimationObserver.observeElements
      generalize animationClasses = cls
      have : ∀ (cls : List String) (s : AnimationObserver),
          (cls.foldl (fun s1 className =>
            (query className).foldl
              (fun s2 el => { s2 with observer := s2.observer.observe el }) s1)
            s).observedElements = s.observedElements := by
        intro cls
        induction cls with
        | nil => intro s; rfl
        | cons c cs ih =>
          intro s
          simp only [List.foldl_cons]
          rw [ih, (AnimationObserver.foldl_observe_frame (query c) s).1]
      rw [this]
    rw [hnew] at h1
    simp at h1
  · exact Or.inl h1
  · exact Or.inr h1

theorem triggered_was_observed_or_forced_witness :
    (2 : Element) ∈ (runOps pageThreeCards [Op.tick [(2, true)]]
        (AnimationObserver.new pageThreeCards)).observer.targets
      ∨ Op.triggerAnimation (some 2) ∈ [Op.tick [(2, true)]] :=
  triggered_was_observed_or_forced pageThreeCards [Op.tick [(2, true)]] 2 (by decide)

theorem IntersectionObserver.unobserve_not_mem (o : IntersectionObserver) (x : Element) :
    x ∉ (o.unobserve x).targets := by
  simp [IntersectionObserver.unobserve]

theorem IntersectionObserver.unobserve_keeps_out (o : IntersectionObserver) (x el : Element)
    (h : el ∉ o.targets) : el ∉ (o.unobserve x).targets := by
  intro hmem
  simp only [IntersectionObserver.unobserve, List.mem_filter] at hmem
  exact h hmem.1

theorem AnimationObserver.released_update (i j : Nat) (x el : Element)
    (l : List IntersectionObserver) (h : ∃ o, l[i]? = some o ∧ el ∉ o.targets) :
    ∃ o, (updateAt (fun o => o.unobserve x) j l)[i]? = some o ∧ el ∉ o.targets := by
  obtain ⟨o, ho, hel⟩ := h
  by_cases hji : j = i
  · subst hji
    refine ⟨o.unobserve x, ?_, IntersectionObserver.unobserve_keeps_out o x el hel⟩
    rw [updateAt_same, ho]
    rfl
  · exact ⟨o, by rw [updateAt_other _ j i l hji]; exact ho, hel⟩

theorem AnimationObserver.released_tempCallback (i j : Nat) (el : Element) (es : List Entry) :
    ∀ s : AnimationObserver, Released i el s → Released i el (tempCallback j es s) := by
  induction es with
  | nil => intro s h; exact h
  | cons e es ih =>
    intro s h
    simp only [tempCallback, List.foldl_cons] at ih ⊢
    apply ih
    split
    · exact AnimationObserver.released_update i j e.target el s.tempObservers h
    · exact h

theorem AnimationObserver.tempCallback_releases (i : Nat) (el : Element) (es : List Entry) :
    ∀ s : AnimationObserver, (∃ o, s.tempObservers[i]? = some o) →
      (∃ e ∈ es, e.isIntersecting = true ∧ e.target = el) →
      Released i el (tempCallback i es s) := by
  induction es with
  | nil => intro s _ h; obtain ⟨e, he, _⟩ := h; simp at he
  | cons e es ih =>
    intro s hi h
    obtain ⟨o, ho⟩ := hi
    obtain ⟨e2, he2, hint, htarget⟩ := h
    simp only [tempCallback, List.foldl_cons] at ih ⊢
    rcases List.mem_cons.mp he2 with heq | hrest
    · subst heq
      rw [if_pos hint]
      have hrel : Released i el
          { animateElement e2.target s with
            tempObservers := updateAt (fun o => o.unobserve e2.target) i s.tempObservers } := by
        refine ⟨o.unobserve e2.target, ?_, ?_⟩
        · show (updateAt (fun o => o.unobserve e2.target) i s.tempObservers)[i]? = _
          rw [updateAt_same, ho]
          rfl
        · rw [← htarget]
          exact IntersectionObserver.unobserve_not_mem o e2.target
      exact AnimationObserver.released_tempCallback i i el es _ hrel
    · apply ih
      · split
        · refine ⟨o.unobserve e.target, ?_⟩
          show (updateAt (fun o => o.unobserve e.target) i s.tempObservers)[i]? = _
          rw [updateAt_same, ho]
          rfl
        · exact ⟨o, ho⟩
      · exact ⟨e2, hrest, hint, htarget⟩

theorem AnimationObserver.defaultCallback_temp (es : List Entry) :
    ∀ s : AnimationObserver, (defaultCallback es s).tempObservers = s.tempObservers := by
  induction es with
  | nil => intro s; rfl
  | cons e es ih =>
    intro s
    simp only [defaultCallback, List.foldl_cons] at ih ⊢
    rw [ih]
    split <;> simp [animateElement]

theorem AnimationObserver.released_step (query : String → List Element) (i : Nat)
    (el : Element) (s : AnimationObserver) (op : Op) (h : Released i el s) :
    Released i el (step query s op) := by
  cases op with
  | observe selector options =>
    obtain ⟨o, ho, hel⟩ := h
    obtain ⟨extra, hextra⟩ := (AnimationObserver.observe_frame query selector options s).2.2.2
    refine ⟨o, ?_, hel⟩
    simp only [step]
    rw [hextra]
    have hlt : i < s.tempObservers.length := by
      by_contra hge
      rw [List.getElem?_eq_none (by omega)] at ho
      simp at ho
    rw [List.getElem?_append_left hlt]
    exact ho
  | tick changes =>
    obtain ⟨o, ho, hel⟩ := h
    refine ⟨o, ?_, hel⟩
    simp only [step, tick]
    rw [AnimationObserver.defaultCallback_temp]
    exact ho
  | tempTick j changes =>
    simp only [step, tempTick]
    split
    · exact h
    · exact AnimationObserver.released_tempCallback i j el _ s h
  | triggerAnimation element =>
    simp only [step, triggerAnimation]
    cases element with
    | none => exact h
    | some x =>
      simp only
      split
      · exact h
      · exact h

theorem AnimationObserver.released_runOps (query : String → List Element) (i : Nat)
    (el : Element) (ops : List Op) :
    ∀ s : AnimationObserver, Released i el s → Released i el (runOps query ops s) := by
  induction ops with
  | nil => intro s h; exact h
  | cons op ops ih =>
    intro s h
    simp only [runOps, List.foldl_cons] at ih ⊢
    exact ih _ (AnimationObserver.released_step query i el s op h)

theorem AnimationObserver.released_tempTick (i : Nat) (el : Element)
    (changes : List (Element × Bool)) (s : AnimationObserver) (o : IntersectionObserver)
    (hobs : s.tempObservers[i]? = some o) (hrep : changes.lookup el = some true) :
    Released i el (tempTick i changes s) := by
  unfold tempTick
  rw [hobs]
  simp only
  by_cases hmem : el ∈ o.targets
  · apply AnimationObserver.tempCallback_releases i el _ s ⟨o, hobs⟩
    exact ⟨{ target := el, isIntersecting := true },
      (IntersectionObserver.entries_mem o changes _).mpr ⟨hmem, hrep⟩, rfl, rfl⟩
  · exact AnimationObserver.released_tempCallback i i el _ s ⟨o, hobs, hmem⟩

/-- C14 as stated fails. The element `1`, watched by the default observer,
becomes visible: it is marked in `observedElements`, but it is still a target of
the default observer, which goes on reporting it to the callback. -/
theorem default_observer_keeps_watching_after_trigger :
    (1 : Element) ∈ (tick [(1, true)] (AnimationObserver.new pageOneCard)).observedElements
    ∧ (tick [(1, true)] (AnimationObserver.new pageOneCard)).animated = [1]
    ∧ (1 : Element) ∈ (tick [(1, true)] (AnimationObserver.new pageOneCard)).observer.targets
    ∧ (tick [(1, true)] (AnimationObserver.new pageOneCard)).observer.entries [(1, false)]
        = [{ target := 1, isIntersecting := false }] := by
  decide

/-- C14, amended. In any state an `AnimationObserver` can reach, let `el` be
reported as intersecting. If the default observer watches it, it is marked in
`observedElements` by that tick and stays marked whatever happens later, no
later tick of the default observer animates it again, and it remains a target
of the default observer. If the report goes to a temporary observer, the
`i`-th, that observer no longer watches `el` after the tick, nor ever again. -/
theorem trigger_marks_default_and_releases_temporary (query : String → List Element)
    (ops later : List Op) (changes changes2 : List (Element × Bool)) (el : Element) (i : Nat)
    (hrep : changes.lookup el = some true) :
    (el ∈ (runOps query ops (AnimationObserver.new query)).observer.targets →
      el ∈ (tick changes (runOps query ops (AnimationObserver.new query))).observedElements
      ∧ el ∈ (runOps query later
          (tick changes (runOps query ops (AnimationObserver.new query)))).observedElements
      ∧ el ∈ (runOps query later
          (tick changes (runOps query ops (AnimationObserver.new query)))).observer.targets
      ∧ (tick changes2 (runOps query later
          (tick changes (runOps query ops (AnimationObserver.new query))))).animated.count el
          = (runOps query later
              (tick changes (runOps query ops (AnimationObserver.new query)))).animated.count
                el)
    ∧ (∀ o, (runOps query ops (AnimationObserver.new query)).tempObservers[i]? = some o →
        Released i el (tempTick i changes (runOps query ops (AnimationObserver.new query)))
        ∧ Released i el (runOps query later
            (tempTick i changes (runOps query ops (AnimationObserver.new query))))) := by
  constructor
  · intro hwatch
    have hmark : el ∈ (tick changes
        (runOps query ops (AnimationObserver.new query))).observedElements := by
      unfold tick
      rw [AnimationObserver.defaultCallback_marks]
      right
      exact ⟨{ target := el, isIntersecting := true },
        (IntersectionObserver.entries_mem _ changes _).mpr ⟨hwatch, hrep⟩, rfl, rfl⟩
    have htarget : el ∈ (tick changes
        (runOps query ops (AnimationObserver.new query))).observer.targets := by
      unfold tick
      rw [AnimationObserver.defaultCallback_observer]
      exact hwatch
    have hlater := AnimationObserver.runOps_keeps query later el
      (tick changes (runOps query ops (AnimationObserver.new query)))
    refine ⟨hmark, hlater.1 hmark, hlater.2 htarget, ?_⟩
    unfold tick
    exact AnimationObserver.defaultCallback_keeps_count el _ _ (hlater.1 hmark)
  · intro o hobs
    have hrel := AnimationObserver.released_tempTick i el changes _ o hobs hrep
    exact ⟨hrel, AnimationObserver.released_runOps query i el later _ hrel⟩

theorem trigger_marks_default_and_releases_temporary_witness :
    (1 : Element) ∈ (runOps pageOneCard [Op.tick [(1, false)]]
        (tick [(1, true)] (runOps pageOneCard
          [Op.observe (some (Selector.single 1))
            (some { rootMargin := "0px", thresholdPercent := 30 })]
          (AnimationObserver.new pageOneCard)))).observedElements
    ∧ Released 0 1 (tempTick 0 [(1, true)] (runOps pageOneCard
          [Op.observe (some (Selector.single 1))
            (some { rootMargin := "0px", thresholdPercent := 30 })]
          (AnimationObserver.new pageOneCard))) := by
  have h := trigger_marks_default_and_releases_temporary pageOneCard
    [Op.observe (some (Selector.single 1))
      (some { rootMargin := "0px", thresholdPercent := 30 })]
    [Op.tick [(1, false)]] [(1, true)] [] 1 0 (by decide)
  exact ⟨(h.1 (by decide)).2.1,
    (h.2 { options := { rootMargin := "0px", thresholdPercent := 30 }, targets := [1] }
      (by decide)).1⟩

/-- C16, evaluated on the code. The element `1` is watched only by a temporary
observer made by `observe(element, options)`; its trigger fires and
`animateElement` runs, but the element is not put into `observedElements`, so a
later `triggerAnimation(element)` runs `animateElement` on it a second time. -/
theorem triggerAnimation_repeats_after_temporary_observer :
    (runOps pagePlain
      [Op.observe (some (Selector.single 1))
          (some { rootMargin := "0px 0px -50px 0px", thresholdPercent := 30 }),
        Op.tempTick 0 [(1, true)]]
      (AnimationObserver.new pagePlain)).animated = [1]
    ∧ (runOps pagePlain
      [Op.observe (some (Selector.single 1))
          (some { rootMargin := "0px 0px -50px 0px", thresholdPercent := 30 }),
        Op.tempTick 0 [(1, true)]]
      (AnimationObserver.new pagePlain)).observedElements = []
    ∧ (runOps pagePlain
      [Op.observe (some (Selector.single 1))
          (some { rootMargin := "0px 0px -50px 0px", thresholdPercent := 30 }),
        Op.tempTick 0 [(1, true)],
        Op.triggerAnimation (some 1)]
      (AnimationObserver.new pagePlain)).animated = [1, 1]
    ∧ (runOps pagePlain
      [Op.tick [(1, true)], Op.triggerAnimation (some 1), Op.triggerAnimation (some 1)]
      (AnimationObserver.new pagePlain)).animated = [1]
    ∧ (runOps pageOneCard
      [Op.tick [(1, true)], Op.triggerAnimation (some 1)]
      (AnimationObserver.new pageOneCard)).animated = [1] := by
  decide

end AnimationStates

section Submission

open ContactPage

theorem ContactPage.resume_requests (now : Nat) (outcome : FetchOutcome) (p : ContactPage) :
    (resume now outcome p).requests = p.requests := by
  unfold resume
  cases p.awaiting with
  | nil => rfl
  | cons a rest =>
    obtain ⟨originalText, subject⟩ := a
    simp only
    cases submitFormResult outcome with
    | error message => rfl
    | ok u => rfl

theorem ContactPage.advance_requests (T : Nat) (p : ContactPage) :
    (advance T p).requests = p.requests := by
  obtain ⟨ls, b, h⟩ := ContactPage.advance_shape T p
  rw [h]

/-- C18. A submission of a form that passes `validateForm` issues exactly one
request, a POST to `CONTACT_FORM_ENDPOINT` carrying the form data, at the
`submit` event; however the `fetch` settles (2xx, any other status, or a
rejection) and however long one waits, no further request is issued. -/
theorem valid_submission_issues_one_request (p : ContactPage) (t0 t1 T : Nat)
    (outcome : FetchOutcome) (hvalid : (validateForm p).1 = true) :
    (submitEvent t0 p).requests = p.requests ++ [postRequest p]
    ∧ (submitAndSettle t0 t1 T outcome p).requests = p.requests ++ [postRequest p]
    ∧ (submitAndSettle t0 t1 T outcome p).requests.length = p.requests.length + 1
    ∧ (postRequest p).method = "POST"
    ∧ (postRequest p).url = CONTACT_FORM_ENDPOINT := by
  obtain ⟨et, subject, h0⟩ := ContactPage.submitEvent_valid t0 p hvalid
  have h1 : (submitEvent t0 p).requests = p.requests ++ [postRequest p] := by
    rw [h0]
    rfl
  have h2 : (submitAndSettle t0 t1 T outcome p).requests = p.requests ++ [postRequest p] := by
    unfold submitAndSettle
    rw [ContactPage.advance_requests, ContactPage.resume_requests,
      ContactPage.advance_requests, h1]
  exact ⟨h1, h2, by rw [h2]; simp, rfl, rfl⟩

theorem valid_submission_issues_one_request_witness :
    (submitAndSettle 0 800 9000 (FetchOutcome.rejected "Failed to fetch")
        draftedPage).requests = [postRequest draftedPage]
    ∧ (submitAndSettle 0 800 9000 (FetchOutcome.response 500 ResponseBody.unparsable)
        draftedPage).requests = [postRequest draftedPage]
    ∧ (submitAndSettle 0 800 9000 (FetchOutcome.response 200 (ResponseBody.json none))
        draftedPage).requests = [postRequest draftedPage] :=
  ⟨(valid_submission_issues_one_request draftedPage 0 800 9000
      (FetchOutcome.rejected "Failed to fetch") (by decide)).2.1,
    (valid_submission_issues_one_request draftedPage 0 800 9000
      (FetchOutcome.response 500 ResponseBody.unparsable) (by decide)).2.1,
    (valid_submission_issues_one_request draftedPage 0 800 9000
      (FetchOutcome.response 200 (ResponseBody.json none)) (by decide)).2.1⟩

/-- C19. On a response whose status is not 2xx, `submitForm` fails; the message
of its error is the `message` texts of the entries of `errors` joined by single
spaces when the body parses and has a non-empty `errors` array, and the generic
text when the body does not parse, has no `errors`, or has an empty one. -/
theorem submitForm_error_message (status : Nat)
    (hstatus : ¬ (200 ≤ status ∧ status ≤ 299))
    (e : Option String) (es : List (Option String)) :
    submitFormResult (FetchOutcome.response status (ResponseBody.json (some (e :: es))))
        = Except.error (" ".intercalate ((e :: es).map (fun m => m.getD "")))
    ∧ submitFormResult (FetchOutcome.response status ResponseBody.unparsable)
        = Except.error genericFailure
    ∧ submitFormResult (FetchOutcome.response status (ResponseBody.json none))
        = Except.error genericFailure
    ∧ submitFormResult (FetchOutcome.response status (ResponseBody.json (some [])))
        = Except.error genericFailure := by
  have hs : (decide (200 ≤ status) && decide (status ≤ 299)) = false := by
    by_cases h1 : 200 ≤ status
    · have h2 : ¬ status ≤ 299 := fun h => hstatus ⟨h1, h⟩
      simp [h2]
    · simp [h1]
  refine ⟨?_, ?_, ?_, ?_⟩ <;> simp [submitFormResult, hs, genericFailure]

theorem submitForm_error_message_witness :
    submitFormResult (FetchOutcome.response 422 (ResponseBody.json
        (some [some "Email is invalid.", some "Message is too short."])))
      = Except.error "Email is invalid. Message is too short."
    ∧ submitFormResult (FetchOutcome.response 500 ResponseBody.unparsable)
      = Except.error "Failed to send message. Please try again later." := by
  have h1 := submitForm_error_message 422 (by decide) (some "Email is invalid.")
    [some "Message is too short."]
  have h2 := submitForm_error_message 500 (by decide) none []
  exact ⟨h1.1.trans (congrArg Except.error (by decide)), h2.2.1⟩

end Submission

section Validation

open ContactPage

theorem phoneRegexTest_nil : phoneRegexTest [] = false := rfl

theorem phoneRegexTest_plus (rest : List Char) :
    phoneRegexTest ('+' :: rest) =
      (match rest with
        | [] => false
        | d :: ds => (decide ('1' ≤ d) && decide (d ≤ '9')) && decide (ds.length ≤ 15) &&
            ds.all (fun c => decide ('0' ≤ c) && decide (c ≤ '9'))) := rfl

theorem phoneRegexTest_other (c : Char) (rest : List Char) (hc : c ≠ '+') :
    phoneRegexTest (c :: rest) =
      ((decide ('1' ≤ c) && decide (c ≤ '9')) && decide (rest.length ≤ 15) &&
        rest.all (fun c => decide ('0' ≤ c) && decide (c ≤ '9'))) := by
  unfold phoneRegexTest
  split
  · rename_i heq
    simp at heq
    exact absurd heq.1 hc
  · rfl

theorem phoneDigits_iff (d : Char) (ds : List Char) :
    ((decide ('1' ≤ d) && decide (d ≤ '9')) && decide (ds.length ≤ 15) &&
        ds.all (fun c => decide ('0' ≤ c) && decide (c ≤ '9'))) = true
      ↔ ('1' ≤ d ∧ d ≤ '9') ∧ ds.length ≤ 15 ∧ ∀ c ∈ ds, '0' ≤ c ∧ c ≤ '9' := by
  simp only [Bool.and_eq_true, decide_eq_true_eq, List.all_eq_true, and_assoc]

theorem plus_not_digit : ¬ ('1' ≤ '+') := by decide

/-- The test of `validateField` on a phone number accepts exactly the strings of
the shape the specification words describe. -/
theorem phoneRegexTest_iff (w : List Char) : phoneRegexTest w = true ↔ PhoneShape w := by
  cases w with
  | nil =>
    rw [phoneRegexTest_nil]
    constructor
    · intro h; cases h
    · rintro ⟨sign, d, ds, hw, _⟩
      cases sign <;> simp at hw
  | cons c rest =>
    by_cases hc : c = '+'
    · subst hc
      rw [phoneRegexTest_plus]
      cases rest with
      | nil =>
        constructor
        · intro h; cases h
        · rintro ⟨sign, d, ds, hw, hsign, ⟨hd1, _⟩, _⟩
          rcases hsign with hs | hs
          · subst hs
            simp only [List.nil_append, List.cons.injEq] at hw
            rw [← hw.1] at hd1
            exact absurd hd1 plus_not_digit
          · subst hs
            simp at hw
      | cons d ds =>
        simp only
        rw [phoneDigits_iff]
        constructor
        · rintro ⟨h1, h2, h3⟩
          exact ⟨['+'], d, ds, rfl, Or.inr rfl, h1, h2, h3⟩
        · rintro ⟨sign, d2, ds2, hw, hsign, ⟨hd1, hd2⟩, h2, h3⟩
          rcases hsign with hs | hs
          · subst hs
            simp only [List.nil_append, List.cons.injEq] at hw
            rw [← hw.1] at hd1
            exact absurd hd1 plus_not_digit
          · subst hs
            simp only [List.singleton_append, List.cons.injEq, true_and] at hw
            obtain ⟨hw1, hw2⟩ := hw
            subst hw1 hw2
            exact ⟨⟨hd1, hd2⟩, h2, h3⟩
    · rw [phoneRegexTest_other c rest hc, phoneDigits_iff]
      constructor
      · rintro ⟨h1, h2, h3⟩
        exact ⟨[], c, rest, rfl, Or.inl rfl, h1, h2, h3⟩
      · rintro ⟨sign, d2, ds2, hw, hsign, ⟨hd1, hd2⟩, h2, h3⟩
        rcases hsign with hs | hs
        · subst hs
          simp only [List.nil_append, List.cons.injEq] at hw
          obtain ⟨hw1, hw2⟩ := hw
          subst hw1 hw2
          exact ⟨⟨hd1, hd2⟩, h2, h3⟩
        · subst hs
          simp only [List.singleton_append, List.cons.injEq] at hw
          exact absurd hw.1 hc

theorem ContactPage.checkField_false_iff (f : Field) :
    (checkField f).1 = false ↔
      (f.required = true ∧ jsTrim f.value.data = [])
      ∨ (f.name = "email" ∧ jsTrim f.value.data ≠ []
          ∧ emailRegexTest (jsTrim f.value.data) = false)
      ∨ (f.name = "phone" ∧ jsTrim f.value.data ≠ []
          ∧ ¬ PhoneShape (stripPhone (jsTrim f.value.data)))
      ∨ (f.name = "message" ∧ jsTrim f.value.data ≠ []
          ∧ jsLength (jsTrim f.value.data) < 10) := by
  have hphone : ¬ PhoneShape (stripPhone (jsTrim f.value.data))
      ↔ phoneRegexTest (stripPhone (jsTrim f.value.data)) = false := by
    rw [← phoneRegexTest_iff]
    simp
  rw [hphone]
  unfold checkField stripPhone
  simp only
  split_ifs <;> simp_all

theorem ContactPage.checkField_valid_message (f : Field) (h : (checkField f).1 = true) :
    (checkField f).2 = "" := by
  unfold checkField at h ⊢
  simp only at h ⊢
  split_ifs at h ⊢ <;> simp_all

theorem ContactPage.checkField_invalid_message (f : Field) (h : (checkField f).1 = false) :
    (checkField f).2 ≠ "" := by
  have hne : ∀ a b : String, b ≠ "" → a ++ b ≠ "" := by
    intro a b hb hab
    apply hb
    have hd : (a ++ b).data = [] := by rw [hab]
    rw [String.data_append] at hd
    have hbd : b.data = [] := (List.append_eq_nil.mp hd).2
    exact String.ext hbd
  unfold checkField at h ⊢
  simp only at h ⊢
  split_ifs at h ⊢
  · exact hne _ _ (by decide)
  all_goals first
    | (simp at h; done)
    | decide

/-- C20. The method `validateField` returns false exactly when the field is
required and its trimmed value is empty; or it is named `email`, its trimmed
value is non-empty and fails the email pattern; or it is named `phone`, its
trimmed value is non-empty and, once white space, hyphens and parentheses are
removed, is not an optional `+`, a digit 1-9 and at most 15 further digits; or
it is named `message` and its trimmed value is non-empty and shorter than 10
UTF-16 units. When the result is true the field is left without the class
`error` and the text of its error element, if it has one, is empty afterwards;
when the result is false the field carries the class `error` and its error
element, if any, shows a message. Nothing else of the field changes and no
other error element is written. -/
theorem validateField_false_exactly_in_four_cases (f : Field) (errorText : Nat → String) :
    ((validateField f errorText).1 = false ↔
      (f.required = true ∧ jsTrim f.value.data = [])
      ∨ (f.name = "email" ∧ jsTrim f.value.data ≠ []
          ∧ emailRegexTest (jsTrim f.value.data) = false)
      ∨ (f.name = "phone" ∧ jsTrim f.value.data ≠ []
          ∧ ¬ PhoneShape (stripPhone (jsTrim f.value.data)))
      ∨ (f.name = "message" ∧ jsTrim f.value.data ≠ []
          ∧ jsLength (jsTrim f.value.data) < 10))
    ∧ ((validateField f errorText).1 = true →
        (validateField f errorText).2.1.hasErrorClass = false
        ∧ ∀ e, f.errorElement = some e → (validateField f errorText).2.2 e = "")
    ∧ ((validateField f errorText).1 = false →
        (validateField f errorText).2.1.hasErrorClass = true
        ∧ ∀ e, f.errorElement = some e → (validateField f errorText).2.2 e ≠ "")
    ∧ (validateField f errorText).2.1
        = { f with hasErrorClass := (validateField f errorText).2.1.hasErrorClass }
    ∧ (∀ e, f.errorElement ≠ some e → (validateField f errorText).2.2 e = errorText e) := by
  have hwritten : ∀ e, f.errorElement = some e →
      (validateField f errorText).2.2 e = (checkField f).2 := by
    intro e he
    simp [validateField, setErrorText, he]
  refine ⟨ContactPage.checkField_false_iff f, ?_, ?_, rfl, ?_⟩
  · intro hv
    have hv2 : (checkField f).1 = true := hv
    refine ⟨by simp [validateField, hv2], fun e he => ?_⟩
    rw [hwritten e he]
    exact ContactPage.checkField_valid_message f hv2
  · intro hv
    have hv2 : (checkField f).1 = false := hv
    refine ⟨by simp [validateField, hv2], fun e he => ?_⟩
    rw [hwritten e he]
    exact ContactPage.checkField_invalid_message f hv2
  · intro e he
    unfold validateField setErrorText
    cases hf : f.errorElement with
    | none => rfl
    | some x =>
      have hne : e ≠ x := by
        intro h
        rw [hf, h] at he
        exact he rfl
      simp [Function.update, hne]

theorem validateField_false_exactly_in_four_cases_witness :
    ((validateField
        { name := "email", value := " ada@example.org ", defaultValue := "", required := true,
          errorElement := some 1, hasErrorClass := true }
        (fun e => if e = 1 then "Please enter a valid email address." else "kept")).1 = true
      ∧ (validateField
        { name := "email", value := " ada@example.org ", defaultValue := "", required := true,
          errorElement := some 1, hasErrorClass := true }
        (fun e => if e = 1 then "Please enter a valid email address." else "kept")).2.2 2
          = "kept"
      ∧ (validateField
        { name := "message", value := "too short", defaultValue := "", required := false,
          errorElement := some 3, hasErrorClass := false }
        (fun _ => "")).1 = false)
    ∧ (validateField
        { name := "email", value := " ada@example.org ", defaultValue := "", required := true,
          errorElement := some 1, hasErrorClass := true }
        (fun e => if e = 1 then "Please enter a valid email address." else "kept")).2.1.hasErrorClass
        = false
    ∧ (validateField
        { name := "email", value := " ada@example.org ", defaultValue := "", required := true,
          errorElement := some 1, hasErrorClass := true }
        (fun e => if e = 1 then "Please enter a valid email address." else "kept")).2.2 1 = ""
    ∧ (validateField
        { name := "message", value := "too short", defaultValue := "", required := false,
          errorElement := some 3, hasErrorClass := false }
        (fun _ => "")).2.2 3 ≠ "" :=
  ⟨by decide,
    ((validateField_false_exactly_in_four_cases _ _).2.1 (by decide)).1,
    ((validateField_false_exactly_in_four_cases _ _).2.1 (by decide)).2 1 rfl,
    ((validateField_false_exactly_in_four_cases _ _).2.2.1 (by decide)).2 3 rfl⟩

end Validation

section FormValidity

open ContactPage

/-- C21: `validateForm` returns true exactly when every required control of the form passes
`validateField` and the privacy checkbox, when the form has one, is checked; an unchecked privacy
checkbox makes it return false whatever the fields are. -/
theorem validateForm_true_iff_fields_and_privacy (p : ContactPage) :
    ((validateForm p).1 = true ↔
      (∀ f ∈ p.fields, f.required = true → ∀ et, (validateField f et).1 = true) ∧
        (∀ c, p.privacy = some c → c.checked = true)) ∧
    (∀ c, p.privacy = some c → c.checked = false → (validateForm p).1 = false) := by
  have hfold := ContactPage.fold_valid p.fields (true, [], p.errorText)
  simp only [Bool.true_and] at hfold
  have hall : (p.fields.all (fun f => !f.required || (checkField f).1)) = true ↔
      ∀ f ∈ p.fields, f.required = true → ∀ et : Nat → String, (validateField f et).1 = true := by
    simp only [List.all_eq_true, validateField]
    constructor
    · intro h f hf hr _
      have := h f hf
      simpa [hr] using this
    · intro h f hf
      by_cases hr : f.required = true
      · simpa [hr] using h f hf hr p.errorText
      · simp [hr]
  unfold validateForm
  simp only [hfold]
  cases hp : p.privacy with
  | none => simp [hall]
  | some c =>
    by_cases hc : c.checked = true
    · simp [hc, hall]
    · simp [hc]

end FormValidity

section Bookmarks

open ArticleSharingController

/-- C23: for a stored duplicate-free list of titles, `updateBookmarks(title, true)` leaves a
duplicate-free list that contains the title, the same list when the title was already in it, and
`updateBookmarks(title, false)` leaves a duplicate-free list without the title; in both cases the
other titles keep their relative order. -/
theorem updateBookmarks_keeps_duplicate_free (stored : List String) (title : String)
    (hnodup : stored.Nodup) :
    (∃ r, (updateBookmarks { bookmarks := some stored } title true).bookmarks = some r ∧
        r.Nodup ∧ title ∈ r ∧ (title ∈ stored → r = stored) ∧
        r.filter (fun t => t != title) = stored.filter (fun t => t != title)) ∧
    (∃ r, (updateBookmarks { bookmarks := some stored } title false).bookmarks = some r ∧
        r.Nodup ∧ title ∉ r ∧
        r.filter (fun t => t != title) = stored.filter (fun t => t != title)) := by
  constructor
  · by_cases h : title ∈ stored
    · refine ⟨stored, ?_, hnodup, h, fun _ => rfl, rfl⟩
      simp [updateBookmarks, h]
    · refine ⟨stored ++ [title], ?_, ?_, by simp, fun h1 => absurd h1 h, by simp⟩
      · simp [updateBookmarks, h]
      · exact List.Nodup.append hnodup (List.nodup_singleton _) (by simpa using h)
  · refine ⟨stored.filter (fun t => t != title), ?_, hnodup.filter _, by simp, by simp⟩
    simp [updateBookmarks]

theorem updateBookmarks_keeps_duplicate_free_witness :
    (["Intro", "Lean"] : List String).Nodup ∧
      (updateBookmarks { bookmarks := some ["Intro", "Lean"] } "Rust" true).bookmarks
        = some ["Intro", "Lean", "Rust"] ∧
      (updateBookmarks { bookmarks := some ["Intro", "Lean"] } "Intro" false).bookmarks
        = some ["Lean"] ∧
      ((∃ r, (updateBookmarks { bookmarks := some ["Intro", "Lean"] } "Lean" true).bookmarks
            = some r ∧ r.Nodup ∧ "Lean" ∈ r ∧ ("Lean" ∈ ["Intro", "Lean"] → r = ["Intro", "Lean"]) ∧
            r.filter (fun t => t != "Lean") = ["Intro", "Lean"].filter (fun t => t != "Lean")) ∧
        (∃ r, (updateBookmarks { bookmarks := some ["Intro", "Lean"] } "Lean" false).bookmarks
            = some r ∧ r.Nodup ∧ "Lean" ∉ r ∧
            r.filter (fun t => t != "Lean") = ["Intro", "Lean"].filter (fun t => t != "Lean"))) :=
  ⟨by decide, by decide, by decide,
    updateBookmarks_keeps_duplicate_free ["Intro", "Lean"] "Lean" (by decide)⟩

end Bookmarks

section FAQ

open FAQController

theorem FAQController.closeOther_fold (item : Element) (l : List Element) :
    ∀ (active : Element → Bool) (x : Element),
      l.foldl (closeOther item) active x
        = if x ∈ l ∧ x ≠ item then false else active x := by
  induction l with
  | nil => intro active x; simp
  | cons a l ih =>
    intro active x
    rw [List.foldl_cons, ih]
    by_cases hx : x ∈ l
    · by_cases hxi : x = item
      · subst hxi
        by_cases ha : a = x
        · simp [closeOther, ha]
        · simp [closeOther, ha, Function.update, Ne.symm ha]
      · simp [hx, hxi]
    · by_cases hxi : x = item
      · subst hxi
        by_cases ha : a = x
        · simp [closeOther, ha]
        · simp [closeOther, ha, Function.update, Ne.symm ha]
      · by_cases ha : x = a
        · subst ha
          simp [closeOther, hxi, hx]
        · simp [closeOther, hx, hxi, ha, Function.update]
          split_ifs <;> simp [Function.update, ha]

theorem FAQController.toggleFAQ_faqItems (c : FAQController) (item : Element) :
    (toggleFAQ c item).faqItems = c.faqItems := by
  unfold toggleFAQ
  simp only
  split_ifs <;> rfl

theorem FAQController.toggleFAQ_active (c : FAQController) (item x : Element) :
    (toggleFAQ c item).active x
      = if x = item then !c.active item else if x ∈ c.faqItems then false else c.active x := by
  have hfold := FAQController.closeOther_fold item c.faqItems c.active
  unfold toggleFAQ
  simp only
  by_cases hx : x = item
  · subst hx
    split_ifs <;> simp_all [Function.update]
  · split_ifs <;> simp_all [Function.update]

theorem FAQController.run_faqItems (items : List Element) :
    ∀ c : FAQController, (run c items).faqItems = c.faqItems := by
  induction items with
  | nil => intro c; rfl
  | cons i items ih =>
    intro c
    simp only [run, List.foldl_cons] at ih ⊢
    rw [ih, FAQController.toggleFAQ_faqItems]

theorem FAQController.atMostOne_toggleFAQ (c : FAQController) (item : Element) :
    AtMostOneActive (toggleFAQ c item) := by
  intro a ha b hb hact hbct
  rw [FAQController.toggleFAQ_faqItems] at ha hb
  rw [FAQController.toggleFAQ_active] at hact hbct
  have h1 : a = item := by
    by_contra h
    simp [h, ha] at hact
  have h2 : b = item := by
    by_contra h
    simp [h, hb] at hbct
  rw [h1, h2]

/-- C27: after `toggleFAQ(item)` every other FAQ item is inactive and the toggled item is active
exactly when it was inactive before; hence after any sequence of at least one toggle, and after
any sequence at all when at most one item was active at the start, at most one FAQ item is
active. -/
theorem toggleFAQ_leaves_at_most_one_active (c : FAQController) :
    (∀ item, (∀ other ∈ c.faqItems, other ≠ item → (toggleFAQ c item).active other = false) ∧
        ((toggleFAQ c item).active item = true ↔ c.active item = false)) ∧
    (∀ items : List Element, items ≠ [] ∨ AtMostOneActive c → AtMostOneActive (run c items)) := by
  constructor
  · intro item
    constructor
    · intro other ho hne
      rw [FAQController.toggleFAQ_active]
      simp [hne, ho]
    · rw [FAQController.toggleFAQ_active]
      simp
  · intro items
    induction items using List.reverseRecOn with
    | nil =>
      intro h
      rcases h with h | h
      · exact absurd rfl h
      · exact h
    | append_singleton items item _ =>
      intro _
      simp only [run, List.foldl_append, List.foldl_cons, List.foldl_nil]
      exact FAQController.atMostOne_toggleFAQ _ item

end FAQ

section Carousel

open ProjectCarouselController

theorem ProjectCarouselController.onlyActive_length (n : Nat) (k : Int) :
    (onlyActive n k).length = n := by
  simp [onlyActive]

theorem ProjectCarouselController.jsItem_onlyActive (n : Nat) (k i : Int) (h0 : 0 ≤ i)
    (hn : i < n) : (jsItem (onlyActive n k) i).isNone = false := by
  have : i.toNat < n := by omega
  simp [jsItem, h0, onlyActive, List.getElem?_eq_getElem, this]

theorem ProjectCarouselController.onlyActive_move (n : Nat) (k i : Int) (hi : 0 ≤ i) :
    ((onlyActive n k).set k.toNat false).set i.toNat true = onlyActive n i := by
  apply List.ext_getElem
  · simp [onlyActive]
  · intro j h1 h2
    have hj : j < n := by simpa [onlyActive] using h2
    simp only [List.getElem_set, onlyActive, List.getElem_map, List.getElem_range]
    by_cases hji : i.toNat = j
    · have : (j : Int) = i := by omega
      simp [hji, this]
    · have hne : ¬ (j : Int) = i := by omega
      by_cases hjk : k.toNat = j
      · simp [hji, hjk, hne]
      · have hne2 : ¬ (j : Int) = k := by omega
        simp [hji, hjk, hne, hne2]

theorem ProjectCarouselController.goToSlide_consistent (n : Nat) (c : ProjectCarouselController)
    (hc : Consistent n c) (index : Int) (h0 : 0 ≤ index) (hn : index < n) :
    goToSlide c index
      = .ok { slides := onlyActive n index, indicators := onlyActive n index,
              currentSlide := index } := by
  obtain ⟨hc0, hcn, hs, hi⟩ := hc
  by_cases heq : index = c.currentSlide
  · cases c
    simp only at hc0 hcn hs hi heq
    subst heq
    simp [goToSlide, hs, hi]
  · have hlen : ∀ (k : Int) (b : Bool), ((onlyActive n k).set c.currentSlide.toNat b).length = n := by
      intro k b
      simp [onlyActive]
    have hitem : ∀ (l : List Bool) (i : Int), l.length = n → 0 ≤ i → i < n →
        (jsItem l i).isNone = false := by
      intro l i hl hi0 hin
      have : i.toNat < l.length := by omega
      simp [jsItem, hi0, List.getElem?_eq_getElem, this]
    unfold goToSlide
    rw [if_neg heq]
    simp only [hs, hi]
    rw [hitem _ _ (ProjectCarouselController.onlyActive_length n _) hc0 hcn]
    simp only [Bool.false_eq_true, if_false]
    rw [hitem _ _ (hlen _ _) h0 hn]
    simp only [Bool.false_eq_true, if_false]
    rw [ProjectCarouselController.onlyActive_move n _ _ h0]

theorem ProjectCarouselController.consistent_at (n : Nat) (index : Int) (h0 : 0 ≤ index)
    (hn : index < n) :
    Consistent n { slides := onlyActive n index, indicators := onlyActive n index,
                   currentSlide := index } :=
  ⟨h0, hn, rfl, rfl⟩

theorem ProjectCarouselController.consistent_eq (n : Nat) (c : ProjectCarouselController)
    (hc : Consistent n c) :
    c = { slides := onlyActive n c.currentSlide, indicators := onlyActive n c.currentSlide,
          currentSlide := c.currentSlide } := by
  obtain ⟨_, _, hs, hi⟩ := hc
  cases c
  simp only at hs hi
  simp [hs, hi]

theorem ProjectCarouselController.step_consistent (n : Nat) (c : ProjectCarouselController)
    (hc : Consistent n c) (op : SlideOp) (hop : ∀ i, op = SlideOp.goTo i → 0 ≤ i ∧ i < n) :
    ∃ c1, step c op = .ok c1 ∧ Consistent n c1 := by
  have hlen : (c.slides.length : Int) = n := by
    rw [hc.2.2.1, ProjectCarouselController.onlyActive_length]
  have hc0 := hc.1
  have hcn := hc.2.1
  cases op with
  | next =>
    have hpos : (0 : Int) < n := by omega
    have h0 : 0 ≤ (c.currentSlide + 1).tmod n :=
      Int.tmod_nonneg _ (by omega)
    have hn : (c.currentSlide + 1).tmod n < n := Int.tmod_lt_of_pos _ hpos
    refine ⟨_, ?_, ProjectCarouselController.consistent_at n _ h0 hn⟩
    simp only [step, nextSlide, hlen]
    exact ProjectCarouselController.goToSlide_consistent n c hc _ h0 hn
  | previous =>
    have h0 : 0 ≤ (if c.currentSlide = 0 then (n : Int) - 1 else c.currentSlide - 1) := by
      split_ifs <;> omega
    have hn : (if c.currentSlide = 0 then (n : Int) - 1 else c.currentSlide - 1) < n := by
      split_ifs <;> omega
    refine ⟨_, ?_, ProjectCarouselController.consistent_at n _ h0 hn⟩
    simp only [step, previousSlide, hlen]
    exact ProjectCarouselController.goToSlide_consistent n c hc _ h0 hn
  | goTo index =>
    obtain ⟨h0, hn⟩ := hop index rfl
    exact ⟨_, ProjectCarouselController.goToSlide_consistent n c hc _ h0 hn,
      ProjectCarouselController.consistent_at n _ h0 hn⟩

theorem ProjectCarouselController.run_consistent (n : Nat) (ops : List SlideOp) :
    ∀ c : ProjectCarouselController, Consistent n c →
      (∀ i, SlideOp.goTo i ∈ ops → 0 ≤ i ∧ i < n) →
      ∃ c1, run c ops = .ok c1 ∧ Consistent n c1 := by
  induction ops with
  | nil => intro c hc _; exact ⟨c, rfl, hc⟩
  | cons op ops ih =>
    intro c hc hops
    obtain ⟨c1, hstep, hc1⟩ := ProjectCarouselController.step_consistent n c hc op
      (fun i hi => hops i (by simp [hi]))
    obtain ⟨c2, hrun, hc2⟩ := ih c1 hc1 (fun i hi => hops i (List.mem_cons_of_mem _ hi))
    exact ⟨c2, by simp only [run, hstep, hrun], hc2⟩

/-- C28: a carousel of `n ≥ 1` slides and `n` indicators that starts with slide 0 as the only
active one stays, under every sequence of `nextSlide`, `previousSlide` and `goToSlide(i)` with
`0 ≤ i < n`, in a state where `currentSlide` is within `0..n-1` and exactly the slide and the
indicator at `currentSlide` are active; `nextSlide` moves to `(currentSlide + 1) mod n`,
`previousSlide` to `(currentSlide - 1) mod n`, and `previousSlide` undoes `nextSlide`. -/
theorem carousel_keeps_exactly_current_active (n : Nat) (hn : 1 ≤ n) :
    Consistent n (start n) ∧
    (∀ ops : List SlideOp, (∀ i, SlideOp.goTo i ∈ ops → 0 ≤ i ∧ i < n) →
      ∃ c, run (start n) ops = .ok c ∧ Consistent n c) ∧
    (∀ c, Consistent n c →
      (∃ c1, nextSlide c = .ok c1 ∧ Consistent n c1 ∧
          c1.currentSlide = (c.currentSlide + 1) % n ∧ previousSlide c1 = .ok c) ∧
      (∃ c1, previousSlide c = .ok c1 ∧ Consistent n c1 ∧
          c1.currentSlide = (c.currentSlide - 1) % n)) := by
  have hstart : Consistent n (start n) :=
    ⟨le_refl 0, (by show (0 : Int) < n; omega), rfl, rfl⟩
  refine ⟨hstart, fun ops hops => ProjectCarouselController.run_consistent n ops _ hstart hops, ?_⟩
  intro c hc
  have hlen : (c.slides.length : Int) = n := by
    rw [hc.2.2.1, ProjectCarouselController.onlyActive_length]
  have hc0 := hc.1
  have hcn := hc.2.1
  have hpos : (0 : Int) < n := by omega
  have hmod : (c.currentSlide + 1).tmod n = (c.currentSlide + 1) % n :=
    Int.tmod_eq_emod (by omega) (by omega)
  have h0 : 0 ≤ (c.currentSlide + 1) % (n : Int) := Int.emod_nonneg _ (by omega)
  have hlt : (c.currentSlide + 1) % (n : Int) < n := Int.emod_lt_of_pos _ hpos
  constructor
  · refine ⟨_, ?_, ProjectCarouselController.consistent_at n _ h0 hlt, rfl, ?_⟩
    · simp only [nextSlide, hlen, hmod]
      exact ProjectCarouselController.goToSlide_consistent n c hc _ h0 hlt
    · have hback : (if (c.currentSlide + 1) % (n : Int) = 0 then (n : Int) - 1
          else (c.currentSlide + 1) % (n : Int) - 1) = c.currentSlide := by
        by_cases hlast : c.currentSlide + 1 = n
        · rw [hlast, Int.emod_self, if_pos rfl]
          omega
        · have : (c.currentSlide + 1) % (n : Int) = c.currentSlide + 1 :=
            Int.emod_eq_of_lt (by omega) (by omega)
          have hne : ¬ c.currentSlide + 1 = 0 := by omega
          rw [this, if_neg hne]
          omega
      simp only [previousSlide, ProjectCarouselController.onlyActive_length, hback]
      rw [ProjectCarouselController.goToSlide_consistent n _
        (ProjectCarouselController.consistent_at n _ h0 hlt) _ hc0 hcn]
      exact congrArg Except.ok (ProjectCarouselController.consistent_eq n c hc).symm
  · have h0p : 0 ≤ (if c.currentSlide = 0 then (n : Int) - 1 else c.currentSlide - 1) := by
      split_ifs <;> omega
    have hnp : (if c.currentSlide = 0 then (n : Int) - 1 else c.currentSlide - 1) < n := by
      split_ifs <;> omega
    refine ⟨_, ?_, ProjectCarouselController.consistent_at n _ h0p hnp, ?_⟩
    · simp only [previousSlide, hlen]
      exact ProjectCarouselController.goToSlide_consistent n c hc _ h0p hnp
    · show (if c.currentSlide = 0 then (n : Int) - 1 else c.currentSlide - 1)
        = (c.currentSlide - 1) % n
      by_cases hz : c.currentSlide = 0
      · rw [if_pos hz, hz]
        have h1 : ((0 : Int) - 1) % (n : Int) = ((0 : Int) - 1 + n) % (n : Int) :=
          (Int.add_emod_self).symm
        rw [h1, Int.emod_eq_of_lt (by omega) (by omega)]
        omega
      · rw [if_neg hz, Int.emod_eq_of_lt (by omega) (by omega)]

theorem carousel_keeps_exactly_current_active_witness :
    (1 : Nat) ≤ 3 ∧
      run (start 3) [SlideOp.next, SlideOp.next, SlideOp.next, SlideOp.previous, SlideOp.goTo 1]
        = .ok { slides := [false, true, false], indicators := [false, true, false],
                currentSlide := 1 } ∧
      (Consistent 3 (start 3) ∧
        (∀ ops : List SlideOp, (∀ i, SlideOp.goTo i ∈ ops → 0 ≤ i ∧ i < (3 : Nat)) →
          ∃ c, run (start 3) ops = .ok c ∧ Consistent 3 c) ∧
        (∀ c, Consistent 3 c →
          (∃ c1, nextSlide c = .ok c1 ∧ Consistent 3 c1 ∧
              c1.currentSlide = (c.currentSlide + 1) % (3 : Nat) ∧ previousSlide c1 = .ok c) ∧
          (∃ c1, previousSlide c = .ok c1 ∧ Consistent 3 c1 ∧
              c1.currentSlide = (c.currentSlide - 1) % (3 : Nat)))) :=
  ⟨by decide, rfl, carousel_keeps_exactly_current_active 3 (by decide)⟩

end Carousel

section Typing

open HomePageController

variable {α : Type}

theorem HomePageController.typeWords_inWord (words : List (List α))
    (hwords : ∀ w ∈ words, w ≠ []) (h : HomePageController α) (hin : InWord words h) :
    ∃ h1 d, typeWords h = some (h1, d) ∧ InWord words h1 ∧ ShowsPrefix h1 := by
  obtain ⟨htw, w, hw, h0, hle, htyping, hdeleting⟩ := hin
  have hwl : w ≠ [] := hwords w (List.getElem?_mem hw)
  have hwpos : 0 < w.length := List.length_pos.mpr hwl
  have hlt : h.currentWordIndex < words.length := by
    rcases Nat.lt_or_ge h.currentWordIndex words.length with h1 | h1
    · exact h1
    · rw [List.getElem?_eq_none h1] at hw
      cases hw
  cases hdel : h.isDeleting with
  | true =>
    have hpos := hdeleting hdel
    by_cases hz : h.currentCharIndex - 1 = 0
    · have hnext : (h.currentWordIndex + 1) % words.length < words.length :=
        Nat.mod_lt _ (by omega)
      refine ⟨_, _, (by simp only [typeWords, htw, hw, hdel, if_true, hz]; rfl), ?_, ?_⟩
      · refine ⟨rfl, words[(h.currentWordIndex + 1) % words.length], ?_, ?_⟩
        · simp [htw, List.getElem?_eq_getElem hnext]
        · have hne : words[(h.currentWordIndex + 1) % words.length] ≠ [] :=
            hwords _ (List.getElem_mem _)
          have := List.length_pos.mpr hne
          simp only [hz]
          refine ⟨le_refl _, by omega, fun _ => by omega, fun h2 => by simp at h2⟩
      · refine ⟨words[(h.currentWordIndex + 1) % words.length], ?_, ?_⟩
        · simp [htw, List.getElem?_eq_getElem hnext]
        · simp [hz, substringTo]
    · refine ⟨_, _, (by simp only [typeWords, htw, hw, hdel, if_true, hz, if_false]; rfl), ?_, ?_⟩
      · refine ⟨rfl, w, hw, ?_⟩
        simp only
        refine ⟨by omega, by omega, fun _ => by omega, fun _ => by omega⟩
      · refine ⟨w, by simp only [htw, hw], rfl, List.take_prefix _ _, ?_⟩
        simp only
        omega
  | false =>
    have hlt2 := htyping hdel
    by_cases hz : h.currentCharIndex + 1 = (w.length : Int)
    · refine ⟨_, _, (by
        simp only [typeWords, htw, hw, hdel, Bool.false_eq_true, if_false, hz, if_true]
        rfl), ?_, ?_⟩
      · refine ⟨rfl, w, hw, ?_⟩
        simp only
        refine ⟨by omega, by omega, fun h2 => by simp at h2, fun _ => by omega⟩
      · refine ⟨w, by simp only [htw, hw], rfl, List.take_prefix _ _, ?_⟩
        simp only
        omega
    · refine ⟨_, _, (by
        simp only [typeWords, htw, hw, hdel, Bool.false_eq_true, if_false, hz]
        rfl), ?_, ?_⟩
      · refine ⟨rfl, w, hw, ?_⟩
        simp only
        refine ⟨by omega, by omega, fun _ => by omega, fun h2 => by simp at h2⟩
      · refine ⟨w, by simp only [htw, hw], rfl, List.take_prefix _ _, ?_⟩
        simp only
        omega

theorem HomePageController.steps_inWord (words : List (List α))
    (hwords : ∀ w ∈ words, w ≠ []) (k : Nat) :
    ∀ h : HomePageController α, InWord words h →
      ∃ h1, steps (k + 1) h = some h1 ∧ InWord words h1 ∧ ShowsPrefix h1 := by
  induction k with
  | zero =>
    intro h hin
    obtain ⟨h1, d, hstep, hin1, hshow⟩ := HomePageController.typeWords_inWord words hwords h hin
    exact ⟨h1, by simp only [steps, hstep], hin1, hshow⟩
  | succ k ih =>
    intro h hin
    obtain ⟨h1, d, hstep, hin1, _⟩ := HomePageController.typeWords_inWord words hwords h hin
    obtain ⟨h2, hsteps, hin2, hshow⟩ := ih h1 hin1
    refine ⟨h2, ?_, hin2, hshow⟩
    rw [steps, hstep]
    exact hsteps

theorem HomePageController.steps_add (a : Nat) :
    ∀ (b : Nat) (h h1 : HomePageController α), steps a h = some h1 →
      steps (a + b) h = steps b h1 := by
  induction a with
  | zero =>
    intro b h h1 hs
    simp only [steps, Option.some.injEq] at hs
    simp [hs]
  | succ a ih =>
    intro b h h1 hs
    rw [show a + 1 + b = (a + b) + 1 by omega]
    simp only [steps] at hs ⊢
    cases hstep : typeWords h with
    | none => simp [hstep] at hs
    | some r =>
      obtain ⟨h2, d⟩ := r
      simp only [hstep] at hs ⊢
      exact ih b h2 h1 hs

theorem HomePageController.steps_typing (words : List (List α)) (i : Nat) (w : List α)
    (hw : words[i]? = some w) (text : List α) (k : Nat) :
    1 ≤ k → k ≤ w.length →
      steps k (wordStart words i text)
        = some { typingWords := words, currentWordIndex := i, currentCharIndex := k,
                 isDeleting := decide (k = w.length), textContent := w.take k } := by
  induction k with
  | zero => intro h; omega
  | succ k ih =>
    intro _ hle
    have hstep : ∀ t : List α,
        typeWords { typingWords := words, currentWordIndex := i, currentCharIndex := k,
                    isDeleting := false, textContent := t }
          = some ({ typingWords := words, currentWordIndex := i, currentCharIndex := (k : Int) + 1,
                    isDeleting := decide (k + 1 = w.length), textContent := w.take (k + 1) },
                  if k + 1 = w.length then pauseTime else typingSpeed) := by
      intro t
      have hs : substringTo w ((k : Int) + 1) = w.take (k + 1) := by
        simp only [substringTo]
        congr 1
      by_cases hk : k + 1 = w.length
      · have hk2 : (k : Int) + 1 = (w.length : Int) := by omega
        simp only [typeWords, hw, Bool.false_eq_true, if_false, hk2, if_true, hs, hk,
          decide_True]
        simp [hk2.symm, hs]
        omega
      · have hk2 : ¬ (k : Int) + 1 = (w.length : Int) := by omega
        simp only [typeWords, hw, Bool.false_eq_true, if_false, hk2, hs, hk, decide_False]
    rcases Nat.eq_zero_or_pos k with h0 | hpos
    · subst h0
      have := hstep text
      simp only [steps, wordStart]
      simp only [Nat.cast_zero] at this
      rw [this]
      simp
    · have hprev := ih hpos (by omega)
      have hkne : ¬ k = w.length := by omega
      simp only [hkne, decide_False] at hprev
      rw [HomePageController.steps_add k 1 _ _ hprev]
      simp only [steps]
      rw [hstep]
      simp

theorem HomePageController.steps_deleting (words : List (List α)) (i : Nat) (w : List α)
    (hw : words[i]? = some w) (hwl : w ≠ []) (text : List α) (j : Nat) :
    1 ≤ j → j ≤ w.length →
      steps (w.length + j) (wordStart words i text)
        = some { typingWords := words,
                 currentWordIndex := if j = w.length then (i + 1) % words.length else i,
                 currentCharIndex := (w.length : Int) - j,
                 isDeleting := decide (j < w.length), textContent := w.take (w.length - j) } := by
  have hwpos : 0 < w.length := List.length_pos.mpr hwl
  induction j with
  | zero => intro h; omega
  | succ j ih =>
    intro _ hle
    have hstep : ∀ t : List α,
        typeWords { typingWords := words, currentWordIndex := i,
                    currentCharIndex := (w.length : Int) - j,
                    isDeleting := true, textContent := t }
          = some ({ typingWords := words,
                    currentWordIndex := if j + 1 = w.length then (i + 1) % words.length else i,
                    currentCharIndex := (w.length : Int) - j - 1,
                    isDeleting := decide (j + 1 < w.length),
                    textContent := w.take (w.length - (j + 1)) },
                  if j + 1 = w.length then pauseTime / 2 else deleteSpeed) := by
      intro t
      have hs : substringTo w ((w.length : Int) - j - 1) = w.take (w.length - (j + 1)) := by
        simp only [substringTo]
        congr 1
        omega
      by_cases hj : j + 1 = w.length
      · have hz : (w.length : Int) - j - 1 = 0 := by omega
        have hnlt : ¬ j + 1 < w.length := by omega
        simp only [typeWords, hw, if_true, hz, hj, hnlt, decide_False]
        simp [substringTo]
      · have hz : ¬ (w.length : Int) - j - 1 = 0 := by omega
        have hlt : j + 1 < w.length := by omega
        simp only [typeWords, hw, if_true, hz, if_false, hj, hlt, decide_True, hs]
    have hidx : (w.length : Int) - j - 1 = (w.length : Int) - ((j + 1 : Nat) : Int) := by
      push_cast
      omega
    rcases Nat.eq_zero_or_pos j with h0 | hpos
    · subst h0
      have htyped := HomePageController.steps_typing words i w hw text w.length hwpos (le_refl _)
      simp only [decide_True] at htyped
      rw [HomePageController.steps_add w.length 1 _ _ htyped]
      simp only [steps]
      have := hstep (w.take w.length)
      simp only [Nat.cast_zero, sub_zero] at this
      rw [this]
      simp
    · have hprev := ih hpos (by omega)
      have hjne : ¬ j = w.length := by omega
      have hjlt : j < w.length := by omega
      simp only [hjne, if_false, hjlt, decide_True] at hprev
      rw [show w.length + (j + 1) = (w.length + j) + 1 by omega,
        HomePageController.steps_add (w.length + j) 1 _ _ hprev]
      simp only [steps]
      rw [hstep, hidx]

/-- C29: in the typing animation over a list of non-empty words, after every call of `typeWords`
the element shows a prefix of the current word, namely its first `currentCharIndex` units, with
`currentCharIndex` between 0 and the length of that word; a word of length `L` about to be typed
is shown in full after `L` calls, deletion starting only then, is deleted down to the empty
string after `L` further calls, and the word about to be typed then is the next of the list,
the first after the last. -/
theorem typing_shows_prefix_and_cycles_words (words : List (List α)) (hne : words ≠ [])
    (hwords : ∀ w ∈ words, w ≠ []) :
    (∀ (text : List α) (k : Nat), 1 ≤ k →
      ∃ h, steps k (HomePageController.new words text) = some h ∧ ShowsPrefix h) ∧
    (∀ (i : Nat) (w text : List α), words[i]? = some w →
      (∀ k, 1 ≤ k → k ≤ w.length →
        steps k (wordStart words i text)
          = some { typingWords := words, currentWordIndex := i, currentCharIndex := k,
                   isDeleting := decide (k = w.length), textContent := w.take k }) ∧
      steps w.length (wordStart words i text)
        = some { typingWords := words, currentWordIndex := i, currentCharIndex := w.length,
                 isDeleting := true, textContent := w } ∧
      (∀ j, 1 ≤ j → j < w.length →
        steps (w.length + j) (wordStart words i text)
          = some { typingWords := words, currentWordIndex := i,
                   currentCharIndex := (w.length : Int) - j,
                   isDeleting := true, textContent := w.take (w.length - j) }) ∧
      steps (w.length + w.length) (wordStart words i text)
        = some (wordStart words ((i + 1) % words.length) [])) := by
  constructor
  · intro text k hk
    obtain ⟨w0, hw0⟩ : ∃ w0, words[0]? = some w0 := by
      cases words with
      | nil => exact absurd rfl hne
      | cons a l => exact ⟨a, by simp⟩
    have hstart : InWord words (HomePageController.new words text) := by
      refine ⟨rfl, w0, hw0, le_refl _, ?_, ?_, ?_⟩
      · show (0 : Int) ≤ w0.length
        omega
      · intro _
        have := List.length_pos.mpr (hwords w0 (List.getElem?_mem hw0))
        show (0 : Int) < w0.length
        omega
      · intro h2
        simp [HomePageController.new] at h2
    obtain ⟨h1, hs, _, hshow⟩ :=
      HomePageController.steps_inWord words hwords (k - 1) _ hstart
    rw [show k - 1 + 1 = k by omega] at hs
    exact ⟨h1, hs, hshow⟩
  · intro i w text hw
    have hwl : w ≠ [] := hwords w (List.getElem?_mem hw)
    have hwpos : 0 < w.length := List.length_pos.mpr hwl
    refine ⟨fun k => HomePageController.steps_typing words i w hw text k, ?_, ?_, ?_⟩
    · have := HomePageController.steps_typing words i w hw text w.length hwpos (le_refl _)
      simpa using this
    · intro j hj hlt
      have := HomePageController.steps_deleting words i w hw hwl text j hj (by omega)
      have hjne : ¬ j = w.length := by omega
      simpa [hjne, hlt] using this
    · have := HomePageController.steps_deleting words i w hw hwl text w.length hwpos (le_refl _)
      simpa [wordStart] using this

theorem typing_shows_prefix_and_cycles_words_witness :
    twoWords ≠ [] ∧ (∀ w ∈ twoWords, w ≠ []) ∧
      steps 5 (HomePageController.new twoWords ['.', '.', '.'])
        = some { typingWords := twoWords, currentWordIndex := 1, currentCharIndex := 1,
                 isDeleting := false, textContent := ['D'] } ∧
      ((∀ (text : List Char) (k : Nat), 1 ≤ k →
        ∃ h, steps k (HomePageController.new twoWords text) = some h ∧ ShowsPrefix h) ∧
      (∀ (i : Nat) (w text : List Char), twoWords[i]? = some w →
        (∀ k, 1 ≤ k → k ≤ w.length →
          steps k (wordStart twoWords i text)
            = some { typingWords := twoWords, currentWordIndex := i, currentCharIndex := k,
                     isDeleting := decide (k = w.length), textContent := w.take k }) ∧
        steps w.length (wordStart twoWords i text)
          = some { typingWords := twoWords, currentWordIndex := i, currentCharIndex := w.length,
                   isDeleting := true, textContent := w } ∧
        (∀ j, 1 ≤ j → j < w.length →
          steps (w.length + j) (wordStart twoWords i text)
            = some { typingWords := twoWords, currentWordIndex := i,
                     currentCharIndex := (w.length : Int) - j,
                     isDeleting := true, textContent := w.take (w.length - j) }) ∧
        steps (w.length + w.length) (wordStart twoWords i text)
          = some (wordStart twoWords ((i + 1) % twoWords.length) []))) :=
  ⟨by decide, by decide, by decide,
    typing_shows_prefix_and_cycles_words twoWords (by decide) (by decide)⟩

end Typing

section FAQRuns

open FAQController

theorem toggleFAQ_leaves_at_most_one_active_witness :
    ((toggleFAQ faqPage 3).active 1 = false ∧ (toggleFAQ faqPage 3).active 2 = false ∧
        (toggleFAQ faqPage 3).active 3 = true ∧ (toggleFAQ faqPage 1).active 1 = false) ∧
      AtMostOneActive (run faqPage [3, 3, 2]) :=
  ⟨by decide, (toggleFAQ_leaves_at_most_one_active faqPage).2 [3, 3, 2] (Or.inl (by simp))⟩

end FAQRuns

section Slug

theorem isSlugAlnum_ne_dash (c : Char) (h : isSlugAlnum c = true) : c ≠ '-' := by
  intro hc
  subst hc
  revert h
  decide

theorem replaceRuns_alphabet (s : List Char) :
    ∀ b, ∀ c ∈ replaceRuns b s, isSlugAlnum c = true ∨ c = '-' := by
  induction s with
  | nil => intro b c hc; simp [replaceRuns] at hc
  | cons a s ih =>
    intro b c hc
    unfold replaceRuns at hc
    split_ifs at hc with h1 h2
    · rcases List.mem_cons.mp hc with h | h
      · exact Or.inl (h ▸ h1)
      · exact ih false c h
    · exact ih true c hc
    · rcases List.mem_cons.mp hc with h | h
      · exact Or.inr h
      · exact ih true c h

theorem replaceRuns_apart (s : List Char) :
    ∀ b, DashesApart (replaceRuns b s) ∧
      (b = true → (replaceRuns b s).head? ≠ some '-') := by
  induction s with
  | nil =>
    intro b
    simp [replaceRuns, DashesApart]
  | cons a s ih =>
    intro b
    unfold replaceRuns
    split_ifs with h1 h2
    · have ha := isSlugAlnum_ne_dash a h1
      refine ⟨?_, fun _ => by simpa using ha⟩
      unfold DashesApart
      rw [List.chain'_cons']
      exact ⟨fun y _ hp => ha hp.1, (ih false).1⟩
    · exact ⟨(ih true).1, fun _ => (ih true).2 rfl⟩
    · refine ⟨?_, fun hb => absurd hb h2⟩
      unfold DashesApart
      rw [List.chain'_cons']
      exact ⟨fun y hy hp => (ih true).2 rfl (by rw [hp.2] at hy; exact hy), (ih true).1⟩

theorem dashesApart_not_infix (s : List Char) (h : DashesApart s) : ¬ ['-', '-'] <:+: s := by
  intro hi
  have := List.Chain'.infix h hi
  simp at this

theorem trimDashes_shape (s : List Char) (halpha : ∀ c ∈ s, isSlugAlnum c = true ∨ c = '-')
    (hapart : DashesApart s) :
    (∀ c ∈ trimDashes s, isSlugAlnum c = true ∨ c = '-') ∧ DashesApart (trimDashes s) ∧
      (trimDashes s).head? ≠ some '-' ∧ (trimDashes s).getLast? ≠ some '-' := by
  -- the string once a leading dash is gone
  obtain ⟨s1, hs1, hsuf, hhead⟩ : ∃ s1, (if s.head? = some '-' then s.tail else s) = s1 ∧
      s1 <:+ s ∧ s1.head? ≠ some '-' := by
    by_cases hh : s.head? = some '-'
    · refine ⟨s.tail, by rw [if_pos hh], List.tail_suffix s, ?_⟩
      cases s with
      | nil => simp
      | cons a t =>
        simp only [List.head?_cons, Option.some.injEq] at hh
        subst hh
        cases t with
        | nil => simp
        | cons b u =>
          have := List.chain'_cons.mp hapart
          simp only [List.tail_cons, List.head?_cons, ne_eq, Option.some.injEq]
          intro hb
          exact this.1 ⟨rfl, hb⟩
    · exact ⟨s, by rw [if_neg hh], List.suffix_refl s, hh⟩
  have halpha1 : ∀ c ∈ s1, isSlugAlnum c = true ∨ c = '-' :=
    fun c hc => halpha c (hsuf.subset hc)
  have hapart1 : DashesApart s1 := List.Chain'.infix hapart hsuf.isInfix
  unfold trimDashes
  simp only [hs1]
  by_cases hl : s1.getLast? = some '-'
  · rw [if_pos hl]
    have hpre : s1.dropLast <+: s1 := List.dropLast_prefix s1
    refine ⟨fun c hc => halpha1 c (hpre.subset hc), List.Chain'.infix hapart1 hpre.isInfix,
      ?_, ?_⟩
    · intro hd
      apply hhead
      cases s1 with
      | nil => simp at hd
      | cons a t =>
        cases t with
        | nil => simp at hd
        | cons b u =>
          simpa [List.dropLast] using hd
    · intro hd
      rcases List.eq_nil_or_concat s1 with h0 | ⟨init, x, hx⟩
      · simp [h0] at hl
      · rw [List.concat_eq_append] at hx
        subst hx
        have hx2 : x = '-' := by simpa using hl
        have hdl : (init ++ [x]).dropLast = init := by simp
        rw [hdl] at hd
        rcases List.eq_nil_or_concat init with h0 | ⟨init2, y, hy⟩
        · simp [h0] at hd
        · rw [List.concat_eq_append] at hy
          subst hy
          have hy2 : y = '-' := by simpa using hd
          subst hx2 hy2
          exact dashesApart_not_infix _ hapart1 ⟨init2, [], by simp⟩
  · rw [if_neg hl]
    exact ⟨halpha1, hapart1, hhead, hl⟩

theorem replaceRuns_fixed (s : List Char) :
    ∀ b, (∀ c ∈ s, isSlugAlnum c = true ∨ c = '-') → DashesApart s →
      (b = true → s.head? ≠ some '-') → replaceRuns b s = s := by
  induction s with
  | nil => intro b _ _ _; rfl
  | cons a s ih =>
    intro b halpha hapart hb
    have htail : ∀ c ∈ s, isSlugAlnum c = true ∨ c = '-' :=
      fun c hc => halpha c (List.mem_cons_of_mem a hc)
    have hchain := List.chain'_cons'.mp hapart
    unfold replaceRuns
    by_cases h1 : isSlugAlnum a = true
    · rw [if_pos h1, ih false htail hchain.2 (fun h => by cases h)]
    · have ha : a = '-' := by
        rcases halpha a (List.mem_cons_self a s) with h | h
        · exact absurd h h1
        · exact h
      have hb2 : ¬ b = true := by
        intro hbt
        exact hb hbt (by simp [ha])
      rw [if_neg h1, if_neg hb2, ih true htail hchain.2]
      · rw [ha]
      · intro _ hh
        exact hchain.1 _ hh ⟨ha, rfl⟩

theorem trimDashes_fixed (s : List Char) (hhead : s.head? ≠ some '-')
    (hlast : s.getLast? ≠ some '-') : trimDashes s = s := by
  unfold trimDashes
  simp only [if_neg hhead, if_neg hlast]

theorem asciiLower_fixed (s : List Char) (hs : ∀ c ∈ s, isSlugAlnum c = true ∨ c = '-') :
    asciiLower s = s := by
  unfold asciiLower
  conv_rhs => rw [← List.map_id s]
  apply List.map_congr_left
  intro c hc
  have hkeep : ¬ (c.toNat ≥ 65 ∧ c.toNat ≤ 90) := by
    rcases hs c hc with h | h
    · simp only [isSlugAlnum, Bool.or_eq_true, Bool.and_eq_true, decide_eq_true_eq] at h
      rcases h with h | h
      · have h3 : 97 ≤ c.toNat := h.1
        omega
      · have h3 : c.toNat ≤ 57 := h.2
        omega
    · subst h
      decide
  simp only [Char.toLower, id, if_neg hkeep]

/-- C30: the result of `generateProjectSlug` consists only of the characters a-z, 0-9 and `'-'`,
does not start or end with `'-'` and contains no two consecutive `'-'`; given that `toLowerCase`
leaves strings over these characters as they are, applying `generateProjectSlug` to its own
result returns that result. -/
theorem generateProjectSlug_is_clean_and_idempotent (toLowerCase : List Char → List Char)
    (title : List Char) :
    (∀ c ∈ generateProjectSlug toLowerCase title, isSlugAlnum c = true ∨ c = '-') ∧
    (generateProjectSlug toLowerCase title).head? ≠ some '-' ∧
    (generateProjectSlug toLowerCase title).getLast? ≠ some '-' ∧
    ¬ ['-', '-'] <:+: generateProjectSlug toLowerCase title ∧
    ((∀ s : List Char, (∀ c ∈ s, isSlugAlnum c = true ∨ c = '-') → toLowerCase s = s) →
      generateProjectSlug toLowerCase (generateProjectSlug toLowerCase title)
        = generateProjectSlug toLowerCase title) := by
  unfold generateProjectSlug
  obtain ⟨halpha, hapart, hhead, hlast⟩ :=
    trimDashes_shape (replaceRuns false (toLowerCase title))
      (replaceRuns_alphabet _ false) (replaceRuns_apart _ false).1
  refine ⟨halpha, hhead, hlast, dashesApart_not_infix _ hapart, ?_⟩
  intro hlower
  rw [hlower _ halpha, replaceRuns_fixed _ false halpha hapart (fun h => by cases h),
    trimDashes_fixed _ hhead hlast]

theorem generateProjectSlug_is_clean_and_idempotent_witness :
    generateProjectSlug asciiLower "  My Project -- v2.0!".data = "my-project-v2-0".data ∧
      generateProjectSlug asciiLower "my-project-v2-0".data = "my-project-v2-0".data ∧
      generateProjectSlug asciiLower (generateProjectSlug asciiLower "--A--".data)
        = generateProjectSlug asciiLower "--A--".data :=
  ⟨by decide, by decide,
    (generateProjectSlug_is_clean_and_idempotent asciiLower "--A--".data).2.2.2.2
      asciiLower_fixed⟩

end Slug

section Stagger

open Dom

theorem tokenAdd_head (token : String) (tokens : List String) :
    ∃ first, (tokenAdd token tokens)[0]? = some first := by
  unfold tokenAdd
  split_ifs with h
  · cases tokens with
    | nil => simp at h
    | cons a t => exact ⟨a, by simp⟩
  · cases tokens with
    | nil => exact ⟨token, by simp⟩
    | cons a t => exact ⟨a, by simp⟩

theorem tokenAdd_mem (token : String) (tokens : List String) : token ∈ tokenAdd token tokens := by
  unfold tokenAdd
  split_ifs with h
  · exact h
  · simp

theorem Dom.animateElement_classList (d : Dom) (element other : Element) :
    (d.animateElement element).classList other
      = if other = element then tokenAdd "visible" (d.classList element)
        else d.classList other := by
  unfold animateElement
  simp only
  split
  · split_ifs <;> simp_all [setTransitionDelay, setClassList]
  · split_ifs <;> simp_all [setClassList]

theorem Dom.animateElement_delay_other (d : Dom) (element other : Element)
    (hne : other ≠ element) :
    (d.animateElement element).transitionDelay other = d.transitionDelay other := by
  unfold animateElement
  simp only
  split
  · split_ifs <;> simp [setTransitionDelay, setClassList, hne]
  · rfl

theorem Dom.animateElement_delay (d : Dom) (element parent : Element)
    (hparent : d.parentElement element = some parent) :
    (d.animateElement element).transitionDelay element
      = if 1 < ((d.setClassList element (tokenAdd "visible" (d.classList element))).siblings
            element parent).length then
          toString (jsIndexOf ((d.setClassList element
            (tokenAdd "visible" (d.classList element))).siblings element parent) element * 100)
            ++ "ms"
        else d.transitionDelay element := by
  have hpar : (d.setClassList element (tokenAdd "visible" (d.classList element))).parentElement
      element = some parent := hparent
  unfold animateElement
  simp only [hpar, gt_iff_lt]
  split_ifs <;> simp [setTransitionDelay, setClassList]

theorem toString_natCast (n : Nat) : toString (n : Int) = toString n := rfl

/-- C22: `animateElement` adds the class `visible` to the element (no other class list changes)
and, when the element has a parent of which more than one child carries the element's first
class, sets the element's transition delay to `index * 100` ms, where `index` is the zero-based
position of the element among those children; when only one child carries that class, or the
element has no parent, the transition delay stays as it was; no other element's delay changes. -/
theorem animateElement_adds_visible_and_staggers (d : Dom) (element : Element)
    (hchild : ∀ parent, d.parentElement element = some parent → element ∈ d.children parent) :
    (d.animateElement element).classList element = tokenAdd "visible" (d.classList element) ∧
    "visible" ∈ (d.animateElement element).classList element ∧
    (∀ other, other ≠ element →
      (d.animateElement element).classList other = d.classList other ∧
      (d.animateElement element).transitionDelay other = d.transitionDelay other) ∧
    (∃ first, ((d.animateElement element).classList element)[0]? = some first ∧
      ∀ parent, d.parentElement element = some parent →
        ∃ index : Nat,
          ((d.children parent).filter
              (fun child => decide (first ∈ (d.animateElement element).classList child)))[index]?
            = some element ∧
          index = ((d.children parent).filter
              (fun child => decide (first ∈ (d.animateElement element).classList child))).indexOf
                element ∧
          (1 < ((d.children parent).filter
              (fun child => decide (first ∈ (d.animateElement element).classList child))).length →
            (d.animateElement element).transitionDelay element
              = toString (index * 100) ++ "ms") ∧
          (((d.children parent).filter
              (fun child => decide (first ∈ (d.animateElement element).classList child))).length
              ≤ 1 →
            (d.animateElement element).transitionDelay element = d.transitionDelay element)) ∧
    (d.parentElement element = none →
      (d.animateElement element).transitionDelay element = d.transitionDelay element) := by
  obtain ⟨first, hfirst⟩ := tokenAdd_head "visible" (d.classList element)
  have hclel : (d.animateElement element).classList element
      = tokenAdd "visible" (d.classList element) := by
    rw [Dom.animateElement_classList, if_pos rfl]
  refine ⟨hclel, ?_, ?_, ⟨first, ?_, ?_⟩, ?_⟩
  · rw [hclel]
    exact tokenAdd_mem _ _
  · intro other hne
    exact ⟨by rw [Dom.animateElement_classList, if_neg hne],
      Dom.animateElement_delay_other d element other hne⟩
  · rw [hclel]
    exact hfirst
  · intro parent hparent
    have hmem := hchild parent hparent
    have hsib : (d.setClassList element (tokenAdd "visible" (d.classList element))).siblings
          element parent
        = (d.children parent).filter
            (fun child => decide (first ∈ (d.animateElement element).classList child)) := by
      simp only [siblings, setClassList, if_true, hfirst]
      apply List.filter_congr
      intro child _
      simp only [containsFirst, Dom.animateElement_classList]
    have hin : element ∈ (d.children parent).filter
        (fun child => decide (first ∈ (d.animateElement element).classList child)) := by
      rw [List.mem_filter]
      refine ⟨hmem, ?_⟩
      rw [hclel]
      simp only [decide_eq_true_eq]
      exact List.getElem?_mem hfirst
    have hdelay := Dom.animateElement_delay d element parent hparent
    rw [hsib] at hdelay
    refine ⟨_, ?_, rfl, ?_, ?_⟩
    · rw [List.getElem?_eq_getElem (List.indexOf_lt_length.mpr hin)]
      simp
    · intro hlen
      rw [hdelay, if_pos hlen, jsIndexOf, if_pos hin, ← toString_natCast]
      norm_cast
    · intro hlen
      rw [hdelay, if_neg (by omega)]
  · intro hparent
    have hpar : (d.setClassList element (tokenAdd "visible" (d.classList element))).parentElement
        element = none := hparent
    unfold animateElement
    simp only [hpar]
    rfl

theorem animateElement_adds_visible_and_staggers_witness :
    (∀ parent, cardList.parentElement 3 = some parent → 3 ∈ cardList.children parent) ∧
      (cardList.animateElement 3).classList 3 = ["fade-in-up", "card", "visible"] ∧
      (cardList.animateElement 3).transitionDelay 3 = "200ms" ∧
      (cardList.animateElement 4).transitionDelay 4 = "" ∧
      (cardList.animateElement 5).transitionDelay 5 = "" ∧
      "visible" ∈ (cardList.animateElement 3).classList 3 :=
  ⟨by decide, by decide, by decide, by decide, by decide,
    (animateElement_adds_visible_and_staggers cardList 3 (by decide)).2.1⟩

end Stagger

section Search

open BlogSearchController

theorem startsWith_iff (needle hay : List Char) :
    startsWith needle hay = true ↔ needle <+: hay := by
  induction needle generalizing hay with
  | nil => simp [startsWith]
  | cons a as ih =>
    cases hay with
    | nil => simp [startsWith]
    | cons b bs =>
      simp only [startsWith, Bool.and_eq_true, beq_iff_eq, ih, List.cons_prefix_cons]

theorem hasInfix_iff (needle hay : List Char) :
    hasInfix needle hay = true ↔ needle <:+: hay := by
  induction hay with
  | nil => simp [hasInfix, List.isEmpty_iff]
  | cons c cs ih =>
    simp only [hasInfix, Bool.or_eq_true, startsWith_iff, ih, List.infix_cons_iff]

theorem BlogSearchController.searchStep_fold (toLowerCase : List Char → List Char)
    (searchTerm : List Char) (cards : List ArticleCard) :
    ∀ acc : List SearchResult,
      cards.foldl (searchStep toLowerCase searchTerm) acc
        = acc ++ (cards.filter
            (fun card => hasInfix searchTerm (searchContent toLowerCase card))).map
            (resultOf toLowerCase searchTerm) := by
  induction cards with
  | nil => intro acc; simp
  | cons card cards ih =>
    intro acc
    rw [List.foldl_cons, ih]
    by_cases h : hasInfix searchTerm (searchContent toLowerCase card) = true
    · simp [searchStep, h, List.filter_cons]
    · simp [searchStep, h, List.filter_cons]

/-- C26: after `performSearch` with a query whose trimmed lower-cased form is not empty,
`searchResults` holds exactly the cards whose combined lower-cased text
`title excerpt category tags` contains that form, each card once, every entry with the score of
`calculateRelevanceScore`, ordered by non-increasing score. -/
theorem performSearch_results_match_and_sorted (toLowerCase : List Char → List Char)
    (c : BlogSearchController) (query : String)
    (hquery : jsTrim (toLowerCase query.data) ≠ []) :
    List.Perm ((performSearch toLowerCase c query).searchResults.map (fun r => r.element))
      (c.articleCards.filter
        (fun card => decide (jsTrim (toLowerCase query.data) <:+: searchContent toLowerCase card)))
    ∧ (∀ r ∈ (performSearch toLowerCase c query).searchResults,
        r.score = calculateRelevanceScore (jsTrim (toLowerCase query.data))
          (toLowerCase r.element.title.data) (toLowerCase r.element.excerpt.data)
          (toLowerCase r.element.category.data)
          ([' '].intercalate (r.element.tags.map (fun tag => toLowerCase tag.data))))
    ∧ List.Sorted (fun a b => a.score ≥ b.score) (performSearch toLowerCase c query).searchResults
    := by
  haveI : IsTotal SearchResult (fun a b => a.score ≥ b.score) :=
    ⟨fun a b => Nat.le_total b.score a.score⟩
  haveI : IsTrans SearchResult (fun a b => a.score ≥ b.score) :=
    ⟨fun a b c hab hbc => Nat.le_trans hbc hab⟩
  have hres : (performSearch toLowerCase c query).searchResults
      = ((c.articleCards.filter
            (fun card => hasInfix (jsTrim (toLowerCase query.data))
              (searchContent toLowerCase card))).map
            (resultOf toLowerCase (jsTrim (toLowerCase query.data)))).insertionSort (fun a b => a.score ≥ b.score) := by
    have hne : (jsTrim (toLowerCase query.data)).isEmpty = false := by
      cases h : jsTrim (toLowerCase query.data) with
      | nil => exact absurd h hquery
      | cons a l => rfl
    unfold performSearch
    simp only [hne, Bool.false_eq_true, if_false,
      BlogSearchController.searchStep_fold, List.nil_append]
  have hfilter : (c.articleCards.filter
      (fun card => decide (jsTrim (toLowerCase query.data) <:+: searchContent toLowerCase card)))
      = c.articleCards.filter
          (fun card => hasInfix (jsTrim (toLowerCase query.data))
            (searchContent toLowerCase card)) := by
    apply List.filter_congr
    intro card _
    by_cases h : hasInfix (jsTrim (toLowerCase query.data)) (searchContent toLowerCase card) = true
    · simp [h, (hasInfix_iff _ _).mp h]
    · have h2 : ¬ jsTrim (toLowerCase query.data) <:+: searchContent toLowerCase card :=
        fun hi => h ((hasInfix_iff _ _).mpr hi)
      simp [h, h2]
  rw [hres, hfilter]
  refine ⟨?_, ?_, List.sorted_insertionSort _ _⟩
  · have hperm := (List.perm_insertionSort (fun (a b : SearchResult) => a.score ≥ b.score)
      ((c.articleCards.filter
            (fun card => hasInfix (jsTrim (toLowerCase query.data))
              (searchContent toLowerCase card))).map
            (resultOf toLowerCase (jsTrim (toLowerCase query.data))))).map (fun r => r.element)
    simpa [List.map_map, Function.comp_def, resultOf] using hperm
  · intro r hr
    have hr2 := (List.perm_insertionSort _ _).subset hr
    obtain ⟨card, _, hcard⟩ := List.mem_map.mp hr2
    rw [← hcard]
    rfl

theorem performSearch_results_match_and_sorted_witness :
    jsTrim (asciiLower " Rust ".data) ≠ [] ∧
      (performSearch asciiLower blogPage " Rust ").searchResults.map
          (fun r => (r.element.element, r.score)) = [(3, 30), (1, 19)] ∧
      List.Sorted (fun a b => a.score ≥ b.score)
        (performSearch asciiLower blogPage " Rust ").searchResults :=
  ⟨by decide, by decide,
    (performSearch_results_match_and_sorted asciiLower blogPage " Rust " (by decide)).2.2⟩

end Search

section Email

theorem classify_at (c : Char) : classify c = .at ↔ c = '@' := by
  unfold classify
  constructor
  · intro h
    split_ifs at h with h1 h2 h3
    exact h2
  · intro h
    subst h
    decide

theorem classify_dot (c : Char) : classify c = .dot ↔ c = '.' := by
  unfold classify
  constructor
  · intro h
    split_ifs at h with h1 h2 h3
    exact h3
  · intro h
    subst h
    decide

theorem classify_plain (c : Char) :
    (classify c = .dot ∨ classify c = .other) ↔ (isJsWhitespace c = false ∧ c ≠ '@') := by
  unfold classify
  split_ifs with h1 h2 h3 <;> simp_all

theorem oneOrMore_plain_matches (w : List EmailSymbol) :
    w ∈ (oneOrMore emailPlain).matches' ↔ w ≠ [] ∧ ∀ s ∈ w, s = .dot ∨ s = .other := by
  have hone : ∀ y : List EmailSymbol, y ∈ emailPlain.matches' ↔ y = [.dot] ∨ y = [.other] := by
    intro y
    simp only [emailPlain, RegularExpression.plus_def, RegularExpression.matches'_add,
      RegularExpression.matches'_char, Language.mem_add]
    exact Iff.rfl
  simp only [oneOrMore, RegularExpression.comp_def, RegularExpression.matches'_mul,
    RegularExpression.matches'_star, Language.mem_mul, Language.mem_kstar, hone]
  constructor
  · rintro ⟨a, ha, b, ⟨L, hb, hL⟩, rfl⟩
    constructor
    · rcases ha with rfl | rfl <;> simp
    · intro s hs
      rcases List.mem_append.mp hs with h | h
      · rcases ha with rfl | rfl
        · exact Or.inl (by simpa using h)
        · exact Or.inr (by simpa using h)
      · rw [hb] at h
        obtain ⟨y, hy, hsy⟩ := List.mem_flatten.mp h
        rcases hL y hy with rfl | rfl
        · exact Or.inl (by simpa using hsy)
        · exact Or.inr (by simpa using hsy)
  · rintro ⟨hne, hall⟩
    cases w with
    | nil => exact absurd rfl hne
    | cons s rest =>
      refine ⟨[s], ?_, rest, ⟨rest.map (fun x => [x]), ?_, ?_⟩, rfl⟩
      · rcases hall s (List.mem_cons_self s rest) with rfl | rfl
        · exact Or.inl rfl
        · exact Or.inr rfl
      · induction rest with
        | nil => rfl
        | cons x xs ih =>
          simp only [List.map_cons, List.flatten_cons, List.singleton_append, List.cons.injEq,
            true_and]
          exact ih (by simp) (fun s hs => hall s (by
            rcases List.mem_cons.mp hs with h | h
            · exact h ▸ List.mem_cons_self _ _
            · exact List.mem_cons_of_mem _ (List.mem_cons_of_mem _ h)))
      · intro y hy
        obtain ⟨x, hx, rfl⟩ := List.mem_map.mp hy
        rcases hall x (List.mem_cons_of_mem s hx) with rfl | rfl
        · exact Or.inl rfl
        · exact Or.inr rfl

theorem emailRun_iff (l : List Char) :
    (l.map classify ≠ [] ∧ ∀ s ∈ l.map classify, s = .dot ∨ s = .other) ↔ EmailRun l := by
  unfold EmailRun
  constructor
  · rintro ⟨h1, h2⟩
    refine ⟨by simpa using h1, fun c hc => (classify_plain c).mp (h2 _ (List.mem_map_of_mem _ hc))⟩
  · rintro ⟨h1, h2⟩
    refine ⟨by simpa using h1, fun s hs => ?_⟩
    obtain ⟨c, hc, rfl⟩ := List.mem_map.mp hs
    exact (classify_plain c).mpr (h2 c hc)

theorem emailRegex_rmatch_iff (v : List Char) :
    emailRegex.rmatch (v.map classify) = true ↔
      ∃ a b c, v = a ++ '@' :: (b ++ '.' :: c) ∧ EmailRun a ∧ EmailRun b ∧ EmailRun c := by
  rw [RegularExpression.rmatch_iff_matches']
  simp only [emailRegex, RegularExpression.comp_def, RegularExpression.matches'_mul,
    RegularExpression.matches'_char, Language.mem_mul]
  constructor
  · rintro ⟨A, hA, _, ⟨x, hx, _, ⟨B, hB, _, ⟨y, hy, C, hC, rfl⟩, rfl⟩, rfl⟩, hv⟩
    have hx2 : x = [EmailSymbol.at] := hx
    have hy2 : y = [EmailSymbol.dot] := hy
    subst hx2 hy2
    obtain ⟨a, r1, rfl, ha, h1⟩ := List.map_eq_append_iff.mp hv.symm
    simp only [List.singleton_append, List.cons_append, List.nil_append] at h1
    obtain ⟨cat, r2, rfl, hcat, h2⟩ := List.map_eq_cons_iff.mp h1
    obtain ⟨b, r3, rfl, hb, h3⟩ := List.map_eq_append_iff.mp h2
    obtain ⟨cdot, c, rfl, hcdot, hc⟩ := List.map_eq_cons_iff.mp h3
    have e1 : cat = '@' := (classify_at cat).mp hcat
    have e2 : cdot = '.' := (classify_dot cdot).mp hcdot
    subst e1 e2
    refine ⟨a, b, c, rfl, ?_, ?_, ?_⟩
    · exact (emailRun_iff a).mp (ha ▸ (oneOrMore_plain_matches A).mp hA)
    · exact (emailRun_iff b).mp (hb ▸ (oneOrMore_plain_matches B).mp hB)
    · exact (emailRun_iff c).mp (hc ▸ (oneOrMore_plain_matches C).mp hC)
  · rintro ⟨a, b, c, rfl, ha, hb, hc⟩
    refine ⟨a.map classify, ?_, _, ⟨[.at], rfl, _, ⟨b.map classify, ?_, _,
      ⟨[.dot], rfl, c.map classify, ?_, rfl⟩, rfl⟩, rfl⟩, ?_⟩
    · exact (oneOrMore_plain_matches _).mpr ((emailRun_iff a).mpr ha)
    · exact (oneOrMore_plain_matches _).mpr ((emailRun_iff b).mpr hb)
    · exact (oneOrMore_plain_matches _).mpr ((emailRun_iff c).mpr hc)
    · have h1 : classify '@' = .at := by decide
      have h2 : classify '.' = .dot := by decide
      simp [h1, h2]

theorem emailParts_iff_shape (v : List Char) :
    (∃ a b c, v = a ++ '@' :: (b ++ '.' :: c) ∧ EmailRun a ∧ EmailRun b ∧ EmailRun c) ↔
      EmailShape v := by
  have hat : isJsWhitespace '@' = false := by decide
  have hdot : isJsWhitespace '.' = false := by decide
  constructor
  · rintro ⟨a, b, c, rfl, ⟨ha0, ha⟩, ⟨hb0, hb⟩, ⟨hc0, hc⟩⟩
    refine ⟨?_, ?_, a, b ++ '.' :: c, rfl, ha0, b, c, rfl, hb0, hc0⟩
    · intro x hx
      simp only [List.mem_append, List.mem_cons] at hx
      rcases hx with h | h | h | h | h
      · exact (ha x h).1
      · rw [h]; exact hat
      · exact (hb x h).1
      · rw [h]; exact hdot
      · exact (hc x h).1
    · have h1 : a.count '@' = 0 := List.count_eq_zero.mpr (fun h => (ha _ h).2 rfl)
      have h2 : b.count '@' = 0 := List.count_eq_zero.mpr (fun h => (hb _ h).2 rfl)
      have h3 : c.count '@' = 0 := List.count_eq_zero.mpr (fun h => (hc _ h).2 rfl)
      have h4 : ('.' == '@') = false := by decide
      simp [List.count_append, List.count_cons, h1, h2, h3, h4]
  · rintro ⟨hws, hcount, before, after, rfl, hb0, b, c, rfl, hb1, hc1⟩
    have h4 : ('.' == '@') = false := by decide
    simp only [List.count_append, List.count_cons, beq_self_eq_true, if_true, h4,
      Bool.false_eq_true, if_false, add_zero] at hcount
    have h1 : before.count '@' = 0 := by omega
    have h2 : b.count '@' = 0 := by omega
    have h3 : c.count '@' = 0 := by omega
    refine ⟨before, b, c, rfl, ⟨hb0, fun x hx => ⟨hws x (by simp [hx]), ?_⟩⟩,
      ⟨hb1, fun x hx => ⟨hws x (by simp [hx]), ?_⟩⟩, ⟨hc1, fun x hx => ⟨hws x (by simp [hx]), ?_⟩⟩⟩
    · rintro rfl
      exact List.count_eq_zero.mp h1 hx
    · rintro rfl
      exact List.count_eq_zero.mp h2 hx
    · rintro rfl
      exact List.count_eq_zero.mp h3 hx

theorem takeWhile_all (p : Char → Bool) (l : List Char) :
    ∀ x ∈ l.takeWhile p, p x = true := by
  induction l with
  | nil => intro x hx; simp at hx
  | cons a l ih =>
    intro x hx
    by_cases ha : p a = true
    · rw [List.takeWhile_cons_of_pos ha] at hx
      rcases List.mem_cons.mp hx with h | h
      · rw [h]; exact ha
      · exact ih x h
    · rw [List.takeWhile_cons_of_neg ha] at hx
      simp at hx

theorem emailRegexTest_iff (v : List Char) :
    emailRegexTest v = true ↔
      ∃ a b c, v = a ++ '@' :: (b ++ '.' :: c) ∧ EmailRun a ∧ EmailRun b ∧ EmailRun c := by
  have hplain : ∀ x : Char, (!(isJsWhitespace x || x == '@')) = true ↔
      (isJsWhitespace x = false ∧ x ≠ '@') := by
    intro x
    simp
  have hatp : (!(isJsWhitespace '@' || '@' == '@')) = false := by decide
  unfold emailRegexTest
  have hplain2 : ∀ x : Char, (isJsWhitespace x || x == '@') = false ↔
      (isJsWhitespace x = false ∧ x ≠ '@') := by
    intro x
    simp
  have hcontains : ∀ l : List Char, l.contains '.' = true ↔ '.' ∈ l := fun l => List.elem_iff
  simp only [Bool.and_eq_true, Bool.not_eq_true', List.isEmpty_eq_false, beq_iff_eq,
    List.all_eq_true, hcontains]
  constructor
  · rintro ⟨⟨⟨h1, h2⟩, h3⟩, h4⟩
    obtain ⟨domain, hdom⟩ : ∃ domain, v.dropWhile (fun c => !(isJsWhitespace c || c == '@'))
        = '@' :: domain := by
      cases hd : v.dropWhile (fun c => !(isJsWhitespace c || c == '@')) with
      | nil => rw [hd] at h2; simp at h2
      | cons x xs =>
        rw [hd] at h2
        simp only [List.head?_cons, Option.some.injEq] at h2
        exact ⟨xs, by rw [h2]⟩
    rw [hdom] at h3 h4
    simp only [List.drop_succ_cons, List.drop_zero] at h3 h4
    have hv : v = v.takeWhile (fun c => !(isJsWhitespace c || c == '@')) ++ '@' :: domain := by
      rw [← hdom, List.takeWhile_append_dropWhile]
    cases domain with
    | nil => simp at h4
    | cons d0 t =>
      simp only [List.drop_succ_cons, List.drop_zero] at h4
      rcases List.eq_nil_or_concat t with h0 | ⟨init, last, ht⟩
      · rw [h0] at h4
        simp at h4
      · rw [List.concat_eq_append] at ht
        subst ht
        rw [List.dropLast_concat] at h4
        obtain ⟨x, y, hxy⟩ := List.append_of_mem h4
        subst hxy
        refine ⟨_, d0 :: x, y ++ [last], ?_, ⟨h1, ?_⟩, ⟨by simp, ?_⟩, ⟨by simp, ?_⟩⟩
        · exact hv.trans (by simp)
        · intro c hc
          exact (hplain c).mp
            (takeWhile_all (fun c => !(isJsWhitespace c || c == '@')) v c hc)
        · intro c hc
          exact (hplain2 c).mp (h3 c (by
            simp only [List.mem_cons, List.mem_append] at hc ⊢
            tauto))
        · intro c hc
          exact (hplain2 c).mp (h3 c (by
            simp only [List.mem_cons, List.mem_append, List.mem_singleton] at hc ⊢
            tauto))
  · rintro ⟨a, b, c, rfl, ⟨ha0, ha⟩, ⟨hb0, hb⟩, ⟨hc0, hc⟩⟩
    have htake : (a ++ '@' :: (b ++ '.' :: c)).takeWhile
        (fun c => !(isJsWhitespace c || c == '@')) = a := by
      rw [List.takeWhile_append_of_pos (fun x hx => (hplain x).mpr (ha x hx)),
        List.takeWhile_cons_of_neg (by simp)]
      simp
    have hdrop : (a ++ '@' :: (b ++ '.' :: c)).dropWhile
        (fun c => !(isJsWhitespace c || c == '@')) = '@' :: (b ++ '.' :: c) := by
      rw [List.dropWhile_append_of_pos (fun x hx => (hplain x).mpr (ha x hx)),
        List.dropWhile_cons_of_neg (by simp)]
    rw [htake, hdrop]
    simp only [List.head?_cons, List.drop_succ_cons, List.drop_zero]
    have hdotp : (isJsWhitespace '.' = false ∧ '.' ≠ '@') := by decide
    refine ⟨⟨⟨ha0, trivial⟩, ?_⟩, ?_⟩
    · intro x hx
      apply (hplain2 x).mpr
      simp only [List.mem_append, List.mem_cons] at hx
      rcases hx with h | h | h
      · exact hb x h
      · rw [h]; exact hdotp
      · exact hc x h
    · cases b with
      | nil => exact absurd rfl hb0
      | cons b0 b1 =>
        rcases List.eq_nil_or_concat c with h0 | ⟨c1, cl, hcl⟩
        · exact absurd h0 hc0
        · rw [List.concat_eq_append] at hcl
          subst hcl
          have : (b0 :: b1 ++ '.' :: (c1 ++ [cl])).drop 1 = (b1 ++ '.' :: c1) ++ [cl] := by simp
          rw [this, List.dropLast_concat]
          simp

theorem emailShape_nil : ¬ EmailShape [] := by
  rintro ⟨_, hcount, _⟩
  simp at hcount

/-- C24: the email check of the contact form (`emailRegexTest`, which `validateField` applies to
the trimmed value of a field named `email`), of the newsletter form (`validateEmail`) and of the
legacy form (the email branch of `validateField`, on the trimmed value) accepts a string exactly
when it contains no white space, contains exactly one `@`, has at least one character before the
`@`, and has after the `@` a `.` that is neither the first nor the last character of that part;
all three are the test of the pattern `/^[^\s@]+@[^\s@]+\.[^\s@]+$/`. -/
theorem email_check_accepts_exactly_the_email_shape (v : List Char) :
    (emailRegexTest v = true ↔ EmailShape v) ∧
    (NewsletterController.validateEmail v = true ↔ EmailShape v) ∧
    (∀ fieldValue : String, jsTrim fieldValue.data = v →
      (FormController.validateField "email" fieldValue = true ↔ EmailShape v)) ∧
    (∀ f : Field, f.name = "email" → jsTrim f.value.data = v → v ≠ [] →
      ((ContactPage.checkField f).1 = true ↔ EmailShape v)) ∧
    emailRegexTest v = emailRegex.rmatch (v.map classify) := by
  have h1 : emailRegexTest v = true ↔ EmailShape v :=
    (emailRegexTest_iff v).trans (emailParts_iff_shape v)
  have h2 : emailRegex.rmatch (v.map classify) = true ↔ EmailShape v :=
    (emailRegex_rmatch_iff v).trans (emailParts_iff_shape v)
  refine ⟨h1, h2, ?_, ?_, ?_⟩
  · intro fieldValue hv
    have hname : ¬ ("email" = "name") := by decide
    have hmessage : ¬ ("email" = "message") := by decide
    unfold FormController.validateField
    simp only [hv, hname, hmessage, false_and, if_false, true_and]
    cases hnil : v with
    | nil =>
      subst hnil
      simp [emailShape_nil]
    | cons a l =>
      rw [← hnil]
      have hne : v.isEmpty = false := by rw [hnil]; rfl
      simp only [hne, Bool.false_eq_true, if_false, not_false_eq_true, if_true]
      rw [← h2]
      cases emailRegex.rmatch (v.map classify) <;> simp
  · intro f hname hv hne
    have hempty : v.isEmpty = false := by
      cases v with
      | nil => exact absurd rfl hne
      | cons a l => rfl
    unfold ContactPage.checkField
    simp only [hv, hname, hempty, Bool.and_false, Bool.false_eq_true, if_false, beq_self_eq_true,
      Bool.not_false, Bool.and_true, if_true]
    rw [← h1]
    cases emailRegexTest v <;> simp
  · cases hb : emailRegex.rmatch (v.map classify) with
    | true => exact h1.mpr (h2.mp hb)
    | false =>
      cases ha : emailRegexTest v with
      | false => rfl
      | true => rw [h2.mpr (h1.mp ha)] at hb; cases hb

theorem email_check_accepts_exactly_the_email_shape_witness :
    (NewsletterController.validateEmail "ada@mail.example.org".data = true ∧
      NewsletterController.validateEmail "ada@mail".data = false ∧
      NewsletterController.validateEmail "ada@.org".data = false ∧
      NewsletterController.validateEmail "ada@mail.".data = false ∧
      NewsletterController.validateEmail "a@da@mail.org".data = false ∧
      NewsletterController.validateEmail "ada @mail.org".data = false ∧
      FormController.validateField "email" " ada@mail.org " = true) ∧
      EmailShape "ada@mail.example.org".data :=
  ⟨by decide,
    (email_check_accepts_exactly_the_email_shape "ada@mail.example.org".data).2.1.mp
      (by decide)⟩

end Email

section Doubles

open JsNumber

theorem JsNumber.log2Fuel_eq (fuel : Nat) : ∀ n, n ≤ fuel → log2Fuel fuel n = Nat.log2 n := by
  induction fuel with
  | zero =>
    intro n hn
    have : n = 0 := by omega
    subst this
    simp [log2Fuel, Nat.log2_zero]
  | succ fuel ih =>
    intro n hn
    rw [log2Fuel, Nat.log2]
    by_cases h : 2 ≤ n
    · rw [if_pos h, if_pos h, ih (n / 2) (by omega)]
    · rw [if_neg h, if_neg h]

theorem JsNumber.log2_spec (n : Nat) (hn : 0 < n) :
    2 ^ log2 n ≤ n ∧ n < 2 ^ (log2 n + 1) := by
  unfold log2
  rw [JsNumber.log2Fuel_eq n n (le_refl n)]
  exact ⟨Nat.log2_self_le (by omega), Nat.lt_log2_self⟩

theorem JsNumber.twoPow_split (s : Int) :
    ((2 : ℚ) ^ s.toNat) / (2 : ℚ) ^ (-s).toNat = (2 : ℚ) ^ s := by
  rcases le_total 0 s with h | h
  · have h1 : (-s).toNat = 0 := Int.toNat_eq_zero.mpr (by omega)
    rw [h1, pow_zero, div_one, ← zpow_natCast, Int.toNat_of_nonneg h]
  · have h1 : s.toNat = 0 := Int.toNat_eq_zero.mpr h
    have h2 : ((-s).toNat : Int) = -s := Int.toNat_of_nonneg (by omega)
    rw [h1, pow_zero, ← zpow_natCast, h2, zpow_neg, one_div, inv_inv]

theorem JsNumber.binade_spec (a d : Nat) (ha : 0 < a) (hd : 0 < d) :
    (2 : ℚ) ^ binade a d ≤ (a : ℚ) / d ∧ (a : ℚ) / d < (2 : ℚ) ^ (binade a d + 1) := by
  obtain ⟨ha1, ha2⟩ := JsNumber.log2_spec a ha
  obtain ⟨hd1, hd2⟩ := JsNumber.log2_spec d hd
  have hdq : (0 : ℚ) < d := by exact_mod_cast hd
  have haq : (0 : ℚ) < a := by exact_mod_cast ha
  have ha1q : (2 : ℚ) ^ (log2 a : Int) ≤ a := by
    rw [zpow_natCast]
    exact_mod_cast ha1
  have ha2q : (a : ℚ) < (2 : ℚ) ^ ((log2 a : Int) + 1) := by
    have : (a : ℚ) < (2 : ℚ) ^ (log2 a + 1) := by exact_mod_cast ha2
    rwa [← zpow_natCast, Nat.cast_add, Nat.cast_one] at this
  have hd1q : (2 : ℚ) ^ (log2 d : Int) ≤ d := by
    rw [zpow_natCast]
    exact_mod_cast hd1
  have hd2q : (d : ℚ) < (2 : ℚ) ^ ((log2 d : Int) + 1) := by
    have : (d : ℚ) < (2 : ℚ) ^ (log2 d + 1) := by exact_mod_cast hd2
    rwa [← zpow_natCast, Nat.cast_add, Nat.cast_one] at this
  have h2 : (0 : ℚ) < 2 := by norm_num
  have hcond : ∀ k : Int, (d * 2 ^ k.toNat ≤ a * 2 ^ (-k).toNat) ↔ (2 : ℚ) ^ k ≤ (a : ℚ) / d := by
    intro k
    rw [← JsNumber.twoPow_split k, div_le_div_iff₀ (pow_pos h2 _) hdq]
    constructor
    · intro h
      have : ((d * 2 ^ k.toNat : Nat) : ℚ) ≤ ((a * 2 ^ (-k).toNat : Nat) : ℚ) := by
        exact_mod_cast h
      push_cast at this
      linarith
    · intro h
      have : ((d * 2 ^ k.toNat : Nat) : ℚ) ≤ ((a * 2 ^ (-k).toNat : Nat) : ℚ) := by
        push_cast
        linarith
      exact_mod_cast this
  unfold binade
  simp only
  by_cases hc : d * 2 ^ ((log2 a : Int) - (log2 d : Int)).toNat
      ≤ a * 2 ^ (-((log2 a : Int) - (log2 d : Int))).toNat
  · rw [if_pos hc]
    refine ⟨(hcond _).mp hc, ?_⟩
    have : (2 : ℚ) ^ ((log2 a : Int) - (log2 d : Int) + 1)
        = (2 : ℚ) ^ ((log2 a : Int) + 1) / (2 : ℚ) ^ (log2 d : Int) := by
      rw [← zpow_sub₀ (by norm_num)]
      congr 1
      ring
    rw [this, div_lt_div_iff₀ hdq (zpow_pos h2 _)]
    calc (a : ℚ) * 2 ^ (log2 d : Int) ≤ a * d := by
          exact mul_le_mul_of_nonneg_left hd1q haq.le
      _ < 2 ^ ((log2 a : Int) + 1) * d := by
          exact mul_lt_mul_of_pos_right ha2q hdq
  · rw [if_neg hc]
    have hlt : (a : ℚ) / d < (2 : ℚ) ^ ((log2 a : Int) - (log2 d : Int)) :=
      lt_of_not_le (fun h => hc ((hcond _).mpr h))
    refine ⟨?_, by simpa using hlt⟩
    have : (2 : ℚ) ^ ((log2 a : Int) - (log2 d : Int) - 1)
        = (2 : ℚ) ^ (log2 a : Int) / (2 : ℚ) ^ ((log2 d : Int) + 1) := by
      rw [← zpow_sub₀ (by norm_num)]
      congr 1
      ring
    rw [this, div_le_div_iff₀ (zpow_pos h2 _) hdq]
    calc (2 : ℚ) ^ (log2 a : Int) * d ≤ a * d := by
          exact mul_le_mul_of_nonneg_right ha1q hdq.le
      _ ≤ a * 2 ^ ((log2 d : Int) + 1) := by
          exact mul_le_mul_of_nonneg_left hd2q.le haq.le

theorem JsNumber.rne_bounds (q : ℚ) : ⌊q⌋ ≤ rne q ∧ rne q ≤ ⌊q⌋ + 1 := by
  unfold rne
  split_ifs <;> constructor <;> omega

theorem JsNumber.rne_mono (q1 q2 : ℚ) (h : q1 ≤ q2) : rne q1 ≤ rne q2 := by
  have hf : ⌊q1⌋ ≤ ⌊q2⌋ := Int.floor_mono h
  rcases lt_or_eq_of_le hf with hlt | heq
  · have h1 := (JsNumber.rne_bounds q1).2
    have h2 := (JsNumber.rne_bounds q2).1
    omega
  · have hr : q1 - ⌊q1⌋ ≤ q2 - ⌊q2⌋ := by
      rw [heq]
      linarith
    unfold rne
    rw [heq] at hr ⊢
    split_ifs <;> first | omega | (exfalso; linarith)

theorem JsNumber.rne_intCast (n : Int) : rne (n : ℚ) = n := by
  unfold rne
  simp

theorem JsNumber.roundMantissa_eq (n d : Nat) (hd : 0 < d) :
    ((roundMantissa n d : Nat) : Int) = rne ((n : ℚ) / d) := by
  have hdq : (0 : ℚ) < d := by exact_mod_cast hd
  have hfloor : ⌊(n : ℚ) / d⌋ = ((n / d : Nat) : Int) := Rat.floor_natCast_div_natCast n d
  have hfrac : (n : ℚ) / d - ((n / d : Nat) : ℚ) = ((n % d : Nat) : ℚ) / d := by
    have h := Nat.div_add_mod n d
    have hq : (n : ℚ) = d * ((n / d : Nat) : ℚ) + ((n % d : Nat) : ℚ) := by exact_mod_cast h.symm
    field_simp
    linarith
  have h1 : (2 * (n % d) < d) ↔ ((n : ℚ) / d - ((n / d : Nat) : ℚ)) < 1 / 2 := by
    rw [hfrac, div_lt_div_iff₀ hdq (by norm_num)]
    constructor
    · intro h
      have : ((2 * (n % d) : Nat) : ℚ) < d := by exact_mod_cast h
      push_cast at this
      linarith
    · intro h
      have : ((2 * (n % d) : Nat) : ℚ) < d := by
        push_cast
        linarith
      exact_mod_cast this
  have h2 : (d < 2 * (n % d)) ↔ 1 / 2 < ((n : ℚ) / d - ((n / d : Nat) : ℚ)) := by
    rw [hfrac, div_lt_div_iff₀ (by norm_num) hdq]
    constructor
    · intro h
      have : (d : ℚ) < ((2 * (n % d) : Nat) : ℚ) := by exact_mod_cast h
      push_cast at this
      linarith
    · intro h
      have : (d : ℚ) < ((2 * (n % d) : Nat) : ℚ) := by
        push_cast
        linarith
      exact_mod_cast this
  have h3 : (n / d) % 2 = 0 ↔ ((n / d : Nat) : Int) % 2 = 0 := by omega
  unfold roundMantissa rne
  simp only [hfloor, Int.cast_natCast]
  simp only [← h1, ← h2, ← h3]
  split_ifs <;> simp

theorem JsNumber.pow_mul_zpow (n : Nat) (e : Int) :
    ((2 ^ n : Int) : ℚ) * (2 : ℚ) ^ e = (2 : ℚ) ^ (e + n) := by
  have h : ((2 ^ n : Int) : ℚ) = (2 : ℚ) ^ (n : Int) := by
    push_cast
    rw [zpow_natCast]
  rw [h, ← zpow_add₀ (by norm_num), add_comm]

theorem JsNumber.scale53 (b : Int) :
    ((2 ^ 53 : Int) : ℚ) * (2 : ℚ) ^ (b - 52) = (2 : ℚ) ^ (b + 1) := by
  rw [JsNumber.pow_mul_zpow]
  congr 1
  push_cast
  ring

theorem JsNumber.scale52 (b : Int) :
    ((2 ^ 52 : Int) : ℚ) * (2 : ℚ) ^ (b - 52) = (2 : ℚ) ^ b := by
  rw [JsNumber.pow_mul_zpow]
  congr 1
  push_cast
  ring

theorem JsNumber.roundMagnitude_toRat (a d : Nat) (hd : 0 < d) :
    (roundMagnitude a d).toRat
      = (rne (((a : ℚ) / d) / (2 : ℚ) ^ (binade a d - 52)) : ℚ) * (2 : ℚ) ^ (binade a d - 52) := by
  have hdq : (0 : ℚ) < d := by exact_mod_cast hd
  have h2 : (0 : ℚ) < 2 := by norm_num
  have hD : 0 < d * 2 ^ (binade a d - 52).toNat := Nat.mul_pos hd (Nat.two_pow_pos _)
  have hm := JsNumber.roundMantissa_eq (a * 2 ^ (-(binade a d - 52)).toNat)
    (d * 2 ^ (binade a d - 52).toNat) hD
  have harg : ((a * 2 ^ (-(binade a d - 52)).toNat : Nat) : ℚ)
      / ((d * 2 ^ (binade a d - 52).toNat : Nat) : ℚ)
      = ((a : ℚ) / d) / (2 : ℚ) ^ (binade a d - 52) := by
    rw [← JsNumber.twoPow_split (binade a d - 52)]
    push_cast
    field_simp
  rw [harg] at hm
  unfold roundMagnitude toRat
  simp only
  rw [← hm, ← JsNumber.twoPow_split (binade a d - 52)]
  push_cast
  field_simp

theorem JsNumber.roundMagnitude_finite (a d : Nat) : (roundMagnitude a d).Finite := by
  unfold roundMagnitude JsNumber.Finite
  simp

theorem JsNumber.roundMagnitude_mono (a1 d1 a2 d2 : Nat) (ha1 : 0 < a1) (hd1 : 0 < d1)
    (ha2 : 0 < a2) (hd2 : 0 < d2) (h : (a1 : ℚ) / d1 ≤ (a2 : ℚ) / d2) :
    (roundMagnitude a1 d1).toRat ≤ (roundMagnitude a2 d2).toRat := by
  obtain ⟨hl1, hu1⟩ := JsNumber.binade_spec a1 d1 ha1 hd1
  obtain ⟨hl2, hu2⟩ := JsNumber.binade_spec a2 d2 ha2 hd2
  have h2 : (1 : ℚ) < 2 := by norm_num
  have h0 : (0 : ℚ) < 2 := by norm_num
  rw [JsNumber.roundMagnitude_toRat a1 d1 hd1, JsNumber.roundMagnitude_toRat a2 d2 hd2]
  have hb : binade a1 d1 < binade a2 d2 + 1 :=
    (zpow_lt_zpow_iff_right₀ h2).mp (lt_of_le_of_lt (le_trans hl1 h) hu2)
  rcases lt_or_eq_of_le (Int.lt_add_one_iff.mp hb) with hlt | heq
  · -- different binades: the power of two between them separates the results
    have hs1 : (0 : ℚ) < (2 : ℚ) ^ (binade a1 d1 - 52) := zpow_pos h0 _
    have hs2 : (0 : ℚ) < (2 : ℚ) ^ (binade a2 d2 - 52) := zpow_pos h0 _
    have hq1 : ((a1 : ℚ) / d1) / (2 : ℚ) ^ (binade a1 d1 - 52) ≤ ((2 ^ 53 : Int) : ℚ) := by
      rw [div_le_iff₀ hs1]
      rw [JsNumber.scale53]
      exact hu1.le
    have hq2 : ((2 ^ 52 : Int) : ℚ) ≤ ((a2 : ℚ) / d2) / (2 : ℚ) ^ (binade a2 d2 - 52) := by
      rw [le_div_iff₀ hs2]
      rw [JsNumber.scale52]
      exact hl2
    have hr1 := JsNumber.rne_mono _ _ hq1
    have hr2 := JsNumber.rne_mono _ _ hq2
    rw [JsNumber.rne_intCast] at hr1 hr2
    have hr1q : (rne (((a1 : ℚ) / d1) / (2 : ℚ) ^ (binade a1 d1 - 52)) : ℚ) ≤ ((2 ^ 53 : Int) : ℚ) := by
      exact_mod_cast hr1
    have hr2q : ((2 ^ 52 : Int) : ℚ) ≤ (rne (((a2 : ℚ) / d2) / (2 : ℚ) ^ (binade a2 d2 - 52)) : ℚ) := by
      exact_mod_cast hr2
    have hmid : ((2 ^ 53 : Int) : ℚ) * (2 : ℚ) ^ (binade a1 d1 - 52)
        ≤ ((2 ^ 52 : Int) : ℚ) * (2 : ℚ) ^ (binade a2 d2 - 52) := by
      rw [JsNumber.scale53, JsNumber.scale52]
      exact (zpow_le_zpow_iff_right₀ h2).mpr (by omega)
    calc (rne (((a1 : ℚ) / d1) / (2 : ℚ) ^ (binade a1 d1 - 52)) : ℚ) * (2 : ℚ) ^ (binade a1 d1 - 52)
        ≤ ((2 ^ 53 : Int) : ℚ) * (2 : ℚ) ^ (binade a1 d1 - 52) :=
          mul_le_mul_of_nonneg_right hr1q hs1.le
      _ ≤ ((2 ^ 52 : Int) : ℚ) * (2 : ℚ) ^ (binade a2 d2 - 52) := hmid
      _ ≤ (rne (((a2 : ℚ) / d2) / (2 : ℚ) ^ (binade a2 d2 - 52)) : ℚ)
            * (2 : ℚ) ^ (binade a2 d2 - 52) :=
          mul_le_mul_of_nonneg_right hr2q hs2.le
  · -- the same binade: rounding to the same grid is monotone
    rw [heq]
    have hs : (0 : ℚ) < (2 : ℚ) ^ (binade a2 d2 - 52) := zpow_pos h0 _
    have hq : ((a1 : ℚ) / d1) / (2 : ℚ) ^ (binade a2 d2 - 52)
        ≤ ((a2 : ℚ) / d2) / (2 : ℚ) ^ (binade a2 d2 - 52) :=
      div_le_div_of_nonneg_right h hs.le
    have hr := JsNumber.rne_mono _ _ hq
    have hrq : (rne (((a1 : ℚ) / d1) / (2 : ℚ) ^ (binade a2 d2 - 52)) : ℚ)
        ≤ (rne (((a2 : ℚ) / d2) / (2 : ℚ) ^ (binade a2 d2 - 52)) : ℚ) := by
      exact_mod_cast hr
    exact mul_le_mul_of_nonneg_right hrq hs.le

theorem JsNumber.roundMagnitude_pos (a d : Nat) (ha : 0 < a) (hd : 0 < d) :
    0 < (roundMagnitude a d).toRat := by
  obtain ⟨hl, _⟩ := JsNumber.binade_spec a d ha hd
  have h0 : (0 : ℚ) < 2 := by norm_num
  have hs : (0 : ℚ) < (2 : ℚ) ^ (binade a d - 52) := zpow_pos h0 _
  rw [JsNumber.roundMagnitude_toRat a d hd]
  have hq : ((2 ^ 52 : Int) : ℚ) ≤ ((a : ℚ) / d) / (2 : ℚ) ^ (binade a d - 52) := by
    rw [le_div_iff₀ hs]
    rw [JsNumber.scale52]
    exact hl
  have hr := JsNumber.rne_mono _ _ hq
  rw [JsNumber.rne_intCast] at hr
  have hrq : (0 : ℚ) < (rne (((a : ℚ) / d) / (2 : ℚ) ^ (binade a d - 52)) : ℚ) := by
    have : (0 : Int) < rne (((a : ℚ) / d) / (2 : ℚ) ^ (binade a d - 52)) :=
      lt_of_lt_of_le (by norm_num) hr
    exact_mod_cast this
  exact mul_pos hrq hs

theorem JsNumber.toRat_nonneg_iff (x : JsNumber) (hx : x.Finite) : 0 ≤ x.toRat ↔ 0 ≤ x.num := by
  have hd : (0 : ℚ) < x.den := by
    have : 0 < x.den := Nat.pos_of_ne_zero hx
    exact_mod_cast this
  unfold toRat
  rw [le_div_iff₀ hd, zero_mul]
  exact_mod_cast Iff.rfl

theorem JsNumber.toRat_natAbs (x : JsNumber) (h : 0 ≤ x.num) :
    ((x.num.natAbs : Nat) : ℚ) / x.den = x.toRat := by
  unfold toRat
  have h2 : ((x.num.natAbs : Nat) : ℚ) = (x.num : ℚ) := by
    rw [Nat.cast_natAbs, abs_of_nonneg h]
  rw [h2]

theorem JsNumber.round64_finite (x : JsNumber) : (round64 x).Finite := by
  unfold round64
  split_ifs
  · simp [JsNumber.Finite]
  · exact JsNumber.roundMagnitude_finite _ _
  · exact JsNumber.roundMagnitude_finite _ _

theorem JsNumber.round64_of_zero (x : JsNumber) (h : x.num = 0) : (round64 x).toRat = 0 := by
  simp [round64, h, toRat]

theorem JsNumber.round64_of_pos (x : JsNumber) (h : 0 < x.num) :
    round64 x = roundMagnitude x.num.natAbs x.den := by
  have hne : x.num ≠ 0 := by omega
  simp [round64, hne, h]

theorem JsNumber.round64_nonneg (x : JsNumber) (hx : x.Finite) (h0 : 0 ≤ x.toRat) :
    0 ≤ (round64 x).toRat := by
  have hn := (JsNumber.toRat_nonneg_iff x hx).mp h0
  rcases lt_or_eq_of_le hn with hpos | hz
  · rw [JsNumber.round64_of_pos x hpos]
    exact (JsNumber.roundMagnitude_pos _ _ (by omega) (Nat.pos_of_ne_zero hx)).le
  · rw [JsNumber.round64_of_zero x hz.symm]

theorem JsNumber.round64_mono (x y : JsNumber) (hx : x.Finite) (hy : y.Finite)
    (h0 : 0 ≤ x.toRat) (h : x.toRat ≤ y.toRat) : (round64 x).toRat ≤ (round64 y).toRat := by
  have hnx := (JsNumber.toRat_nonneg_iff x hx).mp h0
  have hny := (JsNumber.toRat_nonneg_iff y hy).mp (le_trans h0 h)
  rcases lt_or_eq_of_le hnx with hpos | hz
  · have hxpos : 0 < x.toRat := by
      rw [← JsNumber.toRat_natAbs x hnx]
      have h1 : (0 : ℚ) < (x.num.natAbs : Nat) := by
        have : 0 < x.num.natAbs := by omega
        exact_mod_cast this
      have h2 : (0 : ℚ) < x.den := by
        have : 0 < x.den := Nat.pos_of_ne_zero hx
        exact_mod_cast this
      exact div_pos h1 h2
    have hypos : 0 < y.num := by
      rcases lt_or_eq_of_le hny with h1 | h1
      · exact h1
      · exfalso
        have : y.toRat = 0 := by simp [toRat, ← h1]
        linarith
    rw [JsNumber.round64_of_pos x hpos, JsNumber.round64_of_pos y hypos]
    apply JsNumber.roundMagnitude_mono _ _ _ _ (by omega) (Nat.pos_of_ne_zero hx) (by omega)
      (Nat.pos_of_ne_zero hy)
    rw [JsNumber.toRat_natAbs x hnx, JsNumber.toRat_natAbs y hny]
    exact h
  · rw [JsNumber.round64_of_zero x hz.symm]
    exact JsNumber.round64_nonneg y hy (le_trans h0 h)

theorem JsNumber.round64_one_tenth :
    round64 { num := 1, den := 10 }
      = { num := 7205759403792794, den := 72057594037927936 } := by
  decide

theorem JsNumber.round64_eq_fl (x : JsNumber) (hx : x.Finite) (h0 : 0 ≤ x.toRat) :
    (round64 x).toRat = fl x.toRat := by
  have hq : ({ num := x.toRat.num, den := x.toRat.den } : JsNumber).toRat = x.toRat := by
    simp [toRat, Rat.num_div_den]
  have hf : ({ num := x.toRat.num, den := x.toRat.den } : JsNumber).Finite := x.toRat.den_nz
  unfold fl
  apply le_antisymm
  · exact JsNumber.round64_mono _ _ hx hf h0 (by rw [hq])
  · exact JsNumber.round64_mono _ _ hf hx (by rw [hq]; exact h0) (by rw [hq])

theorem JsNumber.fl_mono (p q : ℚ) (h0 : 0 ≤ p) (h : p ≤ q) : fl p ≤ fl q := by
  have hp : ({ num := p.num, den := p.den } : JsNumber).toRat = p := by
    simp [toRat, Rat.num_div_den]
  have hq : ({ num := q.num, den := q.den } : JsNumber).toRat = q := by
    simp [toRat, Rat.num_div_den]
  unfold fl
  exact JsNumber.round64_mono _ _ p.den_nz q.den_nz (by rw [hp]; exact h0) (by rw [hp, hq]; exact h)

theorem JsNumber.fl_zero : fl 0 = 0 := by
  unfold fl
  exact JsNumber.round64_of_zero _ (by simp)

theorem JsNumber.fl_one : fl 1 = 1 := by
  have h : round64 { num := 1, den := 1 } = { num := 4503599627370496, den := 4503599627370496 } := by
    decide
  unfold fl
  simp only [Rat.num_ofNat, Rat.den_ofNat, h, toRat]
  norm_num

theorem JsNumber.fl_nonneg (p : ℚ) (h0 : 0 ≤ p) : 0 ≤ fl p := by
  have := JsNumber.fl_mono 0 p (le_refl 0) h0
  rwa [JsNumber.fl_zero] at this

theorem JsNumber.sub_toRat (a b : JsNumber) (ha : a.Finite) (hb : b.Finite)
    (h : b.toRat ≤ a.toRat) : (a.sub b).toRat = fl (a.toRat - b.toRat) := by
  have hda : (a.den : ℚ) ≠ 0 := by exact_mod_cast ha
  have hdb : (b.den : ℚ) ≠ 0 := by exact_mod_cast hb
  have hval : ({ num := a.num * b.den - b.num * a.den, den := a.den * b.den } : JsNumber).toRat
      = a.toRat - b.toRat := by
    unfold toRat
    push_cast
    field_simp
    ring
  have hfin : ({ num := a.num * b.den - b.num * a.den, den := a.den * b.den } : JsNumber).Finite :=
    Nat.mul_ne_zero ha hb
  unfold sub
  rw [JsNumber.round64_eq_fl _ hfin (by rw [hval]; linarith), hval]

theorem JsNumber.mul_toRat (a b : JsNumber) (ha : a.Finite) (hb : b.Finite)
    (h : 0 ≤ a.toRat * b.toRat) : (a.mul b).toRat = fl (a.toRat * b.toRat) := by
  have hda : (a.den : ℚ) ≠ 0 := by exact_mod_cast ha
  have hdb : (b.den : ℚ) ≠ 0 := by exact_mod_cast hb
  have hval : ({ num := a.num * b.num, den := a.den * b.den } : JsNumber).toRat
      = a.toRat * b.toRat := by
    unfold toRat
    push_cast
    field_simp
  have hfin : ({ num := a.num * b.num, den := a.den * b.den } : JsNumber).Finite :=
    Nat.mul_ne_zero ha hb
  unfold mul
  rw [JsNumber.round64_eq_fl _ hfin (by rw [hval]; exact h), hval]

theorem JsNumber.div_toRat (a b : JsNumber) (ha : a.Finite) (hb : b.Finite)
    (h0 : 0 ≤ a.toRat) (hpos : 0 < b.toRat) :
    ∃ q, a.div b = some q ∧ q.Finite ∧ q.toRat = fl (a.toRat / b.toRat) := by
  have hda : (a.den : ℚ) ≠ 0 := by exact_mod_cast ha
  have hdb : (b.den : ℚ) ≠ 0 := by exact_mod_cast hb
  have hbn : 0 < b.num := by
    have h1 := (JsNumber.toRat_nonneg_iff b hb).mp hpos.le
    rcases lt_or_eq_of_le h1 with h2 | h2
    · exact h2
    · exfalso
      have : b.toRat = 0 := by simp [toRat, ← h2]
      linarith
  have hbq : (b.num : ℚ) ≠ 0 := by
    have : b.num ≠ 0 := by omega
    exact_mod_cast this
  have habs : ((b.num.natAbs : Nat) : ℚ) = (b.num : ℚ) := by
    rw [Nat.cast_natAbs, abs_of_nonneg hbn.le]
  have hval : ({ num := a.num * b.den, den := a.den * b.num.natAbs } : JsNumber).toRat
      = a.toRat / b.toRat := by
    unfold toRat
    push_cast
    rw [habs]
    field_simp
  have hfin : ({ num := a.num * b.den, den := a.den * b.num.natAbs } : JsNumber).Finite :=
    Nat.mul_ne_zero ha (by omega)
  have hne : b.num ≠ 0 := by omega
  refine ⟨round64 { num := a.num * b.den, den := a.den * b.num.natAbs }, ?_,
    JsNumber.round64_finite _, ?_⟩
  · simp [div, hbn, hne]
  · rw [JsNumber.round64_eq_fl _ hfin (by rw [hval]; exact div_nonneg h0 hpos.le), hval]

theorem JsNumber.lt_iff (a b : JsNumber) (ha : a.Finite) (hb : b.Finite) :
    a.lt b = true ↔ a.toRat < b.toRat := by
  have hda : (0 : ℚ) < a.den := by
    have : 0 < a.den := Nat.pos_of_ne_zero ha
    exact_mod_cast this
  have hdb : (0 : ℚ) < b.den := by
    have : 0 < b.den := Nat.pos_of_ne_zero hb
    exact_mod_cast this
  unfold lt toRat
  rw [decide_eq_true_iff, div_lt_div_iff₀ hda hdb]
  constructor
  · intro h
    exact_mod_cast h
  · intro h
    exact_mod_cast h

theorem JsNumber.one_toRat : one.toRat = 1 := by
  simp [one, toRat]

theorem JsNumber.min_one (q : JsNumber) (hq : q.Finite) :
    (JsNumber.min q one).Finite ∧ (JsNumber.min q one).toRat = Min.min q.toRat 1 := by
  have hone : one.Finite := by simp [one, JsNumber.Finite]
  unfold JsNumber.min
  by_cases h : q.lt one = true
  · rw [if_pos h]
    have := (JsNumber.lt_iff q one hq hone).mp h
    rw [JsNumber.one_toRat] at this
    exact ⟨hq, (min_eq_left this.le).symm⟩
  · rw [if_neg h]
    have h2 : ¬ q.toRat < 1 := by
      intro h3
      rw [← JsNumber.one_toRat] at h3
      exact h ((JsNumber.lt_iff q one hq hone).mpr h3)
    exact ⟨hone, by rw [JsNumber.one_toRat]; exact (min_eq_right (not_lt.mp h2)).symm⟩

theorem JsNumber.floor_eq (a : JsNumber) : a.floor = ⌊a.toRat⌋ := by
  unfold floor toRat
  exact (Rat.floor_intCast_div_natCast a.num a.den).symm

end Doubles

section Counter

open JsNumber Utils

theorem JsNumber.sub_finite (a b : JsNumber) : (a.sub b).Finite :=
  JsNumber.round64_finite _

theorem JsNumber.mul_finite (a b : JsNumber) : (a.mul b).Finite :=
  JsNumber.round64_finite _

theorem JsNumber.one_finite : one.Finite := by
  simp [one, JsNumber.Finite]

theorem JsNumber.div_some (a b : JsNumber) (hb : b.num ≠ 0) :
    ∃ q, a.div b = some q ∧ q.Finite := by
  unfold div
  rw [if_neg hb]
  split_ifs
  · exact ⟨_, rfl, JsNumber.round64_finite _⟩
  · exact ⟨_, rfl, JsNumber.round64_finite _⟩

theorem JsNumber.num_ne_zero_of_pos (b : JsNumber) (hpos : 0 < b.toRat) :
    b.num ≠ 0 := by
  intro h
  have : b.toRat = 0 := by simp [toRat, h]
  linarith

theorem JsNumber.powRounded_powLike : PowLike powRounded := by
  have hval : ∀ x : JsNumber, x.Finite →
      (powRounded x 4).toRat = fl (x.toRat ^ 4) ∨ x.toRat < 0 := by
    intro x hx
    by_cases h0 : 0 ≤ x.toRat
    · left
      have hd : (x.den : ℚ) ≠ 0 := by exact_mod_cast hx
      have hv : ({ num := x.num ^ 4, den := x.den ^ 4 } : JsNumber).toRat = x.toRat ^ 4 := by
        unfold toRat
        push_cast
        rw [div_pow]
      have hfin : ({ num := x.num ^ 4, den := x.den ^ 4 } : JsNumber).Finite :=
        pow_ne_zero 4 hx
      unfold powRounded
      rw [JsNumber.round64_eq_fl _ hfin (by rw [hv]; positivity), hv]
    · right
      exact lt_of_not_le h0
  constructor
  · intro x hx h0 h1
    rcases hval x hx with h | h
    · refine ⟨JsNumber.round64_finite _, ?_, ?_⟩
      · rw [h]
        exact JsNumber.fl_nonneg _ (by positivity)
      · rw [h, ← JsNumber.fl_one]
        exact JsNumber.fl_mono _ _ (by positivity) (pow_le_one₀ h0 h1)
    · linarith
  · intro x y hx hy h0 hxy _
    rcases hval x hx with h | h
    · rcases hval y hy with h2 | h2
      · rw [h, h2]
        exact JsNumber.fl_mono _ _ (by positivity) (pow_le_pow_left₀ h0 hxy 4)
      · linarith
    · linarith

theorem Utils.progressOf_finite (duration startTime t : JsNumber)
    (hpositive : 0 < duration.toRat) :
    ∃ p, progressOf duration startTime t = some p ∧ p.Finite ∧ p.toRat ≤ 1 := by
  obtain ⟨q, hq, hqf⟩ := JsNumber.div_some (t.sub startTime) duration
    (JsNumber.num_ne_zero_of_pos duration hpositive)
  have hm := JsNumber.min_one q hqf
  refine ⟨JsNumber.min q one, by simp [progressOf, hq], hm.1, ?_⟩
  rw [hm.2]
  exact min_le_right _ _

theorem Utils.progressOf_value (duration startTime t : JsNumber) (hduration : duration.Finite)
    (hpositive : 0 < duration.toRat) (h0 : 0 ≤ (t.sub startTime).toRat) :
    ∃ p, progressOf duration startTime t = some p ∧ p.Finite ∧
      p.toRat = Min.min (fl ((t.sub startTime).toRat / duration.toRat)) 1 := by
  obtain ⟨q, hq, hqf, hqv⟩ := JsNumber.div_toRat (t.sub startTime) duration
    (JsNumber.sub_finite _ _) hduration h0 hpositive
  have hm := JsNumber.min_one q hqf
  refine ⟨JsNumber.min q one, by simp [progressOf, hq], hm.1, ?_⟩
  rw [hm.2, hqv]

theorem Utils.currentOf_value (pow : JsNumber → Nat → JsNumber) (hpow : PowLike pow)
    (target p : JsNumber) (htarget : target.Finite) (h0t : 0 ≤ target.toRat) (hp : p.Finite)
    (h0 : 0 ≤ p.toRat) (h1 : p.toRat ≤ 1) :
    (one.sub p).Finite ∧ (one.sub p).toRat = fl (1 - p.toRat) ∧
      0 ≤ (one.sub p).toRat ∧ (one.sub p).toRat ≤ 1 ∧
      0 ≤ (pow (one.sub p) 4).toRat ∧ (pow (one.sub p) 4).toRat ≤ 1 ∧
      (currentOf pow target p).toRat
        = ((⌊fl (fl (1 - (pow (one.sub p) 4).toRat) * target.toRat)⌋ : Int) : ℚ) := by
  have hs : (one.sub p).toRat = fl (1 - p.toRat) := by
    rw [JsNumber.sub_toRat one p JsNumber.one_finite hp (by rw [JsNumber.one_toRat]; exact h1),
      JsNumber.one_toRat]
  have hs0 : 0 ≤ (one.sub p).toRat := by
    rw [hs]
    exact JsNumber.fl_nonneg _ (by linarith)
  have hs1 : (one.sub p).toRat ≤ 1 := by
    have h := JsNumber.fl_mono (1 - p.toRat) 1 (by linarith) (by linarith)
    rw [JsNumber.fl_one] at h
    rw [hs]
    exact h
  obtain ⟨hpf, hp0, hp1⟩ := hpow.1 (one.sub p) (JsNumber.sub_finite _ _) hs0 hs1
  have he : (one.sub (pow (one.sub p) 4)).toRat = fl (1 - (pow (one.sub p) 4).toRat) := by
    rw [JsNumber.sub_toRat one _ JsNumber.one_finite hpf (by rw [JsNumber.one_toRat]; exact hp1),
      JsNumber.one_toRat]
  have he0 : 0 ≤ (one.sub (pow (one.sub p) 4)).toRat := by
    rw [he]
    exact JsNumber.fl_nonneg _ (by linarith)
  refine ⟨JsNumber.sub_finite _ _, hs, hs0, hs1, hp0, hp1, ?_⟩
  unfold currentOf
  simp only
  rw [JsNumber.floor_eq, JsNumber.mul_toRat _ _ (JsNumber.sub_finite _ _) htarget
    (mul_nonneg he0 h0t), he]
  simp [toRat]

theorem Utils.animate_of_progress (pow : JsNumber → Nat → JsNumber)
    (target duration startTime : JsNumber) (c : CounterAnimation) (t p : JsNumber)
    (hp : progressOf duration startTime t = some p) :
    animate pow target duration startTime c t
      = some (if p.lt one then
          { textContent := currentOf pow target p, frameRequested := true }
        else { textContent := target, frameRequested := false }) := by
  unfold animate
  simp only [hp]
  split_ifs <;> rfl

theorem Utils.currentOf_range (pow : JsNumber → Nat → JsNumber) (hpow : PowLike pow)
    (target p : JsNumber) (htarget : target.Finite) (hnat : ∃ n : Nat, target.toRat = n)
    (hdouble : fl target.toRat = target.toRat) (hp : p.Finite) (h0 : 0 ≤ p.toRat)
    (h1 : p.toRat ≤ 1) :
    0 ≤ (currentOf pow target p).toRat ∧ (currentOf pow target p).toRat ≤ target.toRat ∧
      ∃ k : Int, (currentOf pow target p).toRat = k := by
  obtain ⟨n, hn⟩ := hnat
  have h0t : 0 ≤ target.toRat := by
    rw [hn]
    exact Nat.cast_nonneg n
  obtain ⟨_, _, _, _, hp0, hp1, hval⟩ :=
    Utils.currentOf_value pow hpow target p htarget h0t hp h0 h1
  have he0 : 0 ≤ fl (1 - (pow (one.sub p) 4).toRat) := JsNumber.fl_nonneg _ (by linarith)
  have he1 : fl (1 - (pow (one.sub p) 4).toRat) ≤ 1 := by
    have h := JsNumber.fl_mono (1 - (pow (one.sub p) 4).toRat) 1 (by linarith) (by linarith)
    rwa [JsNumber.fl_one] at h
  have hprod0 : 0 ≤ fl (fl (1 - (pow (one.sub p) 4).toRat) * target.toRat) :=
    JsNumber.fl_nonneg _ (mul_nonneg he0 h0t)
  have hprod1 : fl (fl (1 - (pow (one.sub p) 4).toRat) * target.toRat) ≤ target.toRat := by
    have h := JsNumber.fl_mono (fl (1 - (pow (one.sub p) 4).toRat) * target.toRat) target.toRat
      (mul_nonneg he0 h0t) (by nlinarith)
    rwa [hdouble] at h
  rw [hval]
  refine ⟨?_, ?_, _, rfl⟩
  · exact_mod_cast Int.floor_nonneg.mpr hprod0
  · rw [hn] at hprod1 ⊢
    have : ⌊fl (fl (1 - (pow (one.sub p) 4).toRat) * (n : ℚ))⌋ ≤ (n : Int) := by
      have h := Int.floor_mono hprod1
      simpa using h
    exact_mod_cast this

theorem Utils.currentOf_mono (pow : JsNumber → Nat → JsNumber) (hpow : PowLike pow)
    (target p q : JsNumber) (htarget : target.Finite) (h0t : 0 ≤ target.toRat)
    (hp : p.Finite) (hq : q.Finite) (h0 : 0 ≤ p.toRat) (hpq : p.toRat ≤ q.toRat)
    (h1 : q.toRat ≤ 1) :
    (currentOf pow target p).toRat ≤ (currentOf pow target q).toRat := by
  obtain ⟨hpf, hps, hps0, hps1, hpp0, hpp1, hpv⟩ :=
    Utils.currentOf_value pow hpow target p htarget h0t hp h0 (le_trans hpq h1)
  obtain ⟨hqf, hqs, hqs0, hqs1, hqp0, hqp1, hqv⟩ :=
    Utils.currentOf_value pow hpow target q htarget h0t hq (le_trans h0 hpq) h1
  have hsub : (one.sub q).toRat ≤ (one.sub p).toRat := by
    rw [hps, hqs]
    exact JsNumber.fl_mono _ _ (by linarith) (by linarith)
  have hpw : (pow (one.sub q) 4).toRat ≤ (pow (one.sub p) 4).toRat :=
    hpow.2 _ _ hqf hpf hqs0 hsub hps1
  have hease : fl (1 - (pow (one.sub p) 4).toRat) ≤ fl (1 - (pow (one.sub q) 4).toRat) :=
    JsNumber.fl_mono _ _ (by linarith) (by linarith)
  have he0 : 0 ≤ fl (1 - (pow (one.sub p) 4).toRat) := JsNumber.fl_nonneg _ (by linarith)
  have hprod : fl (fl (1 - (pow (one.sub p) 4).toRat) * target.toRat)
      ≤ fl (fl (1 - (pow (one.sub q) 4).toRat) * target.toRat) :=
    JsNumber.fl_mono _ _ (mul_nonneg he0 h0t) (mul_le_mul_of_nonneg_right hease h0t)
  rw [hpv, hqv]
  exact_mod_cast Int.floor_mono hprod

theorem Utils.progress_of_frame (duration startTime t : JsNumber) (hduration : duration.Finite)
    (hpositive : 0 < duration.toRat) (hstart : startTime.Finite) (ht : t.Finite)
    (hle : startTime.toRat ≤ t.toRat) :
    ∃ p, progressOf duration startTime t = some p ∧ p.Finite ∧ 0 ≤ p.toRat ∧ p.toRat ≤ 1 ∧
      p.toRat = Min.min (fl (fl (t.toRat - startTime.toRat) / duration.toRat)) 1 := by
  have he : (t.sub startTime).toRat = fl (t.toRat - startTime.toRat) :=
    JsNumber.sub_toRat t startTime ht hstart hle
  have he0 : 0 ≤ (t.sub startTime).toRat := by
    rw [he]
    exact JsNumber.fl_nonneg _ (by linarith)
  obtain ⟨p, hp, hpf, hpv⟩ := Utils.progressOf_value duration startTime t hduration hpositive he0
  refine ⟨p, hp, hpf, ?_, ?_, ?_⟩
  · rw [hpv]
    exact le_min (JsNumber.fl_nonneg _ (div_nonneg he0 hpositive.le)) (by norm_num)
  · rw [hpv]
    exact min_le_right _ _
  · rw [hpv, he]

theorem Utils.framesFrom_done (pow : JsNumber → Nat → JsNumber)
    (target duration startTime : JsNumber) (times : List JsNumber) :
    framesFrom pow target duration startTime { textContent := target, frameRequested := false }
      times = some { textContent := target, frameRequested := false } := by
  induction times with
  | nil => rfl
  | cons t times ih =>
    simp only [framesFrom, frame, Bool.false_eq_true, if_false]
    exact ih

theorem JsNumber.toRat_eq_of_cross (a b : JsNumber) (ha : a.Finite) (hb : b.Finite)
    (h : a.num * b.den = b.num * a.den) : a.toRat = b.toRat := by
  have hda : (a.den : ℚ) ≠ 0 := by exact_mod_cast ha
  have hdb : (b.den : ℚ) ≠ 0 := by exact_mod_cast hb
  unfold toRat
  rw [div_eq_div_iff hda hdb]
  exact_mod_cast h

theorem JsNumber.toRat_le_of_not_lt (a b : JsNumber) (ha : a.Finite) (hb : b.Finite)
    (h : a.lt b = false) : b.toRat ≤ a.toRat := by
  apply le_of_not_lt
  intro hlt
  rw [(JsNumber.lt_iff a b ha hb).mpr hlt] at h
  cases h

/-- C25 (amended): for a non-negative integer target, a positive duration and a `Math.pow` that
on bases between 0 and 1 is non-decreasing with fourth powers between 0 and 1, every frame of
`Utils.animateCounter` leaves either a further frame requested or exactly `target` shown with no
frame requested; for frames not earlier than the start, the number shown, which is computed in
double precision, is an integer between 0 and target and does not decrease as the frame time
grows; a frame whose elapsed time has reached the duration shows exactly `target` and requests
no further frame, and a run that contains such a frame ends showing exactly `target`; while a further frame is
requested the number shown is `floor((1 - pow(1 - p, 4)) * target)` with
`p = min(elapsed / duration, 1)`, each subtraction, division and product rounded to double
precision (`fl`). A number is a fraction whose value is a double, which for the target is the
hypothesis `hnumber`. -/
theorem animateCounter_stays_within_target_and_ends_on_it (pow : JsNumber → Nat → JsNumber)
    (hpow : PowLike pow) (target duration startTime : JsNumber) (htarget : target.Finite)
    (hnat : ∃ n : Nat, target.toRat = n) (hnumber : (round64 target).toRat = target.toRat)
    (hduration : duration.Finite) (hpositive : 0 < duration.toRat)
    (hstart : startTime.Finite) :
    (∀ (c : CounterAnimation) (t : JsNumber), ∃ c1,
      animate pow target duration startTime c t = some c1 ∧
        (c1.frameRequested = true ∨ c1 = { textContent := target, frameRequested := false })) ∧
    (∀ (c c1 : CounterAnimation) (t : JsNumber), t.Finite → startTime.toRat ≤ t.toRat →
      animate pow target duration startTime c t = some c1 →
        0 ≤ c1.textContent.toRat ∧ c1.textContent.toRat ≤ target.toRat ∧
          ∃ k : Int, c1.textContent.toRat = k) ∧
    (∀ (c1 c2 r1 r2 : CounterAnimation) (t1 t2 : JsNumber), t1.Finite → t2.Finite →
      startTime.toRat ≤ t1.toRat → t1.toRat ≤ t2.toRat →
      animate pow target duration startTime c1 t1 = some r1 →
      animate pow target duration startTime c2 t2 = some r2 →
        r1.textContent.toRat ≤ r2.textContent.toRat) ∧
    (∀ (c : CounterAnimation) (t : JsNumber), duration.toRat ≤ (t.sub startTime).toRat →
      animate pow target duration startTime c t
        = some { textContent := target, frameRequested := false }) ∧
    (∀ (c : CounterAnimation) (times : List JsNumber),
      (∃ t ∈ times, duration.toRat ≤ (t.sub startTime).toRat) →
      runFrames pow target duration startTime c times
        = some { textContent := target, frameRequested := false }) ∧
    (∀ (c c1 : CounterAnimation) (t : JsNumber), t.Finite → startTime.toRat ≤ t.toRat →
      animate pow target duration startTime c t = some c1 → c1.frameRequested = true →
        ∃ p : JsNumber, progressOf duration startTime t = some p ∧
          p.toRat = Min.min (fl (fl (t.toRat - startTime.toRat) / duration.toRat)) 1 ∧
          p.toRat < 1 ∧ (one.sub p).toRat = fl (1 - p.toRat) ∧
          c1.textContent.toRat
            = ((⌊fl (fl (1 - (pow (one.sub p) 4).toRat) * target.toRat)⌋ : Int) : ℚ)) := by
  obtain ⟨n, hn⟩ := hnat
  have h0t : 0 ≤ target.toRat := by
    rw [hn]
    exact Nat.cast_nonneg n
  have hdouble : fl target.toRat = target.toRat := by
    rw [← JsNumber.round64_eq_fl target htarget h0t, hnumber]
  have hstep : ∀ (c : CounterAnimation) (t : JsNumber), ∃ c1,
      animate pow target duration startTime c t = some c1 ∧
        (c1.frameRequested = true ∨ c1 = { textContent := target, frameRequested := false }) := by
    intro c t
    obtain ⟨p, hp, _, _⟩ := Utils.progressOf_finite duration startTime t hpositive
    rw [Utils.animate_of_progress pow target duration startTime c t p hp]
    by_cases hlt : p.lt one = true
    · exact ⟨_, rfl, Or.inl (by simp [hlt])⟩
    · exact ⟨_, rfl, Or.inr (by simp [hlt])⟩
  have hdone : ∀ (c : CounterAnimation) (t : JsNumber),
      duration.toRat ≤ (t.sub startTime).toRat →
      animate pow target duration startTime c t
        = some { textContent := target, frameRequested := false } := by
    intro c t hreach
    obtain ⟨p, hp, hpf, hpv⟩ := Utils.progressOf_value duration startTime t hduration hpositive
      (le_trans hpositive.le hreach)
    have hq : 1 ≤ fl ((t.sub startTime).toRat / duration.toRat) := by
      have h := JsNumber.fl_mono 1 ((t.sub startTime).toRat / duration.toRat) (by norm_num)
        ((one_le_div hpositive).mpr hreach)
      rwa [JsNumber.fl_one] at h
    have hp1 : ¬ p.toRat < 1 := by
      rw [hpv, min_eq_right hq]
      exact lt_irrefl 1
    have hlt : ¬ p.lt one = true := by
      intro h
      have := (JsNumber.lt_iff p one hpf JsNumber.one_finite).mp h
      rw [JsNumber.one_toRat] at this
      exact hp1 this
    rw [Utils.animate_of_progress pow target duration startTime c t p hp, if_neg hlt]
  refine ⟨hstep, ?_, ?_, hdone, ?_, ?_⟩
  · intro c c1 t ht hle hres
    obtain ⟨p, hp, hpf, hp0, hp1, _⟩ :=
      Utils.progress_of_frame duration startTime t hduration hpositive hstart ht hle
    rw [Utils.animate_of_progress pow target duration startTime c t p hp] at hres
    by_cases hlt : p.lt one = true
    · rw [if_pos hlt] at hres
      cases hres
      exact Utils.currentOf_range pow hpow target p htarget ⟨n, hn⟩ hdouble hpf hp0 hp1
    · rw [if_neg hlt] at hres
      cases hres
      exact ⟨h0t, le_refl _, n, by rw [hn]; norm_cast⟩
  · intro c1 c2 r1 r2 t1 t2 ht1 ht2 hle1 hle12 hres1 hres2
    obtain ⟨p, hp, hpf, hp0, hp1, hpv⟩ :=
      Utils.progress_of_frame duration startTime t1 hduration hpositive hstart ht1 hle1
    obtain ⟨q, hq, hqf, hq0, hq1, hqv⟩ :=
      Utils.progress_of_frame duration startTime t2 hduration hpositive hstart ht2
        (le_trans hle1 hle12)
    have hpq : p.toRat ≤ q.toRat := by
      rw [hpv, hqv]
      have he : fl (t1.toRat - startTime.toRat) ≤ fl (t2.toRat - startTime.toRat) :=
        JsNumber.fl_mono _ _ (by linarith) (by linarith)
      have he0 : 0 ≤ fl (t1.toRat - startTime.toRat) := JsNumber.fl_nonneg _ (by linarith)
      exact min_le_min (JsNumber.fl_mono _ _ (div_nonneg he0 hpositive.le)
        (div_le_div_of_nonneg_right he hpositive.le)) (le_refl 1)
    rw [Utils.animate_of_progress pow target duration startTime c1 t1 p hp] at hres1
    rw [Utils.animate_of_progress pow target duration startTime c2 t2 q hq] at hres2
    by_cases hltq : q.lt one = true
    · have hq1' := (JsNumber.lt_iff q one hqf JsNumber.one_finite).mp hltq
      rw [JsNumber.one_toRat] at hq1'
      have hltp : p.lt one = true := by
        apply (JsNumber.lt_iff p one hpf JsNumber.one_finite).mpr
        rw [JsNumber.one_toRat]
        linarith
      rw [if_pos hltp] at hres1
      rw [if_pos hltq] at hres2
      cases hres1
      cases hres2
      exact Utils.currentOf_mono pow hpow target p q htarget h0t hpf hqf hp0 hpq hq1
    · rw [if_neg hltq] at hres2
      cases hres2
      by_cases hltp : p.lt one = true
      · rw [if_pos hltp] at hres1
        cases hres1
        exact (Utils.currentOf_range pow hpow target p htarget ⟨n, hn⟩ hdouble hpf hp0 hp1).2.1
      · rw [if_neg hltp] at hres1
        cases hres1
        exact le_refl _
  · intro c times
    have hrun : ∀ (l : List JsNumber) (c0 : CounterAnimation),
        (∃ t ∈ l, duration.toRat ≤ (t.sub startTime).toRat) →
        (c0.frameRequested = true ∨ c0 = { textContent := target, frameRequested := false }) →
        framesFrom pow target duration startTime c0 l
          = some { textContent := target, frameRequested := false } := by
      intro l
      induction l with
      | nil =>
        intro c0 hex _
        obtain ⟨t, ht, _⟩ := hex
        simp at ht
      | cons t l ih =>
        intro c0 hex hc0
        rcases hc0 with hreq | hfin
        · obtain ⟨c1, hc1, hstate⟩ := hstep c0 t
          simp only [framesFrom, frame, hreq, if_true, hc1]
          obtain ⟨u, hu, hreach⟩ := hex
          rcases List.mem_cons.mp hu with h | h
          · subst h
            rw [hdone c0 u hreach] at hc1
            cases hc1
            exact Utils.framesFrom_done pow target duration startTime l
          · exact ih c1 ⟨u, h, hreach⟩ hstate
        · rw [hfin]
          exact Utils.framesFrom_done pow target duration startTime (t :: l)
    intro hex
    exact hrun times (animateCounter c) hex (Or.inl rfl)
  · intro c c1 t ht hle hres hreq
    obtain ⟨p, hp, hpf, hp0, hp1, hpv⟩ :=
      Utils.progress_of_frame duration startTime t hduration hpositive hstart ht hle
    rw [Utils.animate_of_progress pow target duration startTime c t p hp] at hres
    by_cases hlt : p.lt one = true
    · rw [if_pos hlt] at hres
      cases hres
      have hp1' := (JsNumber.lt_iff p one hpf JsNumber.one_finite).mp hlt
      rw [JsNumber.one_toRat] at hp1'
      obtain ⟨_, hs, _, _, _, _, hval⟩ :=
        Utils.currentOf_value pow hpow target p htarget h0t hpf hp0 hp1
      exact ⟨p, hp, hpv, hp1', hs, hval⟩
    · rw [if_neg hlt] at hres
      cases hres
      cases hreq

set_option maxRecDepth 100000 in
theorem animateCounter_stays_within_target_and_ends_on_it_witness :
    animate powRounded { num := 100, den := 1 } { num := 1000, den := 1 } { num := 0, den := 1 }
        idleCounter { num := 500, den := 1 }
      = some { textContent := { num := 93, den := 1 }, frameRequested := true } ∧
    runFrames powRounded { num := 100, den := 1 } { num := 1000, den := 1 } { num := 0, den := 1 }
        idleCounter
        [{ num := 16, den := 1 }, { num := 500, den := 1 }, { num := 1000, den := 1 },
          { num := 1016, den := 1 }]
      = some { textContent := { num := 100, den := 1 }, frameRequested := false } :=
  ⟨by decide,
    (animateCounter_stays_within_target_and_ends_on_it powRounded JsNumber.powRounded_powLike
      { num := 100, den := 1 } { num := 1000, den := 1 } { num := 0, den := 1 }
      (by simp [JsNumber.Finite]) ⟨100, by norm_num [toRat]⟩
      (JsNumber.toRat_eq_of_cross _ _ (JsNumber.round64_finite _) (by simp [JsNumber.Finite])
        (by decide))
      (by simp [JsNumber.Finite]) (by norm_num [toRat]) (by simp [JsNumber.Finite])).2.2.2.2.1
      idleCounter _
      ⟨{ num := 1000, den := 1 }, by simp,
        JsNumber.toRat_le_of_not_lt _ _ (JsNumber.sub_finite _ _) (by simp [JsNumber.Finite])
          (by decide)⟩⟩

set_option maxRecDepth 100000 in
theorem animateCounter_shows_less_than_exact_formula :
    animate powRounded { num := 10000, den := 1 } { num := 1000, den := 1 }
        { num := 0, den := 1 } idleCounter { num := 200, den := 1 }
      = some { textContent := { num := 5903, den := 1 }, frameRequested := true } ∧
    animate powByProduct { num := 10000, den := 1 } { num := 1000, den := 1 }
        { num := 0, den := 1 } idleCounter { num := 200, den := 1 }
      = some { textContent := { num := 5903, den := 1 }, frameRequested := true } ∧
    easedValue 10000 1000 (200 - 0) = 5904 :=
  ⟨by decide, by decide, by
    unfold easedValue
    rw [Int.floor_eq_iff]
    norm_num⟩

set_option maxRecDepth 100000 in
theorem Utils.animate_depends_on_pow :
    animate powRounded { num := 10000, den := 1 } { num := 1000, den := 1 }
        { num := 0, den := 1 } idleCounter { num := 100, den := 1 }
      = some { textContent := { num := 3439, den := 1 }, frameRequested := true } ∧
    animate powByProduct { num := 10000, den := 1 } { num := 1000, den := 1 }
        { num := 0, den := 1 } idleCounter { num := 100, den := 1 }
      = some { textContent := { num := 3438, den := 1 }, frameRequested := true } :=
  ⟨by decide, by decide⟩

end Counter

end Portfolio
